import Mathlib

/-!
Shallow embedding of the core of `subsets.c` (the "Subsets" puzzle):
board model, validator, constraint-propagation solver, generator and
move engine, together with theorems checking the natural-language
specification against this embedding.

Conventions of the embedding:
* C `unsigned int` cell values are modelled as `Nat`; the C code only
  ever produces values below `2 ^ 32` on the paths modelled here, and
  the bitwise operators `&`, `|`, `~` (the latter only in the idiom
  `newknown = ~0` of `subsets_bits_from_cube`, modelled as
  `2 ^ 32 - 1`) map to `&&&`, `|||` and that constant.
* C arrays are Lean lists; reads are `List.getD` with default `0`
  (resp. `false` for the solver cube), writes are `List.set` (which is
  a no-op out of range, where the C original would be undefined).
* The `while` loop of `subsets_solve_game` is modelled with an explicit
  fuel argument; when fuel runs out the model returns the same value
  the C loop would return if it stopped at that point (the status of
  the last validator call).  Every productive iteration strictly
  removes a cube possibility or tightens a bound, so the generous fuel
  chosen in `subsets_solve_game` is never exhausted in practice.

The file is organised as: all definitions first, then all theorems.
-/

namespace Subsets

/-- Status codes of the validator/solver, `STATUS_*` in the source. -/
inductive Status where
  | complete
  | unfinished
  | invalid
deriving DecidableEq

/-- ALL_BITS(n) = (1 << n) - 1. -/
def ALL_BITS (n : Nat) : Nat := 2 ^ n - 1

/-- One row of the `adjthan` table: flag, opposite flag, x/y deltas and
the game-description encoding character. -/
structure Adj where
  f : Nat
  fo : Nat
  dx : Int
  dy : Int
  enc : Char

/-- The `adjthan` table (up, right, down, left). -/
def adjthan : List Adj :=
  [⟨1, 4, 0, -1, 'U'⟩, ⟨2, 8, 1, 0, 'R'⟩, ⟨4, 1, 0, 1, 'D'⟩, ⟨8, 2, -1, 0, 'L'⟩]

/-- Row `d` of `adjthan` (reads past the table return a null entry). -/
def adjAt (d : Nat) : Adj := adjthan.getD d ⟨0, 0, 0, 0, ' '⟩

/-- Read of a C `unsigned int` array at index `i`. -/
def nthN (xs : List Nat) (i : Nat) : Nat := xs.getD i 0

/-- Read of the solver cube at flat index `i`. -/
def nthB (xs : List Bool) (i : Nat) : Bool := xs.getD i false

/-- The struct `game_state`. -/
structure game_state where
  w : Nat
  h : Nat
  n : Nat
  clues : List Nat
  immutable : List Nat
  known : List Nat
  mask : List Nat
  completed : Bool
  cheated : Bool
deriving DecidableEq

/- ***********
 * Validator *
 *********** -/

/-- One step of the duplicate-counting loop of `subsets_validate`
(cell `i`); the first branch models the `break` taken when no flags
buffer was supplied and the status already became invalid. -/
def countStep (state : game_state) (useFlags : Bool) (acc : Status × List Nat)
    (i : Nat) : Status × List Nat :=
  if useFlags = false ∧ acc.1 = Status.invalid then acc
  else if nthN state.known i = nthN state.mask i then
    let v := nthN state.known i
    let cnts := acc.2.set v (acc.2.getD v 0 + 1)
    (if 1 < cnts.getD v 0 then Status.invalid else acc.1, cnts)
  else acc

/-- The branch conditions of one direction `d` of the arrow-checking
loop of `subsets_validate`, at the (already resolved) cell `i`: `true`
exactly when that loop body would set `STATUS_INVALID` (and mark
`flags[i] |= adjthan[d].f`), i.e. when neither of its `continue`
conditions holds (neighbour off grid, neighbour unresolved, arrowless
pair seen from its later cell) and the arrow (resp. implicit
disjointness) constraint is violated. -/
def edgeViol (state : game_state) (i : Nat) (d : Nat) : Bool :=
  let w := state.w
  let h := state.h
  let x : Int := (i % w : Nat)
  let y : Int := (i / w : Nat)
  let a := adjAt d
  let x2 := x + a.dx
  let y2 := y + a.dy
  if x2 < 0 ∨ (w : Int) ≤ x2 ∨ y2 < 0 ∨ (h : Int) ≤ y2 then false
  else
    let i2 := (y2 * w + x2).toNat
    if nthN state.known i2 ≠ nthN state.mask i2 then false
    else if nthN state.clues i &&& a.f = 0 ∧ (x2 < x ∨ y2 < y) then false
    else
      let intersect := nthN state.known i &&& nthN state.known i2
      if nthN state.clues i &&& a.f ≠ 0 then
        decide (intersect ≠ nthN state.known i2)
      else if nthN state.clues i2 &&& a.fo = 0 then
        decide (intersect = nthN state.known i2 ∨ intersect = nthN state.known i)
      else false

/-- One direction `d` of the arrow-checking loop of `subsets_validate`
at the (already resolved) cell `i`: on a violation the status becomes
invalid and, when a flags buffer is present, the edge is flagged on
`i`; on all `continue` paths and satisfied constraints the
accumulator is unchanged. -/
def arrowDirStep (state : game_state) (useFlags : Bool) (i : Nat)
    (acc : Status × List Nat) (d : Nat) : Status × List Nat :=
  if edgeViol state i d = true then
    (Status.invalid,
      if useFlags then acc.2.set i (acc.2.getD i 0 ||| (adjAt d).f) else acc.2)
  else acc

/-- One cell of the arrow-checking loop of `subsets_validate`; the
first branch models the `break` taken without a flags buffer, the
second the `continue` on unresolved cells. -/
def arrowCellStep (state : game_state) (useFlags : Bool) (acc : Status × List Nat)
    (i : Nat) : Status × List Nat :=
  if useFlags = false ∧ acc.1 = Status.invalid then acc
  else if nthN state.known i ≠ nthN state.mask i then acc
  else (List.range 4).foldl (arrowDirStep state useFlags i) acc

/-- The status after the first loop of `subsets_validate`: demoted to
unfinished when some cell is unresolved. -/
def initialStatus (state : game_state) : Status :=
  if (List.range (state.w * state.h)).any
      (fun i => nthN state.known i ≠ nthN state.mask i) then
    Status.unfinished
  else Status.complete

/-- `subsets_validate`.  The C optional output buffers `flags` and
`counts` are modelled by the two booleans (whether the corresponding
pointer is non-null) plus the two returned lists; on the early
`return STATUS_UNFINISHED` path the buffers are untouched, modelled by
returning empty lists. -/
def subsets_validate (state : game_state) (useFlags useCounts : Bool) :
    Status × List Nat × List Nat :=
  let s := state.w * state.h
  let ret0 := initialStatus state
  if useFlags = false ∧ useCounts = false ∧ ret0 = Status.unfinished then
    (Status.unfinished, [], [])
  else
    let counts0 : List Nat := List.replicate s 0
    let flags0 : List Nat := List.replicate s 0
    let rc := (List.range s).foldl (countStep state useFlags) (ret0, counts0)
    let rf := (List.range s).foldl (arrowCellStep state useFlags) (rc.1, flags0)
    (rf.1, rf.2, rc.2)

/- Pure reformulations used to state the validator theorems. -/

/-- Cell `i` is resolved: its two bounds agree. -/
def resolvedB (state : game_state) (i : Nat) : Bool :=
  nthN state.known i == nthN state.mask i

/-- The number of resolved cells of `state` whose value is `v`. -/
def countsSpec (state : game_state) (v : Nat) : Nat :=
  ((List.range (state.w * state.h)).filter
    (fun i => resolvedB state i && (nthN state.known i == v))).length

/-- Bounds ordering: the board `b` is at least as tight as `a` — every
known bit of `a` is still known in `b`, and every bit of `b`'s mask
was still allowed by `a`'s mask, for every cell. -/
def boundsLe (a b : game_state) : Prop :=
  ∀ i, (nthN a.known i &&& nthN b.known i = nthN a.known i) ∧
       (nthN b.mask i &&& nthN a.mask i = nthN b.mask i)

/-- Compatibility of a cube with a board's bounds: every surviving
candidate contains the cell's known bits and fits inside its mask
(the state `subsets_sync_cube` establishes). -/
def cubeCompat (state : game_state) (cube : List Bool) : Prop :=
  ∀ i v, i < state.w * state.h → v < 2 ^ state.n →
    nthB cube (i * 2 ^ state.n + v) = true →
    (nthN state.known i &&& v = nthN state.known i) ∧
    (nthN state.mask i &&& v = v)

/-- The union of the `adjthan` flags of the directions in `l` in which
cell `i` witnesses a violation (used to describe the flags buffer the
arrow loop of `subsets_validate` produces). -/
def orFlags (state : game_state) (i : Nat) (l : List Nat) : Nat :=
  l.foldr (fun d r => if edgeViol state i d = true then (adjAt d).f ||| r else r) 0

/-- A fully resolved, valid 1x1 board used in several witnesses. -/
def oneCell : game_state :=
  { w := 1, h := 1, n := 1, clues := [0], immutable := [1],
    known := [1], mask := [1], completed := false, cheated := false }

/-- Counterexample board for the claim that the validator verdict does
not depend on the optional buffers: cell 0 is unresolved, cells 1 and 2
duplicate the value 1 (3 cells in a row, 2-bit alphabet). -/
def cexBuffers : game_state :=
  { w := 3, h := 1, n := 2, clues := [0, 0, 0], immutable := [0, 0, 0],
    known := [0, 1, 1], mask := [3, 1, 1], completed := false, cheated := false }

/-- Counterexample board for the claim that a supplied counts buffer is
always filled completely: values 1, 1, 2 — the duplicate of 1 makes the
count loop break before counting the 2 when no flags buffer is given. -/
def cexCounts : game_state :=
  { w := 3, h := 1, n := 2, clues := [0, 0, 0], immutable := [0, 0, 0],
    known := [1, 1, 2], mask := [1, 1, 2], completed := false, cheated := false }

/- ********
 * Solver *
 ******** -/

/-- Body of the inner loop of `subsets_sync_cube` for cell `i` and
candidate `nj`. -/
def syncOne (state : game_state) (n2 i : Nat) (cb : List Bool) (nj : Nat) :
    List Bool :=
  if nthB cb (i * n2 + nj) = false then cb
  else
    let cb1 := if (nthN state.mask i &&& nj) ≠ nj then
        cb.set (i * n2 + nj) false
      else cb
    if (nthN state.known i &&& nj) ≠ nthN state.known i then
      cb1.set (i * n2 + nj) false
    else cb1

/-- `subsets_sync_cube`: eliminate from the cube every candidate that a
cell's current bounds rule out. -/
def subsets_sync_cube (state : game_state) (cube : List Bool) : List Bool :=
  let s := state.w * state.h
  let n2 := 2 ^ state.n
  (List.range s).foldl (fun cb i =>
    (List.range n2).foldl (syncOne state n2 i) cb) cube

/-- Body of the inner loop of `subsets_cube_single_count` for value
`ni` at cell `j`. -/
def singleCountOne (state : game_state) (n2 ni : Nat) (cb : List Bool) (j : Nat) :
    List Bool :=
  if nthN state.mask j = nthN state.known j then cb
  else if nthB cb (j * n2 + ni) = false then cb
  else cb.set (j * n2 + ni) false

/-- `subsets_cube_single_count`: a value already placed exactly once is
eliminated from every unresolved cell's cube row. -/
def subsets_cube_single_count (state : game_state) (counts : List Nat)
    (cube : List Bool) : List Bool :=
  let s := state.w * state.h
  let n2 := 2 ^ state.n
  (List.range n2).foldl (fun cb ni =>
    if counts.getD ni 0 ≠ 1 then cb
    else (List.range s).foldl (singleCountOne state n2 ni) cb) cube

/-- Body of the direction loop of `subsets_solve_apply_arrows` at cell
`i1`, direction `d`. -/
def applyArrowsDir (w : Nat) (i1 : Nat) (acc : game_state × Nat) (d : Nat) :
    game_state × Nat :=
  if nthN acc.1.clues i1 &&& (adjAt d).f = 0 then acc
  else
    let i2 := ((i1 : Int) + (adjAt d).dy * w + (adjAt d).dx).toNat
    let st := acc.1
    let prev1 := nthN st.known i1
    let newk := prev1 ||| nthN st.known i2
    let st1 := { st with known := st.known.set i1 newk }
    let r1 := if prev1 ≠ newk then acc.2 + 1 else acc.2
    let prev2 := nthN st1.mask i2
    let newm := prev2 &&& nthN st1.mask i1
    let st2 := { st1 with mask := st1.mask.set i2 newm }
    let r2 := if prev2 ≠ newm then r1 + 1 else r1
    (st2, r2)

/-- `subsets_solve_apply_arrows`: for every arrow `i1 -> i2`, the
superset cell confirms the subset's known bits and the subset cell
drops the superset's ruled-out bits; returns the state with the number
of effective changes. -/
def subsets_solve_apply_arrows (state : game_state) : game_state × Nat :=
  let w := state.w
  (List.range (state.w * state.h)).foldl (fun acc i1 =>
    (List.range 4).foldl (applyArrowsDir w i1) acc) (state, 0)

/-- The scan of `subsets_solve_single_position` for the unique cell
still admitting value `nj` (`-1` none found yet, `-2` several). -/
def singlePosFound (s n2 : Nat) (cube : List Bool) (nj : Nat) : Int :=
  (List.range s).foldl (fun f i =>
    if f = -2 then f
    else if nthB cube (i * n2 + nj) = false then f
    else if f = -1 then (i : Int) else -2) (-1)

/-- Body of the value loop of `subsets_solve_single_position`. -/
def singlePosStep (s n2 : Nat) (counts : List Nat) (cube : List Bool)
    (acc : game_state × Nat) (nj : Nat) : game_state × Nat :=
  if counts.getD nj 0 ≠ 0 then acc
  else
    let found := singlePosFound s n2 cube nj
    if found < 0 then acc
    else
      let st := acc.1
      let st1 := { st with known := st.known.set found.toNat nj,
                           mask := st.mask.set found.toNat nj }
      (st1, acc.2 + 1)

/-- `subsets_solve_single_position`: a value with count 0 that fits in
exactly one cell is placed there. -/
def subsets_solve_single_position (state : game_state) (counts : List Nat)
    (cube : List Bool) : game_state × Nat :=
  let s := state.w * state.h
  let n2 := 2 ^ state.n
  (List.range n2).foldl (singlePosStep s n2 counts cube) (state, 0)

/-- Body of the cell loop of `subsets_bits_from_cube` (`newknown`
starts from the C `~0`, the 32-bit all-ones). -/
def bitsFromCubeCell (n2 : Nat) (cube : List Bool) (acc : game_state × Nat)
    (i : Nat) : game_state × Nat :=
  let nm := (List.range n2).foldl (fun (p : Nat × Nat) nj =>
    if nthB cube (i * n2 + nj) = true then (p.1 ||| nj, p.2 &&& nj) else p)
    (0, 2 ^ 32 - 1)
  let st := acc.1
  let prev1 := nthN st.known i
  let newk := prev1 ||| nm.2
  let st1 := { st with known := st.known.set i newk }
  let r1 := if prev1 ≠ newk then acc.2 + 1 else acc.2
  let prev2 := nthN st1.mask i
  let newm := prev2 &&& nm.1
  let st2 := { st1 with mask := st1.mask.set i newm }
  let r2 := if prev2 ≠ newm then r1 + 1 else r1
  (st2, r2)

/-- `subsets_bits_from_cube`: each cell's bounds are tightened by the
union and intersection of its surviving candidates. -/
def subsets_bits_from_cube (state : game_state) (cube : List Bool) :
    game_state × Nat :=
  let s := state.w * state.h
  let n2 := 2 ^ state.n
  (List.range s).foldl (bitsFromCubeCell n2 cube) (state, 0)

/-- Body of the candidate loop of the advanced arrow rule: `super` at
the superset cell `i1` needs a strictly smaller surviving subset at
`i2`. -/
def advancedSuper (n2 i1 i2 : Nat) (acc : List Bool × Nat) (super : Nat) :
    List Bool × Nat :=
  if nthB acc.1 (i1 * n2 + super) = false then acc
  else
    let found := (List.range super).any (fun sub =>
      decide (super &&& sub = sub) && nthB acc.1 (i2 * n2 + sub))
    if found = true then acc
    else (acc.1.set (i1 * n2 + super) false, acc.2 + 1)

/-- Body of the direction loop of
`subsets_solve_apply_arrows_advanced`. -/
def advancedDir (state : game_state) (w n2 i1 : Nat) (acc : List Bool × Nat)
    (d : Nat) : List Bool × Nat :=
  if nthN state.clues i1 &&& (adjAt d).f = 0 then acc
  else
    let i2 := ((i1 : Int) + (adjAt d).dy * w + (adjAt d).dx).toNat
    (List.range n2).foldl (advancedSuper n2 i1 i2) acc

/-- `subsets_solve_apply_arrows_advanced`: for an arrow `i1 -> i2`, a
candidate at the superset cell survives only if some strictly smaller
subset candidate survives at the subset cell.  (The symmetric variant
is commented out in the source and therefore absent here.) -/
def subsets_solve_apply_arrows_advanced (state : game_state) (cube : List Bool) :
    List Bool × Nat :=
  let w := state.w
  let n2 := 2 ^ state.n
  (List.range (state.w * state.h)).foldl (fun acc i1 =>
    (List.range 4).foldl (advancedDir state w n2 i1) acc) (cube, 0)

/-- Body of the candidate loop of `subsets_disjoint`: rule out at the
unresolved cell `i2` every candidate comparable with the resolved
value of `i1`. -/
def disjointOpt (state : game_state) (n2 i1 i2 : Nat) (acc : List Bool × Nat)
    (opt : Nat) : List Bool × Nat :=
  if nthB acc.1 (i2 * n2 + opt) = false then acc
  else if (nthN state.known i1 &&& opt) ≠ opt ∧
      (nthN state.known i1 &&& opt) ≠ nthN state.known i1 then acc
  else (acc.1.set (i2 * n2 + opt) false, acc.2 + 1)

/-- Body of the direction loop of `subsets_disjoint` at cell `i1`,
direction `d`. -/
def disjointDir (state : game_state) (w h n2 i1 : Nat) (acc : List Bool × Nat)
    (d : Nat) : List Bool × Nat :=
  if nthN state.clues i1 &&& (adjAt d).f ≠ 0 then acc
  else
    let x : Int := (i1 % w : Nat)
    let y : Int := (i1 / w : Nat)
    if x + (adjAt d).dx < 0 ∨ (w : Int) ≤ x + (adjAt d).dx ∨
        y + (adjAt d).dy < 0 ∨ (h : Int) ≤ y + (adjAt d).dy then acc
    else
      let i2 := ((i1 : Int) + (adjAt d).dy * w + (adjAt d).dx).toNat
      if nthN state.clues i2 &&& (adjAt d).fo ≠ 0 then acc
      else if nthN state.known i1 ≠ nthN state.mask i1 then
        if nthB acc.1 (i1 * n2) = true ∨ nthB acc.1 (i1 * n2 + (n2 - 1)) = true
        then ((acc.1.set (i1 * n2) false).set (i1 * n2 + (n2 - 1)) false,
          acc.2 + 1)
        else acc
      else if nthN state.known i2 ≠ nthN state.mask i2 then
        (List.range n2).foldl (disjointOpt state n2 i1 i2) acc
      else acc

/-- `subsets_disjoint`: across each arrowless adjacent pair, an
unresolved endpoint loses the empty and the universal set, and an
unresolved cell next to a resolved one loses every candidate
comparable with the resolved value. -/
def subsets_disjoint (state : game_state) (cube : List Bool) :
    List Bool × Nat :=
  let w := state.w
  let h := state.h
  let n2 := 2 ^ state.n
  (List.range (state.w * state.h)).foldl (fun acc i1 =>
    (List.range 4).foldl (disjointDir state w h n2 i1) acc) (cube, 0)

/-- One iteration of the `while` loop of `subsets_solve_game` (after
the validator call): the rules fire in their fixed priority order, any
progress restarting the loop; the returned boolean is whether any rule
fired (`false` means the C loop would `break`). -/
def solverBody (state : game_state) (counts : List Nat) (cube : List Bool) :
    game_state × List Bool × Bool :=
  let cube1 := subsets_sync_cube state cube
  let cube2 := subsets_cube_single_count state counts cube1
  let ar := subsets_solve_apply_arrows state
  if ar.2 ≠ 0 then (ar.1, cube2, true)
  else
    let dj := subsets_disjoint ar.1 cube2
    if dj.2 ≠ 0 then (ar.1, dj.1, true)
    else
      let bc := subsets_bits_from_cube ar.1 dj.1
      if bc.2 ≠ 0 then (bc.1, dj.1, true)
      else
        let sp := subsets_solve_single_position bc.1 counts dj.1
        if sp.2 ≠ 0 then (sp.1, dj.1, true)
        else
          let adv := subsets_solve_apply_arrows_advanced sp.1 dj.1
          if adv.2 ≠ 0 then (sp.1, adv.1, true)
          else (sp.1, adv.1, false)

/-- The `while` loop of `subsets_solve_game`, with fuel.  At fuel 0 the
model returns what the loop condition would produce if the loop
stopped there; the fuel passed by `subsets_solve_game` exceeds the
total number of possible strict tightenings, so it is never exhausted.  -/
def solveLoop : Nat → game_state → List Bool → Status × game_state
  | 0, state, _ => ((subsets_validate state false true).1, state)
  | fuel + 1, state, cube =>
    let v := subsets_validate state false true
    if v.1 ≠ Status.unfinished then (v.1, state)
    else
      let b := solverBody state v.2.2 cube
      if b.2.2 = true then solveLoop fuel b.1 b.2.1
      else (Status.unfinished, b.1)

/-- One cell of the reset at the top of `subsets_solve_game`: a
non-immutable cell returns to the blank bounds. -/
def resetStep (st : game_state) (i : Nat) : game_state :=
  if nthN st.immutable i ≠ 0 then st
  else { st with known := st.known.set i 0,
                 mask := st.mask.set i (ALL_BITS st.n) }

/-- The reset at the top of `subsets_solve_game`: every non-immutable
cell returns to the blank bounds. -/
def solveReset (state : game_state) : game_state :=
  (List.range (state.w * state.h)).foldl resetStep state

/-- `subsets_solve_game`: reset every non-immutable cell, clear the
cube, and iterate the solver rules until the validator reports a
terminal status or no rule fires. -/
def subsets_solve_game (state : game_state) : Status × game_state :=
  let s := state.w * state.h
  let n2 := 2 ^ state.n
  let cube := List.replicate (s * n2) true
  solveLoop (s * n2 + 64 * s + 1) (solveReset state) cube

/- *************
 * Move engine *
 ************* -/

/-- `dup_game`: deep copy of a game state (field-by-field). -/
def dup_game (state : game_state) : game_state :=
  { w := state.w, h := state.h, n := state.n,
    clues := state.clues, immutable := state.immutable,
    known := state.known, mask := state.mask,
    completed := state.completed, cheated := state.cheated }

/-- `solve_game`: solve a duplicate of the input board; on a
non-`INVALID` result return the move string `'S'` followed by the
`sprintf`-built `<known>,<mask>` pairs (a `','` after every pair but
the last), otherwise no string and the error message.  The result pair
is (returned move string, error out-parameter). -/
def solve_game (state : game_state) :
    Option (List Char) × Option (List Char) :=
  let r := subsets_solve_game (dup_game state)
  if r.1 ≠ Status.invalid then
    let s := r.2.w * r.2.h
    (some ('S' :: (List.range s).foldl (fun p i =>
      p ++ ((Nat.repr (nthN r.2.known i)).data ++ [','] ++
        (Nat.repr (nthN r.2.mask i)).data) ++
      (if i = s - 1 then [] else [','])) []), none)
  else (none, some ("Puzzle is invalid.".data))

/-- The move string format as the specification words it: the literal
`'S'` followed by the `w*h` comma-separated `<known>,<mask>` pairs of
the board, in row-major order. -/
def solveStringSpec (st : game_state) : List Char :=
  'S' :: List.intercalate [','] ((List.range (st.w * st.h)).map (fun i =>
    (Nat.repr (nthN st.known i)).data ++ [','] ++
      (Nat.repr (nthN st.mask i)).data))

/-- Numeric value of the leading decimal digits of a character list. -/
def digitsToNat (ds : List Char) : Nat :=
  ds.foldl (fun acc c => acc * 10 + (c.toNat - '0'.toNat)) 0

/-- The C `atoi` on the leading digits (0 when there are none). -/
def atoiNat (cs : List Char) : Nat :=
  digitsToNat (cs.takeWhile Char.isDigit)

/-- The C `atoi` with an optional leading minus sign. -/
def atoiInt (cs : List Char) : Int :=
  match cs with
  | '-' :: rest => -(atoiNat rest : Int)
  | _ => (atoiNat cs : Int)

/-- One `%d` conversion of `sscanf`: an optional sign followed by at
least one digit; returns the value and the remaining characters. -/
def scanInt (cs : List Char) : Option (Int × List Char) :=
  match cs with
  | '-' :: rest =>
    if rest.takeWhile Char.isDigit = [] then none
    else some (-(digitsToNat (rest.takeWhile Char.isDigit) : Int),
      rest.dropWhile Char.isDigit)
  | _ =>
    if cs.takeWhile Char.isDigit = [] then none
    else some ((digitsToNat (cs.takeWhile Char.isDigit) : Int),
      cs.dropWhile Char.isDigit)

/-- `sscanf(move, "%c%d,%d", &type, &pos, &n)`, succeeding exactly
when all three items convert (the C library's whitespace handling is
not modelled; no caller of `execute_move` produces whitespace). -/
def scanMove (cs : List Char) : Option (Char × Int × Int) :=
  match cs with
  | [] => none
  | c :: rest =>
    match scanInt rest with
    | none => none
    | some (pos, rest2) =>
      match rest2 with
      | ',' :: rest3 =>
        match scanInt rest3 with
        | none => none
        | some (bit, _) => some (c, pos, bit)
      | _ => none

/-- The `while` loop of the `'S'` branch of `execute_move`: read up to
`w*h` pairs `<known>,<mask>` into the two arrays.  The C loop counter
`pos` increments every iteration, so `wh` iterations always suffice
(the fuel argument starts at `wh`). -/
def sLoop (wh : Nat) : Nat → List Nat → List Nat → Nat → List Char →
    List Nat × List Nat
  | 0, known, mask, _, _ => (known, mask)
  | fuel + 1, known, mask, pos, p =>
    if pos < wh ∧ p ≠ [] then
      let n1 := ((atoiInt p).emod (2 ^ 32)).toNat
      let p1 := (p.dropWhile Char.isDigit).drop 1
      let n2 := ((atoiInt p1).emod (2 ^ 32)).toNat
      let p2 := (p1.dropWhile Char.isDigit).drop 1
      sLoop wh fuel (known.set pos n1) (mask.set pos n2) (pos + 1) p2
    else (known, mask)

/-- `execute_move`.  The move is the C string as a character list; the
result is `none` where the C function returns `NULL`.  The `(unsigned
int)` casts of the `'S'` branch are `emod (2 ^ 32)`, and the `~(1 <<
n)` of the `'C'`/`'U'` branches is the 32-bit complement. -/
def execute_move (state : game_state) (move : List Char) : Option game_state :=
  match move with
  | [] => none
  | mc :: _ =>
    if mc = 'S' then
      let ret := dup_game state
      let km := sLoop (state.w * state.h) (state.w * state.h)
        ret.known ret.mask 0 (move.drop 1)
      some { ret with known := km.1, mask := km.2 }
    else
      match scanMove move with
      | none => none
      | some (type, pos, n) =>
        if pos < 0 ∨ (state.w * state.h : Int) ≤ pos then none
        else if n < 0 ∨ (state.n : Int) ≤ n then none
        else if nthN state.immutable pos.toNat &&& (1 <<< n.toNat) ≠ 0 then none
        else
          let ret := dup_game state
          let ret :=
            if type = 'K' then
              { ret with
                known := ret.known.set pos.toNat
                  (nthN ret.known pos.toNat ||| (1 <<< n.toNat)),
                mask := ret.mask.set pos.toNat
                  (nthN ret.mask pos.toNat ||| (1 <<< n.toNat)) }
            else if type = 'C' then
              { ret with
                known := ret.known.set pos.toNat
                  (nthN ret.known pos.toNat &&& ((2 ^ 32 - 1) ^^^ (1 <<< n.toNat))),
                mask := ret.mask.set pos.toNat
                  (nthN ret.mask pos.toNat &&& ((2 ^ 32 - 1) ^^^ (1 <<< n.toNat))) }
            else if type = 'U' then
              { ret with
                known := ret.known.set pos.toNat
                  (nthN ret.known pos.toNat &&& ((2 ^ 32 - 1) ^^^ (1 <<< n.toNat))),
                mask := ret.mask.set pos.toNat
                  (nthN ret.mask pos.toNat ||| (1 <<< n.toNat)) }
            else ret
          let ret :=
            if (subsets_validate ret false false).1 = Status.complete then
              { ret with completed := true }
            else ret
          some ret

/-- The board an accepted play move produces before the completion
check: bounds updated at the touched cell, all else copied. -/
def play_board (state : game_state) (p vk vm : Nat) : game_state :=
  { w := state.w, h := state.h, n := state.n, clues := state.clues,
    immutable := state.immutable,
    known := state.known.set p vk, mask := state.mask.set p vm,
    completed := state.completed, cheated := state.cheated }

/-- The state an accepted play move returns: `play_board`, with the
`completed` flag latched when the validator reports it complete. -/
def play_result (state : game_state) (p vk vm : Nat) : game_state :=
  if (subsets_validate (play_board state p vk vm) false false).1 = Status.complete
  then { play_board state p vk vm with completed := true }
  else play_board state p vk vm

/-- Counterexample board for the claim that an accepted move changes
nothing outside the touched bit: a 1x1 board one bit away from
completion, so the accepting move also flips the `completed` flag. -/
def cexMove : game_state :=
  { w := 1, h := 1, n := 1, clues := [0], immutable := [0],
    known := [0], mask := [1], completed := false, cheated := false }

/- ****************************
 * Description parsing        *
 **************************** -/

/-- `blank_game`: a board of the given dimensions with no clues,
nothing immutable and every cell blank. -/
def blank_game (w h n : Nat) : game_state :=
  { w := w, h := h, n := n,
    clues := List.replicate (w * h) 0,
    immutable := List.replicate (w * h) 0,
    known := List.replicate (w * h) 0,
    mask := List.replicate (w * h) (ALL_BITS n),
    completed := false, cheated := false }

/-- The `while (*p == 'U' || *p == 'R' || *p == 'D' || *p == 'L')`
loop of `attempt_load_game` at cell `i`, `switch` included: each flag
letter ors the matching `F_ADJ_*` bit into `clues[i]`; the `default`
branch of the `switch` (the error return) is kept although the loop
condition makes it unreachable. -/
def flagsLoop (i : Nat) : game_state → List Char →
    (game_state × List Char) ⊕ List Char
  | state, [] => Sum.inl (state, [])
  | state, c :: rest =>
    if c = 'U' ∨ c = 'R' ∨ c = 'D' ∨ c = 'L' then
      if c = 'U' then
        flagsLoop i { state with
          clues := state.clues.set i (nthN state.clues i ||| 1) } rest
      else if c = 'R' then
        flagsLoop i { state with
          clues := state.clues.set i (nthN state.clues i ||| 2) } rest
      else if c = 'D' then
        flagsLoop i { state with
          clues := state.clues.set i (nthN state.clues i ||| 4) } rest
      else if c = 'L' then
        flagsLoop i { state with
          clues := state.clues.set i (nthN state.clues i ||| 8) } rest
      else Sum.inr ("Expecting flag URDL in game description".data)
    else Sum.inl (state, c :: rest)

/-- The `while (*p)` loop of `attempt_load_game`, with fuel.  Every
iteration consumes at least one character, so the fuel
`attempt_load_game` passes (the description length) is never
exhausted; at fuel 0 the model behaves as if the loop stopped (like
the `*p == 0` exit). -/
def loadLoop (w h n : Nat) : Nat → game_state → Nat → List Char →
    game_state ⊕ List Char
  | _, state, i, [] =>
    if i < w * h then Sum.inr ("Not enough data to fill grid".data)
    else Sum.inl state
  | 0, state, i, _ :: _ =>
    if i < w * h then Sum.inr ("Not enough data to fill grid".data)
    else Sum.inl state
  | fuel + 1, state, i, c :: rest =>
    if w * h ≤ i then Sum.inr ("Too much data to fill grid".data)
    else
      match
        (if c.isDigit then
          let num := atoiNat (c :: rest)
          if ALL_BITS n < num then
            Sum.inr ("Out-of-range number in game description".data)
          else
            Sum.inl ({ state with
                known := state.known.set i num,
                mask := state.mask.set i num,
                immutable := state.immutable.set i (ALL_BITS n) },
              (c :: rest).dropWhile Char.isDigit)
        else if c = '_' then Sum.inl (state, rest)
        else
          (Sum.inr ("Expecting number in game description".data) :
            (game_state × List Char) ⊕ List Char)) with
      | Sum.inr e => Sum.inr e
      | Sum.inl (st1, p1) =>
        match flagsLoop i st1 p1 with
        | Sum.inr e => Sum.inr e
        | Sum.inl (st2, p2) =>
          if i + 1 < w * h ∧ p2.headD '\x00' ≠ ',' then
            Sum.inr ("Missing separator".data)
          else
            loadLoop w h n fuel st2 (i + 1)
              (if p2.headD '\x00' = ',' then p2.tail else p2)

/-- The post-load flag check of `attempt_load_game` at one cell: a
flag must not point off the grid nor at a cell whose own flag points
back. -/
def flagCheckCell (st : game_state) (w h x y : Nat) : Option (List Char) :=
  (List.range 4).foldl (fun acc i =>
    match acc with
    | some e => some e
    | none =>
      if nthN st.clues (y * w + x) &&& (adjAt i).f ≠ 0 then
        if (x : Int) + (adjAt i).dx < 0 ∨ (y : Int) + (adjAt i).dy < 0 ∨
            (w : Int) ≤ (x : Int) + (adjAt i).dx ∨
            (h : Int) ≤ (y : Int) + (adjAt i).dy then
          some ("Flags go off grid".data)
        else if nthN st.clues ((((y : Int) + (adjAt i).dy) * w +
            ((x : Int) + (adjAt i).dx)).toNat) &&& (adjAt i).fo ≠ 0 then
          some ("Flags contradicting each other".data)
        else none
      else none) none

/-- The two nested cell loops of the post-load flag check. -/
def flagsCheck (st : game_state) (w h : Nat) : Option (List Char) :=
  (List.range h).foldl (fun acc y =>
    (List.range w).foldl (fun acc2 x =>
      match acc2 with
      | some e => some e
      | none => flagCheckCell st w h x y) acc) none

/-- `attempt_load_game`, returning the loaded board or the error
message.  The source reads `state->w` into its local `h` as well, so
both loop bounds use the board width. -/
def attempt_load_game (state : game_state) (desc : List Char) :
    game_state ⊕ List Char :=
  let w := state.w
  let h := state.w
  let n := state.n
  match loadLoop w h n desc.length state 0 desc with
  | Sum.inr e => Sum.inr e
  | Sum.inl st =>
    match flagsCheck st w h with
    | some e => Sum.inr e
    | none => Sum.inl st

/- ****************************
 * Generator                  *
 **************************** -/

/-- The state `new_game_desc` builds before synthesizing clues: the
first `2^n` cells hold the shuffled permutation (`perm` is the content
of `known[0..2^n)` after the `shuffle` call), resolved and immutable;
any remaining cells stay blank.  (The supported parameters have
`w*h = 2^n`, so the second parts are empty there.) -/
def genBase (w h n : Nat) (perm : List Nat) : game_state :=
  { w := w, h := h, n := n,
    clues := List.replicate (w * h) 0,
    immutable := List.replicate (2 ^ n) 1 ++
      List.replicate (w * h - 2 ^ n) 0,
    known := perm ++ List.replicate (w * h - 2 ^ n) 0,
    mask := perm ++ List.replicate (w * h - 2 ^ n) (ALL_BITS n),
    completed := false, cheated := false }

/-- The clue bits `new_game_desc` synthesizes at cell `i`: for each
in-grid direction whose neighbour's value is contained in the cell's
value, or in the direction's arrow flag. -/
def genClueCell (w h : Nat) (known : List Nat) (i : Nat) (c : Nat) : Nat :=
  (List.range 4).foldl (fun c2 d =>
    if ((i % w : Nat) : Int) + (adjAt d).dx < 0 ∨
        (w : Int) ≤ ((i % w : Nat) : Int) + (adjAt d).dx ∨
        ((i / w : Nat) : Int) + (adjAt d).dy < 0 ∨
        (h : Int) ≤ ((i / w : Nat) : Int) + (adjAt d).dy then c2
    else if nthN known i &&&
        nthN known (((i : Int) + (adjAt d).dy * w + (adjAt d).dx).toNat) =
        nthN known (((i : Int) + (adjAt d).dy * w + (adjAt d).dx).toNat) then
      c2 ||| (adjAt d).f
    else c2) c

/-- The clue-synthesis double loop of `new_game_desc` (row-major, so a
single loop over the cell index). -/
def genClues (w h : Nat) (known : List Nat) (clues0 : List Nat) : List Nat :=
  (List.range (w * h)).foldl (fun cl i =>
    cl.set i (genClueCell w h known i (nthN cl i))) clues0

/-- The generator state just before the minimisation loop. -/
def genStart (w h n : Nat) (perm : List Nat) : game_state :=
  let base := genBase w h n perm
  { base with clues := genClues w h base.known base.clues }

/-- One step of the minimisation loop of `new_game_desc`: unfix cell
`i`, and re-fix it when the solver alone can no longer complete the
board. -/
def unfixStep (state : game_state) (i : Nat) : game_state :=
  let st1 := { state with immutable := state.immutable.set i 0 }
  if (subsets_solve_game (dup_game st1)).1 ≠ Status.complete then
    { st1 with immutable := st1.immutable.set i 1 }
  else st1

/-- The generator's final state: the minimisation loop visits the
cells in the shuffled order `order` (the content of the `spaces` array
after its `shuffle`). -/
def new_game_state (w h n : Nat) (perm order : List Nat) : game_state :=
  order.foldl unfixStep (genStart w h n perm)

/-- The board a puzzle description denotes, as the specification words
it: every cell whose descriptor is a number is immutable and resolved
with that value, every other cell is blank, and the clue flags carry
over. -/
def descBoard (st : game_state) : game_state :=
  { st with
    known := (List.range (st.w * st.h)).map (fun i =>
      if nthN st.immutable i ≠ 0 then nthN st.known i else 0),
    mask := (List.range (st.w * st.h)).map (fun i =>
      if nthN st.immutable i ≠ 0 then nthN st.known i else ALL_BITS st.n),
    immutable := (List.range (st.w * st.h)).map (fun i =>
      if nthN st.immutable i ≠ 0 then 1 else 0) }

/-- Soundness of a board's bounds with respect to the generator's full
assignment `perm`: every cell's `known` is contained in its `perm`
value, which fits in its `mask`. -/
def permSound (perm : List Nat) (s : Nat) (st : game_state) : Prop :=
  ∀ i, i < s →
    (nthN st.known i &&& nthN perm i = nthN st.known i) ∧
    (nthN perm i &&& nthN st.mask i = nthN perm i)

/-- Soundness of a candidate cube with respect to `perm`: every cell's
`perm` value is still a live candidate. -/
def cubeSound (perm : List Nat) (s n2 : Nat) (cube : List Bool) : Prop :=
  ∀ i, i < s → nthB cube (i * n2 + nthN perm i) = true

/-- The in-grid test of direction `d` at cell `i` on the 4x4 board, as
each direction loop of `subsets.c` writes it. -/
def inGrid (i d : Nat) : Prop :=
  ¬ (((i % 4 : Nat) : Int) + (adjAt d).dx < 0 ∨
     (4 : Int) ≤ ((i % 4 : Nat) : Int) + (adjAt d).dx ∨
     ((i / 4 : Nat) : Int) + (adjAt d).dy < 0 ∨
     (4 : Int) ≤ ((i / 4 : Nat) : Int) + (adjAt d).dy)

/-- The neighbour index in direction `d` from cell `i` on the 4x4
board. -/
def tgt (i d : Nat) : Nat :=
  ((i : Int) + (adjAt d).dy * 4 + (adjAt d).dx).toNat

/-- The clue list `cl` tells the truth about the assignment `perm`:
cell `i` carries the arrow flag of direction `d` exactly when the
neighbour exists and its value is contained in the cell's value. -/
def clueSound (perm cl : List Nat) : Prop :=
  ∀ i d, i < 16 → d < 4 →
    ((nthN cl i &&& (adjAt d).f ≠ 0) ↔
      (inGrid i d ∧
       nthN perm i &&& nthN perm (tgt i d) = nthN perm (tgt i d)))

/-- Witness board for the validator edge checks: a 2x1 board whose
cell 0 (value 1) carries an arrow toward cell 1 (value 2), violating
the containment the arrow asserts. -/
def cexC4 : game_state :=
  { w := 2, h := 1, n := 2, clues := [2, 0], immutable := [3, 3],
    known := [1, 2], mask := [1, 2], completed := false, cheated := false }

/-- The T3 scenario board: a 2x1 board over a 4-bit alphabet with no
arrows, cell 0 resolved with value 0b1100 = 12 and cell 1 blank. -/
def cexT3 : game_state :=
  { w := 2, h := 1, n := 4, clues := [0, 0], immutable := [0, 0],
    known := [12, 0], mask := [12, 15], completed := false, cheated := false }

/- ======================================================================
 * THEOREMS
 * ====================================================================== -/

/- List and fold helper lemmas. -/

theorem getD_set_self {α : Type} (xs : List α) (i : Nat) (a d : α)
    (h : i < xs.length) : (xs.set i a).getD i d = a := by
  induction xs generalizing i with
  | nil => simp at h
  | cons x xs ih =>
    cases i with
    | zero => rfl
    | succ i => simpa [List.getD] using ih i (by simpa using h)

theorem getD_set_ne {α : Type} (xs : List α) (i j : Nat) (a d : α)
    (h : i ≠ j) : (xs.set i a).getD j d = xs.getD j d := by
  induction xs generalizing i j with
  | nil => simp [List.getD]
  | cons x xs ih =>
    cases i with
    | zero =>
      cases j with
      | zero => exact absurd rfl h
      | succ j => rfl
    | succ i =>
      cases j with
      | zero => rfl
      | succ j => simpa [List.getD] using ih i j (fun hc => h (by rw [hc]))

theorem foldl_induction {α β : Type} (f : β → α → β) (l : List α) (init : β)
    (P : β → Prop) (h0 : P init) (hstep : ∀ b a, a ∈ l → P b → P (f b a)) :
    P (l.foldl f init) := by
  induction l generalizing init with
  | nil => exact h0
  | cons a l ih =>
    exact ih (f init a) (hstep init a (List.mem_cons_self a l)
      h0) (fun b a' ha' hb => hstep b a' (List.mem_cons_of_mem a ha') hb)

theorem set_oob {α : Type} (xs : List α) (i : Nat) (a : α)
    (h : xs.length ≤ i) : xs.set i a = xs := by
  induction xs generalizing i with
  | nil => rfl
  | cons x xs ih =>
    cases i with
    | zero => simp at h
    | succ i => simpa using ih i (by simpa using h)

/- Characterisation of the duplicate-counting loop. -/

theorem countFold_getD (state : game_state) (l : List Nat) (r : Status)
    (cnts : List Nat) (v : Nat) (hv : v < cnts.length) :
    ((l.foldl (countStep state true) (r, cnts)).2).getD v 0 =
      cnts.getD v 0 +
        (l.filter (fun i => resolvedB state i && (nthN state.known i == v))).length := by
  induction l generalizing r cnts with
  | nil => simp
  | cons i l ih =>
    simp only [List.foldl_cons]
    by_cases hres : nthN state.known i = nthN state.mask i
    · have hstep : countStep state true (r, cnts) i =
        (if 1 < (cnts.set (nthN state.known i)
              (cnts.getD (nthN state.known i) 0 + 1)).getD (nthN state.known i) 0
          then Status.invalid else r,
          cnts.set (nthN state.known i) (cnts.getD (nthN state.known i) 0 + 1)) := by
        simp [countStep, hres]
      rw [hstep]
      by_cases huv : nthN state.known i = v
      · have hcond : (resolvedB state i && (nthN state.known i == v)) = true := by
          simp [resolvedB, hres.symm, huv]
        have hset : (cnts.set (nthN state.known i)
            (cnts.getD (nthN state.known i) 0 + 1)).getD v 0 = cnts.getD v 0 + 1 := by
          rw [huv]; exact getD_set_self _ _ _ _ hv
        have hlen : (List.filter (fun j => resolvedB state j && (nthN state.known j == v))
            (i :: l)).length =
            (List.filter (fun j => resolvedB state j && (nthN state.known j == v)) l).length + 1 := by
          simp [List.filter_cons, hcond]
        rw [ih _ _ (by simpa using hv), hset, hlen]
        omega
      · rw [ih _ _ (by simpa using hv)]
        rw [getD_set_ne _ _ _ _ _ huv]
        have : (resolvedB state i && (nthN state.known i == v)) = false := by
          simp [resolvedB, huv]
        simp [List.filter_cons, this]
    · have hstep : countStep state true (r, cnts) i = (r, cnts) := by
        simp [countStep, hres]
      rw [hstep, ih _ _ hv]
      have : (resolvedB state i && (nthN state.known i == v)) = false := by
        simp [resolvedB, hres]
      simp [List.filter_cons, this]

theorem countFold_invalid_iff (state : game_state) (l : List Nat) (r : Status)
    (cnts : List Nat)
    (h0 : r = Status.invalid ↔ ∃ v, v < cnts.length ∧ 2 ≤ cnts.getD v 0) :
    ((l.foldl (countStep state true) (r, cnts)).1 = Status.invalid ↔
      ∃ v, v < ((l.foldl (countStep state true) (r, cnts)).2).length ∧
        2 ≤ ((l.foldl (countStep state true) (r, cnts)).2).getD v 0) := by
  have main := foldl_induction (countStep state true) l (r, cnts)
    (fun p => p.1 = Status.invalid ↔ ∃ v, v < p.2.length ∧ 2 ≤ p.2.getD v 0)
    h0 ?_
  · exact main
  · rintro ⟨rb, cb⟩ i _ hb
    by_cases hres : nthN state.known i = nthN state.mask i
    · have hstep : countStep state true (rb, cb) i =
        (if 1 < (cb.set (nthN state.known i)
              (cb.getD (nthN state.known i) 0 + 1)).getD (nthN state.known i) 0
          then Status.invalid else rb,
          cb.set (nthN state.known i) (cb.getD (nthN state.known i) 0 + 1)) := by
        simp [countStep, hres]
      rw [hstep]
      by_cases hrange : nthN state.known i < cb.length
      · set u := nthN state.known i with hu
        have hget : (cb.set u (cb.getD u 0 + 1)).getD u 0 = cb.getD u 0 + 1 :=
          getD_set_self _ _ _ _ hrange
        by_cases hbig : 1 < cb.getD u 0 + 1
        · have hcond : 1 < (cb.set u (cb.getD u 0 + 1)).getD u 0 := by
            rw [hget]; exact hbig
          rw [if_pos hcond]
          constructor
          · intro _
            exact ⟨u, by simpa using hrange, by rw [hget]; omega⟩
          · intro _
            rfl
        · have hz : cb.getD u 0 = 0 := by omega
          have hiff : ∀ v, v < cb.length →
              ((cb.set u (cb.getD u 0 + 1)).getD v 0 = if v = u then 1 else cb.getD v 0) := by
            intro v hvl
            by_cases hvu : v = u
            · rw [hvu, hget, hz]; simp
            · rw [getD_set_ne _ _ _ _ _ (fun hc => hvu hc.symm)]
              simp [hvu]
          have hnotbig : ¬ 1 < (cb.set u (cb.getD u 0 + 1)).getD u 0 := by
            rw [hget, hz]; omega
          rw [if_neg hnotbig]
          constructor
          · intro hrb
            rcases hb.mp hrb with ⟨v, hvl, hv2⟩
            refine ⟨v, by simpa using hvl, ?_⟩
            rw [hiff v hvl]
            by_cases hvu : v = u
            · exfalso; rw [hvu, hz] at hv2; omega
            · simpa [hvu] using hv2
          · rintro ⟨v, hvl, hv2⟩
            have hvl' : v < cb.length := by simpa using hvl
            rw [hiff v hvl'] at hv2
            by_cases hvu : v = u
            · rw [if_pos hvu] at hv2; omega
            · rw [if_neg hvu] at hv2
              exact hb.mpr ⟨v, hvl', hv2⟩
      · have hnop : cb.set (nthN state.known i) (cb.getD (nthN state.known i) 0 + 1) = cb :=
          set_oob _ _ _ (by omega)
        have hget0 : cb.getD (nthN state.known i) 0 = 0 := by
          rw [List.getD_eq_getElem?_getD, List.getElem?_eq_none (by omega)]
          rfl
        rw [hnop, hget0]
        simpa using hb
    · have hstep : countStep state true (rb, cb) i = (rb, cb) := by
        simp [countStep, hres]
      rw [hstep]
      exact hb

theorem countStep_fst_cases (state : game_state) (uf : Bool)
    (p : Status × List Nat) (i : Nat) :
    (countStep state uf p i).1 = p.1 ∨ (countStep state uf p i).1 = Status.invalid := by
  by_cases h1 : uf = false ∧ p.1 = Status.invalid
  · left; simp [countStep, h1]
  · by_cases h2 : nthN state.known i = nthN state.mask i
    · simp only [countStep, if_neg h1, if_pos h2]
      by_cases h3 : 1 < (p.2.set (nthN state.known i)
          (p.2.getD (nthN state.known i) 0 + 1)).getD (nthN state.known i) 0
      · right; simp only [if_pos h3]
      · left; simp only [if_neg h3]
    · left; simp [countStep, h1, h2]

theorem countFold_fst_cases (state : game_state) (uf : Bool) (l : List Nat)
    (acc : Status × List Nat) :
    (l.foldl (countStep state uf) acc).1 = acc.1 ∨
      (l.foldl (countStep state uf) acc).1 = Status.invalid := by
  refine foldl_induction _ l acc (fun p => p.1 = acc.1 ∨ p.1 = Status.invalid)
    (Or.inl rfl) ?_
  intro b a _ hb
  rcases countStep_fst_cases state uf b a with h | h <;> rcases hb with hb | hb <;>
    simp [h, hb]

/- Characterisation of the arrow-checking loop. -/

theorem arrowDirStep_eq (state : game_state) (uf : Bool) (i : Nat)
    (acc : Status × List Nat) (d : Nat) :
    arrowDirStep state uf i acc d =
      if edgeViol state i d = true then
        (Status.invalid,
          if uf then acc.2.set i (acc.2.getD i 0 ||| (adjAt d).f) else acc.2)
      else acc := rfl

theorem arrowDirFold_invalid_iff (state : game_state) (uf : Bool) (i : Nat)
    (acc : Status × List Nat) (l : List Nat) :
    (((l.foldl (arrowDirStep state uf i) acc).1 = Status.invalid) ↔
      (acc.1 = Status.invalid ∨ ∃ d ∈ l, edgeViol state i d = true)) := by
  induction l generalizing acc with
  | nil => simp
  | cons d l ih =>
    rw [List.foldl_cons, arrowDirStep_eq]
    by_cases h : edgeViol state i d = true
    · rw [if_pos h]
      rw [ih]
      simp [h]
    · rw [if_neg h]
      rw [ih]
      simp only [List.mem_cons]
      constructor
      · rintro (ha | ⟨d', hd', hv⟩)
        · exact Or.inl ha
        · exact Or.inr ⟨d', Or.inr hd', hv⟩
      · rintro (ha | ⟨d', hd' | hd', hv⟩)
        · exact Or.inl ha
        · exact absurd (hd' ▸ hv) h
        · exact Or.inr ⟨d', hd', hv⟩

theorem arrowCellStep_fst_invalid_iff (state : game_state) (acc : Status × List Nat)
    (i : Nat) :
    ((arrowCellStep state true acc i).1 = Status.invalid ↔
      (acc.1 = Status.invalid ∨ (resolvedB state i = true ∧
        ∃ d ∈ List.range 4, edgeViol state i d = true))) := by
  unfold arrowCellStep
  rw [if_neg (by simp)]
  by_cases hres : nthN state.known i = nthN state.mask i
  · rw [if_neg (by simpa using hres)]
    rw [arrowDirFold_invalid_iff]
    simp [resolvedB, hres]
  · rw [if_pos hres]
    simp [resolvedB, hres]

theorem arrowCellStep_fst_cases (state : game_state) (uf : Bool)
    (acc : Status × List Nat) (i : Nat) :
    (arrowCellStep state uf acc i).1 = acc.1 ∨
      (arrowCellStep state uf acc i).1 = Status.invalid := by
  unfold arrowCellStep
  split_ifs
  · exact Or.inl rfl
  · exact Or.inl rfl
  · refine foldl_induction _ _ acc (fun p => p.1 = acc.1 ∨ p.1 = Status.invalid)
      (Or.inl rfl) ?_
    intro b a _ hb
    rw [arrowDirStep_eq]
    by_cases h : edgeViol state i a = true
    · rw [if_pos h]; exact Or.inr rfl
    · rw [if_neg h]; exact hb

theorem arrowFold_invalid_iff (state : game_state) (l : List Nat)
    (acc : Status × List Nat) :
    (((l.foldl (arrowCellStep state true) acc).1 = Status.invalid) ↔
      (acc.1 = Status.invalid ∨ ∃ i ∈ l, resolvedB state i = true ∧
        ∃ d ∈ List.range 4, edgeViol state i d = true)) := by
  induction l generalizing acc with
  | nil => simp
  | cons i l ih =>
    rw [List.foldl_cons, ih, arrowCellStep_fst_invalid_iff]
    simp only [List.mem_cons]
    constructor
    · rintro ((ha | hv) | ⟨i', hi', hv'⟩)
      · exact Or.inl ha
      · exact Or.inr ⟨i, Or.inl rfl, hv⟩
      · exact Or.inr ⟨i', Or.inr hi', hv'⟩
    · rintro (ha | ⟨i', hi' | hi', hv'⟩)
      · exact Or.inl (Or.inl ha)
      · exact Or.inl (Or.inr (hi' ▸ hv'))
      · exact Or.inr ⟨i', hi', hv'⟩

theorem arrowFold_fst_cases (state : game_state) (uf : Bool) (l : List Nat)
    (acc : Status × List Nat) :
    (l.foldl (arrowCellStep state uf) acc).1 = acc.1 ∨
      (l.foldl (arrowCellStep state uf) acc).1 = Status.invalid := by
  refine foldl_induction _ l acc (fun p => p.1 = acc.1 ∨ p.1 = Status.invalid)
    (Or.inl rfl) ?_
  intro b a _ hb
  rcases arrowCellStep_fst_cases state uf b a with h | h <;> rcases hb with hb | hb <;>
    simp [h, hb]

theorem getD_replicate_zero (s v : Nat) : (List.replicate s (0 : Nat)).getD v 0 = 0 := by
  induction s generalizing v with
  | zero => simp [List.getD]
  | succ s ih =>
    cases v with
    | zero => rfl
    | succ v => simp only [List.replicate, List.getD]; exact ih v

theorem countStep_snd_length (state : game_state) (uf : Bool)
    (p : Status × List Nat) (i : Nat) :
    (countStep state uf p i).2.length = p.2.length := by
  unfold countStep
  split_ifs <;> simp

theorem validate_tt_eq (state : game_state) :
    subsets_validate state true true =
      ((((List.range (state.w * state.h)).foldl (arrowCellStep state true)
          (((List.range (state.w * state.h)).foldl (countStep state true)
              (initialStatus state, List.replicate (state.w * state.h) 0)).1,
            List.replicate (state.w * state.h) 0))).1,
        (((List.range (state.w * state.h)).foldl (arrowCellStep state true)
          (((List.range (state.w * state.h)).foldl (countStep state true)
              (initialStatus state, List.replicate (state.w * state.h) 0)).1,
            List.replicate (state.w * state.h) 0))).2,
        ((List.range (state.w * state.h)).foldl (countStep state true)
            (initialStatus state, List.replicate (state.w * state.h) 0)).2) := by
  unfold subsets_validate
  rw [if_neg (by simp)]

/-- C3 (amended): when both the optional flags and counts buffers are
supplied, `subsets_validate` returns the worst status that holds of
the board — invalid if some value is duplicated among resolved cells
or some resolved adjacent pair violates its arrow/incomparability
constraint, otherwise unfinished if some cell is unresolved, otherwise
complete — and the returned counts buffer holds, for every value `v`,
the number of resolved cells whose value is `v`. -/
theorem validate_both_buffers_worst_status (state : game_state) :
    ((subsets_validate state true true).1 =
      if (∃ v ∈ List.range (state.w * state.h), 2 ≤ countsSpec state v) ∨
          (∃ i ∈ List.range (state.w * state.h), resolvedB state i = true ∧
            ∃ d ∈ List.range 4, edgeViol state i d = true)
        then Status.invalid
        else if ∃ i ∈ List.range (state.w * state.h), resolvedB state i = false
        then Status.unfinished else Status.complete) ∧
    (∀ v, v < state.w * state.h →
      (subsets_validate state true true).2.2.getD v 0 = countsSpec state v) := by
  have hlen : ((List.range (state.w * state.h)).foldl (countStep state true)
      (initialStatus state, List.replicate (state.w * state.h) 0)).2.length
      = state.w * state.h := by
    refine foldl_induction (countStep state true) _ _
      (fun p => p.2.length = state.w * state.h) (by simp) ?_
    intro b a _ hb
    rw [countStep_snd_length]
    exact hb
  have hcounts : ∀ v, v < state.w * state.h →
      ((List.range (state.w * state.h)).foldl (countStep state true)
        (initialStatus state, List.replicate (state.w * state.h) 0)).2.getD v 0
      = countsSpec state v := by
    intro v hvlt
    rw [countFold_getD state _ _ _ v (by simpa using hvlt)]
    rw [getD_replicate_zero]
    simp [countsSpec]
  have hrc1 : (((List.range (state.w * state.h)).foldl (countStep state true)
      (initialStatus state, List.replicate (state.w * state.h) 0)).1 = Status.invalid)
      ↔ ∃ v ∈ List.range (state.w * state.h), 2 ≤ countsSpec state v := by
    rw [countFold_invalid_iff state _ _ _ ?h0]
    constructor
    · rintro ⟨v, hvl, h2⟩
      have hvs : v < state.w * state.h := by rw [hlen] at hvl; exact hvl
      exact ⟨v, by simpa using hvs, by rw [← hcounts v hvs]; exact h2⟩
    · rintro ⟨v, hvl, h2⟩
      have hvs : v < state.w * state.h := by simpa using hvl
      exact ⟨v, by rw [hlen]; exact hvs, by rw [hcounts v hvs]; exact h2⟩
    case h0 =>
      constructor
      · intro h
        exfalso
        unfold initialStatus at h
        split_ifs at h
      · rintro ⟨v, hvl, h2⟩
        rw [getD_replicate_zero] at h2
        omega
  rw [validate_tt_eq]
  refine ⟨?_, fun v hvlt => hcounts v hvlt⟩
  by_cases hbad : (∃ v ∈ List.range (state.w * state.h), 2 ≤ countsSpec state v) ∨
      (∃ i ∈ List.range (state.w * state.h), resolvedB state i = true ∧
        ∃ d ∈ List.range 4, edgeViol state i d = true)
  · rw [if_pos hbad]
    rcases hbad with hdup | hviol
    · exact (arrowFold_invalid_iff state _ _).mpr (Or.inl (hrc1.mpr hdup))
    · exact (arrowFold_invalid_iff state _ _).mpr (Or.inr hviol)
  · rw [if_neg hbad]
    have hnotinv : ¬ (((List.range (state.w * state.h)).foldl (arrowCellStep state true)
        (((List.range (state.w * state.h)).foldl (countStep state true)
            (initialStatus state, List.replicate (state.w * state.h) 0)).1,
          List.replicate (state.w * state.h) 0)).1 = Status.invalid) := by
      intro hc
      rcases (arrowFold_invalid_iff state _ _).mp hc with h | h
      · exact hbad (Or.inl (hrc1.mp h))
      · exact hbad (Or.inr h)
    have hfst : (((List.range (state.w * state.h)).foldl (arrowCellStep state true)
        (((List.range (state.w * state.h)).foldl (countStep state true)
            (initialStatus state, List.replicate (state.w * state.h) 0)).1,
          List.replicate (state.w * state.h) 0)).1) =
        (((List.range (state.w * state.h)).foldl (countStep state true)
            (initialStatus state, List.replicate (state.w * state.h) 0)).1) := by
      rcases arrowFold_fst_cases state true (List.range (state.w * state.h))
        ((((List.range (state.w * state.h)).foldl (countStep state true)
            (initialStatus state, List.replicate (state.w * state.h) 0)).1),
          List.replicate (state.w * state.h) 0) with h | h
      · exact h
      · exact absurd h hnotinv
    have hrc : (((List.range (state.w * state.h)).foldl (countStep state true)
        (initialStatus state, List.replicate (state.w * state.h) 0)).1)
        = initialStatus state := by
      rcases countFold_fst_cases state true (List.range (state.w * state.h))
        (initialStatus state, List.replicate (state.w * state.h) 0) with h | h
      · exact h
      · exact absurd (hrc1.mp h) (fun hc => hbad (Or.inl hc))
    rw [hfst, hrc]
    unfold initialStatus
    by_cases hunres : ∃ i ∈ List.range (state.w * state.h), resolvedB state i = false
    · rw [if_pos hunres]
      have hany : ((List.range (state.w * state.h)).any
          (fun i => nthN state.known i ≠ nthN state.mask i)) = true := by
        rcases hunres with ⟨i, hi, hri⟩
        refine List.any_eq_true.mpr ⟨i, hi, ?_⟩
        simpa [resolvedB] using hri
      rw [if_pos hany]
    · rw [if_neg hunres]
      have hany : ¬ (((List.range (state.w * state.h)).any
          (fun i => nthN state.known i ≠ nthN state.mask i)) = true) := by
        intro hc
        rcases List.any_eq_true.mp hc with ⟨i, hi, hpi⟩
        exact hunres ⟨i, hi, by simpa [resolvedB] using hpi⟩
      rw [if_neg hany]

theorem set_getD_self (xs : List Nat) (i : Nat) : xs.set i (xs.getD i 0) = xs := by
  induction xs generalizing i with
  | nil => rfl
  | cons x xs ih =>
    cases i with
    | zero => rfl
    | succ i =>
      show x :: xs.set i ((x :: xs).getD (i + 1) 0) = x :: xs
      rw [List.getD_cons_succ, ih]

theorem dirFold_snd (state : game_state) (i : Nat) (l : List Nat)
    (acc : Status × List Nat) :
    ((l.foldl (arrowDirStep state true i) acc).2) =
      acc.2.set i (acc.2.getD i 0 ||| orFlags state i l) := by
  induction l generalizing acc with
  | nil =>
    simp only [List.foldl_nil, orFlags, List.foldr_nil, Nat.or_zero]
    exact (set_getD_self acc.2 i).symm
  | cons d l ih =>
    rw [List.foldl_cons]
    by_cases hv : edgeViol state i d = true
    · have hstep : arrowDirStep state true i acc d =
          (Status.invalid, acc.2.set i (acc.2.getD i 0 ||| (adjAt d).f)) := by
        simp [arrowDirStep, hv]
      rw [hstep, ih]
      by_cases hlen : i < acc.2.length
      · rw [getD_set_self _ _ _ _ hlen, List.set_set]
        have hor : orFlags state i (d :: l) = (adjAt d).f ||| orFlags state i l := by
          simp [orFlags, hv]
        rw [hor, ← Nat.or_assoc]
      · have hnop1 : acc.2.set i (acc.2.getD i 0 ||| (adjAt d).f) = acc.2 :=
          set_oob _ _ _ (Nat.le_of_not_lt hlen)
        rw [hnop1, set_oob _ _ _ (Nat.le_of_not_lt hlen),
          set_oob _ _ _ (Nat.le_of_not_lt hlen)]
    · have hstep : arrowDirStep state true i acc d = acc := by
        simp [arrowDirStep, hv]
      have hor : orFlags state i (d :: l) = orFlags state i l := by
        simp [orFlags, hv]
      rw [hstep, ih, hor]

theorem arrowCellStep_snd (state : game_state) (acc : Status × List Nat) (k : Nat) :
    (arrowCellStep state true acc k).2 =
      if resolvedB state k = true then
        acc.2.set k (acc.2.getD k 0 ||| orFlags state k (List.range 4))
      else acc.2 := by
  unfold arrowCellStep
  rw [if_neg (by simp)]
  by_cases hres : nthN state.known k = nthN state.mask k
  · rw [if_neg (by simpa using hres), dirFold_snd,
      if_pos (by simp [resolvedB, hres])]
  · rw [if_pos hres, if_neg (by simp [resolvedB, hres])]

theorem arrowCellStep_snd_getD_ne (state : game_state) (acc : Status × List Nat)
    (k j : Nat) (hjk : j ≠ k) :
    (arrowCellStep state true acc k).2.getD j 0 = acc.2.getD j 0 := by
  rw [arrowCellStep_snd]
  split_ifs
  · exact getD_set_ne _ _ _ _ _ (fun h => hjk h.symm)
  · rfl

theorem arrowCellStep_snd_length (state : game_state) (acc : Status × List Nat)
    (k : Nat) : (arrowCellStep state true acc k).2.length = acc.2.length := by
  rw [arrowCellStep_snd]
  split_ifs <;> simp

theorem arrowFold_flags_notmem (state : game_state) (l : List Nat)
    (acc : Status × List Nat) (i : Nat) (hi : i ∉ l) :
    (l.foldl (arrowCellStep state true) acc).2.getD i 0 = acc.2.getD i 0 := by
  induction l generalizing acc with
  | nil => rfl
  | cons k l ih =>
    rw [List.foldl_cons, ih _ (fun h => hi (List.mem_cons_of_mem _ h))]
    exact arrowCellStep_snd_getD_ne state acc k i
      (fun h => hi (h ▸ List.mem_cons_self _ _))

theorem arrowFold_flags_getD (state : game_state) (l : List Nat) (hnd : l.Nodup)
    (acc : Status × List Nat) (i : Nat) (hi : i ∈ l) (hlen : i < acc.2.length) :
    (l.foldl (arrowCellStep state true) acc).2.getD i 0 =
      if resolvedB state i = true then
        acc.2.getD i 0 ||| orFlags state i (List.range 4)
      else acc.2.getD i 0 := by
  induction l generalizing acc with
  | nil => simp at hi
  | cons k l ih =>
    rw [List.foldl_cons]
    rcases List.mem_cons.mp hi with hik | hil
    · subst hik
      have hnotl : i ∉ l := (List.nodup_cons.mp hnd).1
      rw [arrowFold_flags_notmem state l _ i hnotl, arrowCellStep_snd]
      by_cases hres : resolvedB state i = true
      · rw [if_pos hres, if_pos hres, getD_set_self _ _ _ _ hlen]
      · rw [if_neg hres, if_neg hres]
    · have hik : i ≠ k := by
        intro hc
        exact (List.nodup_cons.mp hnd).1 (hc ▸ hil)
      have hlen' : i < (arrowCellStep state true acc k).2.length := by
        rw [arrowCellStep_snd_length]; exact hlen
      rw [ih (List.nodup_cons.mp hnd).2 _ hil hlen',
        arrowCellStep_snd_getD_ne state acc k i hik]

theorem validate_flags_getD (state : game_state) (i : Nat)
    (hi : i < state.w * state.h) :
    (subsets_validate state true true).2.1.getD i 0 =
      if resolvedB state i = true then orFlags state i (List.range 4) else 0 := by
  rw [validate_tt_eq]
  have h := arrowFold_flags_getD state (List.range (state.w * state.h))
    (List.nodup_range _)
    ((((List.range (state.w * state.h)).foldl (countStep state true)
        (initialStatus state, List.replicate (state.w * state.h) 0)).1),
      List.replicate (state.w * state.h) 0) i (List.mem_range.mpr hi)
    (by simpa using hi)
  simp only [getD_replicate_zero, Nat.zero_or] at h
  exact h

theorem orFlags_and (state : game_state) (i d : Nat) (hd : d < 4) :
    ((orFlags state i (List.range 4) &&& (adjAt d).f ≠ 0) ↔
      edgeViol state i d = true) := by
  have h4 : List.range 4 = [0, 1, 2, 3] := rfl
  rw [h4]
  unfold orFlags
  interval_cases d <;>
    cases h0 : edgeViol state i 0 <;> cases h1 : edgeViol state i 1 <;>
    cases h2 : edgeViol state i 2 <;> cases h3 : edgeViol state i 3 <;>
      (simp [h0, h1, h2, h3, adjAt, adjthan] <;> decide)

theorem validate_invalid_of_edgeViol (state : game_state) (i d : Nat)
    (hi : i < state.w * state.h) (hd : d < 4)
    (hres : resolvedB state i = true) (hv : edgeViol state i d = true) :
    (subsets_validate state true true).1 = Status.invalid := by
  have h := (validate_both_buffers_worst_status state).1
  rw [h, if_pos (Or.inr ⟨i, List.mem_range.mpr hi, hres, d, List.mem_range.mpr hd, hv⟩)]

theorem validate_flag_bit_iff (state : game_state) (i d : Nat)
    (hi : i < state.w * state.h) (hd : d < 4) (hri : resolvedB state i = true) :
    (((subsets_validate state true true).2.1.getD i 0 &&& (adjAt d).f ≠ 0) ↔
      edgeViol state i d = true) := by
  rw [validate_flags_getD state i hi, if_pos hri]
  exact orFlags_and state i d hd

theorem edgeViol_arrow (state : game_state) (i j d : Nat)
    (hgrid : ¬(((i % state.w : Nat) : Int) + (adjAt d).dx < 0 ∨
        (state.w : Int) ≤ ((i % state.w : Nat) : Int) + (adjAt d).dx ∨
        ((i / state.w : Nat) : Int) + (adjAt d).dy < 0 ∨
        (state.h : Int) ≤ ((i / state.w : Nat) : Int) + (adjAt d).dy))
    (hj : j = ((((i / state.w : Nat) : Int) + (adjAt d).dy) * state.w +
        (((i % state.w : Nat) : Int) + (adjAt d).dx)).toNat)
    (hrj : resolvedB state j = true)
    (hclue : nthN state.clues i &&& (adjAt d).f ≠ 0) :
    edgeViol state i d =
      decide (nthN state.known i &&& nthN state.known j ≠ nthN state.known j) := by
  have hkm : nthN state.known j = nthN state.mask j := by
    simpa [resolvedB] using hrj
  simp only [edgeViol]
  rw [if_neg hgrid, ← hj]
  rw [if_neg (fun hc => hc hkm), if_neg (fun hc => hclue hc.1), if_pos hclue]

theorem edgeViol_skip_later (state : game_state) (i j d : Nat)
    (hgrid : ¬(((i % state.w : Nat) : Int) + (adjAt d).dx < 0 ∨
        (state.w : Int) ≤ ((i % state.w : Nat) : Int) + (adjAt d).dx ∨
        ((i / state.w : Nat) : Int) + (adjAt d).dy < 0 ∨
        (state.h : Int) ≤ ((i / state.w : Nat) : Int) + (adjAt d).dy))
    (hj : j = ((((i / state.w : Nat) : Int) + (adjAt d).dy) * state.w +
        (((i % state.w : Nat) : Int) + (adjAt d).dx)).toNat)
    (hclue : nthN state.clues i &&& (adjAt d).f = 0)
    (hlater : ((i % state.w : Nat) : Int) + (adjAt d).dx < ((i % state.w : Nat) : Int) ∨
        ((i / state.w : Nat) : Int) + (adjAt d).dy < ((i / state.w : Nat) : Int)) :
    edgeViol state i d = false := by
  simp only [edgeViol]
  rw [if_neg hgrid, ← hj]
  by_cases hrj : nthN state.known j ≠ nthN state.mask j
  · rw [if_pos hrj]
  · rw [if_neg hrj, if_pos ⟨hclue, hlater⟩]

theorem edgeViol_disjoint_earlier (state : game_state) (i j d : Nat)
    (hgrid : ¬(((i % state.w : Nat) : Int) + (adjAt d).dx < 0 ∨
        (state.w : Int) ≤ ((i % state.w : Nat) : Int) + (adjAt d).dx ∨
        ((i / state.w : Nat) : Int) + (adjAt d).dy < 0 ∨
        (state.h : Int) ≤ ((i / state.w : Nat) : Int) + (adjAt d).dy))
    (hj : j = ((((i / state.w : Nat) : Int) + (adjAt d).dy) * state.w +
        (((i % state.w : Nat) : Int) + (adjAt d).dx)).toNat)
    (hrj : resolvedB state j = true)
    (hclue : nthN state.clues i &&& (adjAt d).f = 0)
    (hcluej : nthN state.clues j &&& (adjAt d).fo = 0)
    (hearlier : ¬(((i % state.w : Nat) : Int) + (adjAt d).dx < ((i % state.w : Nat) : Int) ∨
        ((i / state.w : Nat) : Int) + (adjAt d).dy < ((i / state.w : Nat) : Int))) :
    edgeViol state i d =
      decide (nthN state.known i &&& nthN state.known j = nthN state.known j ∨
        nthN state.known i &&& nthN state.known j = nthN state.known i) := by
  have hkm : nthN state.known j = nthN state.mask j := by
    simpa [resolvedB] using hrj
  simp only [edgeViol]
  rw [if_neg hgrid, ← hj]
  rw [if_neg (fun hc => hc hkm), if_neg (fun hc => hearlier hc.2)]
  rw [if_neg (fun hc : nthN state.clues i &&& (adjAt d).f ≠ 0 => hc hclue),
    if_pos hcluej]

/-- C4: for an adjacent pair of resolved cells `i`, `j` (with `j` the
neighbour of `i` in direction `d`) and `x` the intersection of their
values: if `clues[i]` carries an arrow toward `j`, the validator flags
the edge on `i` exactly when `x` differs from the value of `j`, and in
that case reports invalid; if neither cell carries an arrow toward the
other and `i` is the canonically-earlier cell, the edge is flagged on
`i` exactly when `x` equals the value of `i` or of `j`, and in that
case the validator reports invalid; and when `j` is the earlier cell,
the arrowless pair is not tested from `i` (no flag is set on `i`
toward `j`). -/
theorem validator_edge_checks (state : game_state) (i j d : Nat)
    (hi : i < state.w * state.h) (hd : d < 4)
    (hgrid : ¬(((i % state.w : Nat) : Int) + (adjAt d).dx < 0 ∨
        (state.w : Int) ≤ ((i % state.w : Nat) : Int) + (adjAt d).dx ∨
        ((i / state.w : Nat) : Int) + (adjAt d).dy < 0 ∨
        (state.h : Int) ≤ ((i / state.w : Nat) : Int) + (adjAt d).dy))
    (hj : j = ((((i / state.w : Nat) : Int) + (adjAt d).dy) * state.w +
        (((i % state.w : Nat) : Int) + (adjAt d).dx)).toNat)
    (hri : resolvedB state i = true) (hrj : resolvedB state j = true) :
    (nthN state.clues i &&& (adjAt d).f ≠ 0 →
      ((((subsets_validate state true true).2.1.getD i 0 &&& (adjAt d).f ≠ 0) ↔
        nthN state.known i &&& nthN state.known j ≠ nthN state.known j) ∧
      (nthN state.known i &&& nthN state.known j ≠ nthN state.known j →
        (subsets_validate state true true).1 = Status.invalid))) ∧
    (nthN state.clues i &&& (adjAt d).f = 0 →
      nthN state.clues j &&& (adjAt d).fo = 0 →
      ¬(((i % state.w : Nat) : Int) + (adjAt d).dx < ((i % state.w : Nat) : Int) ∨
        ((i / state.w : Nat) : Int) + (adjAt d).dy < ((i / state.w : Nat) : Int)) →
      ((((subsets_validate state true true).2.1.getD i 0 &&& (adjAt d).f ≠ 0) ↔
        (nthN state.known i &&& nthN state.known j = nthN state.known j ∨
         nthN state.known i &&& nthN state.known j = nthN state.known i)) ∧
      ((nthN state.known i &&& nthN state.known j = nthN state.known j ∨
        nthN state.known i &&& nthN state.known j = nthN state.known i) →
        (subsets_validate state true true).1 = Status.invalid))) ∧
    (nthN state.clues i &&& (adjAt d).f = 0 →
      (((i % state.w : Nat) : Int) + (adjAt d).dx < ((i % state.w : Nat) : Int) ∨
        ((i / state.w : Nat) : Int) + (adjAt d).dy < ((i / state.w : Nat) : Int)) →
      (subsets_validate state true true).2.1.getD i 0 &&& (adjAt d).f = 0) := by
  refine ⟨?_, ?_, ?_⟩
  · intro hclue
    have hev := edgeViol_arrow state i j d hgrid hj hrj hclue
    constructor
    · rw [validate_flag_bit_iff state i d hi hd hri, hev]
      simp
    · intro hx
      exact validate_invalid_of_edgeViol state i d hi hd hri
        (by rw [hev]; simpa using hx)
  · intro hclue hcluej hearlier
    have hev := edgeViol_disjoint_earlier state i j d hgrid hj hrj hclue hcluej hearlier
    constructor
    · rw [validate_flag_bit_iff state i d hi hd hri, hev]
      simp
    · intro hx
      exact validate_invalid_of_edgeViol state i d hi hd hri
        (by rw [hev]; simpa using hx)
  · intro hclue hlater
    have hev := edgeViol_skip_later state i j d hgrid hj hclue hlater
    by_contra hne
    exact absurd ((validate_flag_bit_iff state i d hi hd hri).mp hne)
      (by rw [hev]; simp)

/-- Witness for the validator edge checks, at the concrete board
`cexC4` (arrow from a cell of value 1 toward a cell of value 2): all
hypotheses hold at `i = 0`, `j = 1`, `d = 1` and the arrow case yields
the invalid verdict. -/
theorem validator_edge_checks_witness :
    (subsets_validate cexC4 true true).1 = Status.invalid := by
  have h := validator_edge_checks cexC4 0 1 1 (by decide) (by decide)
    (by decide) (by decide) (by decide) (by decide)
  exact (h.1 (by decide)).2 (by decide)

theorem scanMove_head (mc : Char) (rest : List Char) (op : Char) (pos bit : Int)
    (h : scanMove (mc :: rest) = some (op, pos, bit)) : op = mc := by
  have h' : (match scanInt rest with
      | none => none
      | some (pos, rest2) =>
        match rest2 with
        | ',' :: rest3 =>
          match scanInt rest3 with
          | none => none
          | some (bit, _) => some (mc, pos, bit)
        | _ => none) = some (op, pos, bit) := h
  split at h'
  · exact absurd h' (by simp)
  · split at h'
    · split at h'
      · exact absurd h' (by simp)
      · simp only [Option.some_inj, Prod.mk.injEq] at h'
        exact h'.1.symm
    · exact absurd h' (by simp)

/-- C9: a player-action move `<op><pos>,<bit>` with `op` one of `K`,
`C`, `U` is rejected (no new state) whenever `pos` is outside
`[0, w*h)`, `bit` is outside `[0, n)`, or bit `bit` is set in
`immutable[pos]`.  (In this pure embedding the input state is a
non-mutated argument, so rejection trivially leaves it unchanged.) -/
theorem execute_move_rejects (state : game_state) (move : List Char)
    (op : Char) (pos bit : Int)
    (hscan : scanMove move = some (op, pos, bit))
    (hop : op = 'K' ∨ op = 'C' ∨ op = 'U')
    (hbad : pos < 0 ∨ (state.w * state.h : Int) ≤ pos ∨ bit < 0 ∨
      (state.n : Int) ≤ bit ∨
      nthN state.immutable pos.toNat &&& (1 <<< bit.toNat) ≠ 0) :
    execute_move state move = none := by
  match move, hscan with
  | mc :: rest, hscan =>
    have hmc : op = mc := scanMove_head mc rest op pos bit hscan
    have hS : ¬(mc = 'S') := by
      rcases hop with h | h | h <;> (rw [← hmc, h]; decide)
    simp only [execute_move, if_neg hS, hscan]
    by_cases h1 : pos < 0 ∨ (state.w * state.h : Int) ≤ pos
    · rw [if_pos h1]
    · rw [if_neg h1]
      by_cases h2 : bit < 0 ∨ (state.n : Int) ≤ bit
      · rw [if_pos h2]
      · rw [if_neg h2]
        have h3 : nthN state.immutable pos.toNat &&& (1 <<< bit.toNat) ≠ 0 := by
          rcases hbad with h | h | h | h | h
          · exact absurd (Or.inl h) h1
          · exact absurd (Or.inr h) h1
          · exact absurd (Or.inl h) h2
          · exact absurd (Or.inr h) h2
          · exact h
        rw [if_pos h3]

/-- Witness for the move rejection: on the 1x1 board `oneCell` whose
only cell is immutable, the move `K0,0` is rejected. -/
theorem execute_move_rejects_witness :
    execute_move oneCell ['K', '0', ',', '0'] = none :=
  execute_move_rejects oneCell ['K', '0', ',', '0'] 'K' 0 0 (by decide)
    (Or.inl rfl) (by decide)

theorem land_lor_self (k m b : Nat) (h : k &&& m = k) :
    (k ||| b) &&& (m ||| b) = k ||| b := by
  apply Nat.eq_of_testBit_eq
  intro i
  have hb := congrArg (fun x => x.testBit i) h
  simp only [Nat.testBit_land] at hb
  simp only [Nat.testBit_land, Nat.testBit_lor]
  cases hk : k.testBit i <;> cases hm : m.testBit i <;> cases hbb : b.testBit i <;>
    simp_all

theorem land_land_self (k m M : Nat) (h : k &&& m = k) :
    (k &&& M) &&& (m &&& M) = k &&& M := by
  apply Nat.eq_of_testBit_eq
  intro i
  have hb := congrArg (fun x => x.testBit i) h
  simp only [Nat.testBit_land] at hb
  simp only [Nat.testBit_land]
  cases hk : k.testBit i <;> cases hm : m.testBit i <;> cases hMM : M.testBit i <;>
    simp_all

theorem land_land_lor (k m M b : Nat) (h : k &&& m = k) :
    (k &&& M) &&& (m ||| b) = k &&& M := by
  apply Nat.eq_of_testBit_eq
  intro i
  have hb := congrArg (fun x => x.testBit i) h
  simp only [Nat.testBit_land] at hb
  simp only [Nat.testBit_land, Nat.testBit_lor]
  cases hk : k.testBit i <;> cases hm : m.testBit i <;> cases hMM : M.testBit i <;>
    cases hbb : b.testBit i <;> simp_all

theorem play_result_props (state : game_state) (p vk vm : Nat)
    (hk : p < state.known.length) (hm : p < state.mask.length) :
    (play_result state p vk vm).w = state.w ∧
    (play_result state p vk vm).h = state.h ∧
    (play_result state p vk vm).n = state.n ∧
    (play_result state p vk vm).clues = state.clues ∧
    (play_result state p vk vm).immutable = state.immutable ∧
    (play_result state p vk vm).cheated = state.cheated ∧
    nthN (play_result state p vk vm).known p = vk ∧
    nthN (play_result state p vk vm).mask p = vm ∧
    (∀ j, j ≠ p → nthN (play_result state p vk vm).known j = nthN state.known j ∧
      nthN (play_result state p vk vm).mask j = nthN state.mask j) ∧
    (play_result state p vk vm).completed =
      (state.completed || decide ((subsets_validate
        { play_result state p vk vm with completed := state.completed }
        false false).1 = Status.complete)) := by
  unfold play_result
  by_cases hcomp :
      (subsets_validate (play_board state p vk vm) false false).1 = Status.complete
  · rw [if_pos hcomp]
    refine ⟨rfl, rfl, rfl, rfl, rfl, rfl, ?_, ?_, ?_, ?_⟩
    · exact getD_set_self _ _ _ _ hk
    · exact getD_set_self _ _ _ _ hm
    · intro j hj
      exact ⟨getD_set_ne _ _ _ _ _ (fun hc => hj hc.symm),
        getD_set_ne _ _ _ _ _ (fun hc => hj hc.symm)⟩
    · show true = (state.completed || decide ((subsets_validate
        (play_board state p vk vm) false false).1 = Status.complete))
      rw [decide_eq_true hcomp, Bool.or_true]
  · rw [if_neg hcomp]
    refine ⟨rfl, rfl, rfl, rfl, rfl, rfl, ?_, ?_, ?_, ?_⟩
    · exact getD_set_self _ _ _ _ hk
    · exact getD_set_self _ _ _ _ hm
    · intro j hj
      exact ⟨getD_set_ne _ _ _ _ _ (fun hc => hj hc.symm),
        getD_set_ne _ _ _ _ _ (fun hc => hj hc.symm)⟩
    · show (play_board state p vk vm).completed = (state.completed ||
        decide ((subsets_validate (play_board state p vk vm) false false).1 =
          Status.complete))
      rw [decide_eq_false hcomp, Bool.or_false]
      rfl

/-- C10 counterexample: an accepted move can change more than the
touched bit of `known[pos]`/`mask[pos]` — on the 1x1 board `cexMove`
the move `K0,0` completes the board, so the returned state also has
the `completed` flag flipped from `false` to `true`. -/
theorem execute_move_completed_cex :
    execute_move cexMove ['K', '0', ',', '0'] =
      some { w := 1, h := 1, n := 1, clues := [0], immutable := [0],
             known := [1], mask := [1], completed := true, cheated := false } ∧
    cexMove.completed = false := by decide

/-- C10 (amended): for an accepted play move `<op><pos>,<bit>` with
`op` in K/C/U, the returned state differs from the input only in bit
`bit` of `known[pos]` and `mask[pos]` (K sets it in both, C clears it
in both, U clears it in `known` and sets it in `mask`, each through
the source's 32-bit operations) and possibly in the `completed` flag,
which is set exactly when the move completes the board (it is never
cleared); `clues`, `immutable`, `cheated` and all other cells are
unchanged, and the invariant `known[i] ⊆ mask[i]` is preserved. -/
theorem execute_move_play_frame (state : game_state) (move : List Char)
    (op : Char) (pos bit : Int)
    (hscan : scanMove move = some (op, pos, bit))
    (hop : op = 'K' ∨ op = 'C' ∨ op = 'U')
    (hpos : ¬(pos < 0 ∨ (state.w * state.h : Int) ≤ pos))
    (hbit : ¬(bit < 0 ∨ (state.n : Int) ≤ bit))
    (himm : ¬(nthN state.immutable pos.toNat &&& (1 <<< bit.toNat) ≠ 0))
    (hlk : state.known.length = state.w * state.h)
    (hlm : state.mask.length = state.w * state.h) :
    ∃ st, execute_move state move = some st ∧
      st.w = state.w ∧ st.h = state.h ∧ st.n = state.n ∧
      st.clues = state.clues ∧ st.immutable = state.immutable ∧
      st.cheated = state.cheated ∧
      (∀ j, j ≠ pos.toNat → nthN st.known j = nthN state.known j ∧
        nthN st.mask j = nthN state.mask j) ∧
      (op = 'K' →
        nthN st.known pos.toNat =
          nthN state.known pos.toNat ||| (1 <<< bit.toNat) ∧
        nthN st.mask pos.toNat =
          nthN state.mask pos.toNat ||| (1 <<< bit.toNat)) ∧
      (op = 'C' →
        nthN st.known pos.toNat =
          nthN state.known pos.toNat &&& ((2 ^ 32 - 1) ^^^ (1 <<< bit.toNat)) ∧
        nthN st.mask pos.toNat =
          nthN state.mask pos.toNat &&& ((2 ^ 32 - 1) ^^^ (1 <<< bit.toNat))) ∧
      (op = 'U' →
        nthN st.known pos.toNat =
          nthN state.known pos.toNat &&& ((2 ^ 32 - 1) ^^^ (1 <<< bit.toNat)) ∧
        nthN st.mask pos.toNat =
          nthN state.mask pos.toNat ||| (1 <<< bit.toNat)) ∧
      st.completed = (state.completed || decide ((subsets_validate
        { st with completed := state.completed } false false).1 = Status.complete)) ∧
      ((∀ i, nthN state.known i &&& nthN state.mask i = nthN state.known i) →
        ∀ i, nthN st.known i &&& nthN st.mask i = nthN st.known i) := by
  have hp : pos.toNat < state.known.length := by
    rw [hlk]
    have h0 : 0 ≤ pos := by omega
    have h1 : pos < (state.w * state.h : Int) := by omega
    omega
  have hpm : pos.toNat < state.mask.length := by rw [hlm, ← hlk]; exact hp
  match move, hscan with
  | mc :: rest, hscan =>
    have hmc : op = mc := scanMove_head mc rest op pos bit hscan
    have hS : ¬(mc = 'S') := by
      rcases hop with h | h | h <;> (rw [← hmc, h]; decide)
    rcases hop with hK | hC | hU
    · subst hK
      refine ⟨play_result state pos.toNat
        (nthN state.known pos.toNat ||| (1 <<< bit.toNat))
        (nthN state.mask pos.toNat ||| (1 <<< bit.toNat)), ?_, ?_⟩
      · simp only [execute_move, if_neg hS, hscan]
        rw [if_neg hpos, if_neg hbit, if_neg himm, if_pos trivial]
        rfl
      · obtain ⟨h1, h2, h3, h4, h5, h6, h7, h8, h9, h10⟩ :=
          play_result_props state pos.toNat
            (nthN state.known pos.toNat ||| (1 <<< bit.toNat))
            (nthN state.mask pos.toNat ||| (1 <<< bit.toNat)) hp hpm
        refine ⟨h1, h2, h3, h4, h5, h6, h9, fun _ => ⟨h7, h8⟩,
          fun hc => absurd hc (by decide),
          fun hc => absurd hc (by decide), h10, ?_⟩
        intro hinv i
        by_cases hip : i = pos.toNat
        · rw [hip, h7, h8]
          exact land_lor_self _ _ _ (hinv pos.toNat)
        · rw [(h9 i hip).1, (h9 i hip).2]
          exact hinv i
    · subst hC
      refine ⟨play_result state pos.toNat
        (nthN state.known pos.toNat &&& ((2 ^ 32 - 1) ^^^ (1 <<< bit.toNat)))
        (nthN state.mask pos.toNat &&& ((2 ^ 32 - 1) ^^^ (1 <<< bit.toNat))), ?_, ?_⟩
      · simp only [execute_move, if_neg hS, hscan]
        rw [if_neg hpos, if_neg hbit, if_neg himm]
        rw [if_pos trivial]
        rfl
      · obtain ⟨h1, h2, h3, h4, h5, h6, h7, h8, h9, h10⟩ :=
          play_result_props state pos.toNat
            (nthN state.known pos.toNat &&& ((2 ^ 32 - 1) ^^^ (1 <<< bit.toNat)))
            (nthN state.mask pos.toNat &&& ((2 ^ 32 - 1) ^^^ (1 <<< bit.toNat))) hp hpm
        refine ⟨h1, h2, h3, h4, h5, h6, h9,
          fun hc => absurd hc (by decide), fun _ => ⟨h7, h8⟩,
          fun hc => absurd hc (by decide), h10, ?_⟩
        intro hinv i
        by_cases hip : i = pos.toNat
        · rw [hip, h7, h8]
          exact land_land_self _ _ _ (hinv pos.toNat)
        · rw [(h9 i hip).1, (h9 i hip).2]
          exact hinv i
    · subst hU
      refine ⟨play_result state pos.toNat
        (nthN state.known pos.toNat &&& ((2 ^ 32 - 1) ^^^ (1 <<< bit.toNat)))
        (nthN state.mask pos.toNat ||| (1 <<< bit.toNat)), ?_, ?_⟩
      · simp only [execute_move, if_neg hS, hscan]
        rw [if_neg hpos, if_neg hbit, if_neg himm]
        rw [if_pos trivial]
        rfl
      · obtain ⟨h1, h2, h3, h4, h5, h6, h7, h8, h9, h10⟩ :=
          play_result_props state pos.toNat
            (nthN state.known pos.toNat &&& ((2 ^ 32 - 1) ^^^ (1 <<< bit.toNat)))
            (nthN state.mask pos.toNat ||| (1 <<< bit.toNat)) hp hpm
        refine ⟨h1, h2, h3, h4, h5, h6, h9,
          fun hc => absurd hc (by decide),
          fun hc => absurd hc (by decide), fun _ => ⟨h7, h8⟩, h10, ?_⟩
        intro hinv i
        by_cases hip : i = pos.toNat
        · rw [hip, h7, h8]
          exact land_land_lor _ _ _ _ (hinv pos.toNat)
        · rw [(h9 i hip).1, (h9 i hip).2]
          exact hinv i

/-- Witness for the amended move-frame property: the accepted move
`K0,0` on the board `cexMove` produces a state whose cell 0 has the
bit set in `known`. -/
theorem execute_move_play_frame_witness :
    ∃ st, execute_move cexMove ['K', '0', ',', '0'] = some st ∧
      nthN st.known 0 = 1 := by
  obtain ⟨st, heq, -, -, -, -, -, -, -, hKcase, -⟩ :=
    execute_move_play_frame cexMove ['K', '0', ',', '0'] 'K' 0 0 (by decide)
      (Or.inl rfl) (by decide) (by decide) (by decide) (by decide) (by decide)
  refine ⟨st, heq, ?_⟩
  have h := (hKcase rfl).1
  norm_num at h
  rw [h]
  decide

/- Solver lemmas: bounds monotonicity (claim C2). -/

theorem getD_set_if {α : Type} (xs : List α) (i j : Nat) (v d : α) :
    (xs.set i v).getD j d = if i = j ∧ i < xs.length then v else xs.getD j d := by
  by_cases h : i = j ∧ i < xs.length
  · rw [if_pos h]
    rcases h with ⟨hij, hlen⟩
    subst hij
    exact getD_set_self xs i v d hlen
  · rw [if_neg h]
    by_cases hij : i = j
    · have hlen : ¬ i < xs.length := fun hl => h ⟨hij, hl⟩
      rw [set_oob xs i v (Nat.le_of_not_lt hlen)]
    · exact getD_set_ne xs i j v d hij

theorem land_self (a : Nat) : a &&& a = a := by
  apply Nat.eq_of_testBit_eq
  intro i
  simp [Nat.testBit_land]

theorem land_lor_self_left (a b : Nat) : a &&& (a ||| b) = a := by
  apply Nat.eq_of_testBit_eq
  intro i
  simp only [Nat.testBit_land, Nat.testBit_lor]
  cases a.testBit i <;> cases b.testBit i <;> simp

theorem land_self_mask (a b : Nat) : (a &&& b) &&& a = a &&& b := by
  apply Nat.eq_of_testBit_eq
  intro i
  simp only [Nat.testBit_land]
  cases a.testBit i <;> cases b.testBit i <;> simp

theorem land_trans (a b c : Nat) (h1 : a &&& b = a) (h2 : b &&& c = b) :
    a &&& c = a := by
  apply Nat.eq_of_testBit_eq
  intro i
  have t1 := congrArg (fun x => x.testBit i) h1
  have t2 := congrArg (fun x => x.testBit i) h2
  simp only [Nat.testBit_land] at t1 t2
  simp only [Nat.testBit_land]
  cases ha : a.testBit i <;> cases hb : b.testBit i <;> cases hc : c.testBit i <;>
    simp_all

theorem boundsLe_refl (a : game_state) : boundsLe a a :=
  fun _ => ⟨land_self _, land_self _⟩

theorem boundsLe_trans {a b c : game_state} (h1 : boundsLe a b)
    (h2 : boundsLe b c) : boundsLe a c := by
  intro i
  exact ⟨land_trans _ _ _ (h1 i).1 (h2 i).1, land_trans _ _ _ (h2 i).2 (h1 i).2⟩

theorem boundsLe_of_eq {a b : game_state} (h : a = b) : boundsLe a b := by
  rw [h]; exact boundsLe_refl b

theorem boundsLe_set_known_lor (st : game_state) (i x : Nat) :
    boundsLe st { st with known := st.known.set i (nthN st.known i ||| x) } := by
  intro j
  constructor
  · show nthN st.known j &&&
      nthN (st.known.set i (nthN st.known i ||| x)) j = nthN st.known j
    simp only [nthN]
    rw [getD_set_if]
    split_ifs with h
    · rw [← h.1]
      exact land_lor_self_left _ _
    · exact land_self _
  · exact land_self _

theorem boundsLe_set_mask_land (st : game_state) (i x : Nat) :
    boundsLe st { st with mask := st.mask.set i (nthN st.mask i &&& x) } := by
  intro j
  constructor
  · exact land_self _
  · show nthN (st.mask.set i (nthN st.mask i &&& x)) j &&& nthN st.mask j =
      nthN (st.mask.set i (nthN st.mask i &&& x)) j
    simp only [nthN]
    rw [getD_set_if]
    split_ifs with h
    · rw [← h.1]
      exact land_self_mask _ _
    · exact land_self _

theorem applyArrowsDir_mono (w i1 : Nat) (acc : game_state × Nat) (d : Nat) :
    boundsLe acc.1 (applyArrowsDir w i1 acc d).1 := by
  unfold applyArrowsDir
  split_ifs with h
  · exact boundsLe_refl _
  · have h1 := boundsLe_set_known_lor acc.1 i1
      (nthN acc.1.known (((i1 : Int) + (adjAt d).dy * (w : Int) + (adjAt d).dx).toNat))
    exact boundsLe_trans h1 (boundsLe_set_mask_land _ _ _)

theorem apply_arrows_mono (state : game_state) :
    boundsLe state (subsets_solve_apply_arrows state).1 := by
  unfold subsets_solve_apply_arrows
  refine foldl_induction _ _ _
    (fun (acc : game_state × Nat) => boundsLe state acc.1)
    (boundsLe_refl state) ?_
  intro b a _ hb
  refine foldl_induction _ _ _
    (fun (acc : game_state × Nat) => boundsLe state acc.1) hb ?_
  intro b' a' _ hb'
  exact boundsLe_trans hb' (applyArrowsDir_mono state.w a b' a')

theorem bitsFromCubeCell_mono (n2 : Nat) (cube : List Bool)
    (acc : game_state × Nat) (i : Nat) :
    boundsLe acc.1 (bitsFromCubeCell n2 cube acc i).1 := by
  unfold bitsFromCubeCell
  have h1 := boundsLe_set_known_lor acc.1 i
    (((List.range n2).foldl (fun (p : Nat × Nat) nj =>
      if nthB cube (i * n2 + nj) = true then (p.1 ||| nj, p.2 &&& nj) else p)
      (0, 2 ^ 32 - 1)).2)
  exact boundsLe_trans h1 (boundsLe_set_mask_land _ _ _)

theorem bits_from_cube_mono (state : game_state) (cube : List Bool) :
    boundsLe state (subsets_bits_from_cube state cube).1 := by
  unfold subsets_bits_from_cube
  refine foldl_induction _ _ _
    (fun (acc : game_state × Nat) => boundsLe state acc.1)
    (boundsLe_refl state) ?_
  intro b a _ hb
  exact boundsLe_trans hb (bitsFromCubeCell_mono _ _ b a)

theorem nthB_true_lt (cb : List Bool) (ix : Nat) (h : nthB cb ix = true) :
    ix < cb.length := by
  by_contra hlt
  have hf : nthB cb ix = false := by
    simp only [nthB]
    rw [List.getD_eq_getElem?_getD, List.getElem?_eq_none (by omega)]
    rfl
  rw [h] at hf
  exact absurd hf (by decide)

theorem nthB_set_false_self (cb : List Bool) (idx : Nat) (h : idx < cb.length) :
    nthB (cb.set idx false) idx = false := by
  simp only [nthB]
  rw [getD_set_if, if_pos ⟨rfl, h⟩]

theorem set_false_le (cb : List Bool) (t ix : Nat)
    (h : nthB (cb.set t false) ix = true) : nthB cb ix = true := by
  simp only [nthB] at h ⊢
  rw [getD_set_if] at h
  split_ifs at h
  exact h

theorem syncOne_le (state : game_state) (n2 i : Nat) (cb : List Bool) (nj ix : Nat)
    (h : nthB (syncOne state n2 i cb nj) ix = true) : nthB cb ix = true := by
  unfold syncOne at h
  split_ifs at h
  · exact h
  · exact set_false_le _ _ _ (set_false_le _ _ _ h)
  · exact set_false_le _ _ _ h
  · exact set_false_le _ _ _ h
  · exact h

theorem syncOne_removes (state : game_state) (n2 i : Nat) (cb : List Bool) (v : Nat)
    (hcond : (nthN state.mask i &&& v) ≠ v ∨
      (nthN state.known i &&& v) ≠ nthN state.known i) :
    nthB (syncOne state n2 i cb v) (i * n2 + v) = false := by
  unfold syncOne
  by_cases h1 : nthB cb (i * n2 + v) = false
  · rw [if_pos h1]
    exact h1
  · rw [if_neg h1]
    have htr : nthB cb (i * n2 + v) = true := by
      cases hb : nthB cb (i * n2 + v)
      · exact absurd hb h1
      · rfl
    have hlen : i * n2 + v < cb.length := nthB_true_lt cb _ htr
    by_cases h3 : (nthN state.known i &&& v) ≠ nthN state.known i
    · rw [if_pos h3]
      refine nthB_set_false_self _ _ ?_
      by_cases h2 : (nthN state.mask i &&& v) ≠ v
      · rw [if_pos h2]
        simpa using hlen
      · rw [if_neg h2]
        exact hlen
    · rw [if_neg h3]
      rcases hcond with h2 | h2'
      · rw [if_pos h2]
        exact nthB_set_false_self _ _ hlen
      · exact absurd h2' h3

theorem cube_fold_le {α : Type} (f : List Bool → α → List Bool) (l : List α)
    (init : List Bool)
    (hstep : ∀ cb a, a ∈ l → ∀ ix, nthB (f cb a) ix = true → nthB cb ix = true) :
    ∀ ix, nthB (l.foldl f init) ix = true → nthB init ix = true := by
  refine foldl_induction f l init
    (fun cb => ∀ ix, nthB cb ix = true → nthB init ix = true) (fun _ h => h) ?_
  intro b a ha hb ix h
  exact hb ix (hstep b a ha ix h)

theorem foldl_mem_stable {α : Type} (f : List Bool → α → List Bool) (l : List α)
    (init : List Bool) (Q : List Bool → Prop) (a : α) (ha : a ∈ l)
    (hstab : ∀ b x, Q b → Q (f b x)) (hest : ∀ b, Q (f b a)) :
    Q (l.foldl f init) := by
  induction l generalizing init with
  | nil => cases ha
  | cons x l ih =>
    rcases List.mem_cons.mp ha with h | h
    · rw [List.foldl_cons]
      exact foldl_induction f l (f init x) Q (h ▸ hest init)
        (fun b y _ hb => hstab b y hb)
    · exact ih (f init x) h

theorem sync_le (state : game_state) (cube : List Bool) (ix : Nat)
    (h : nthB (subsets_sync_cube state cube) ix = true) : nthB cube ix = true := by
  unfold subsets_sync_cube at h
  refine cube_fold_le _ _ _ ?_ ix h
  intro cb a _ ix2 h2
  exact cube_fold_le _ _ _
    (fun cb3 a3 _ ix3 h3 => syncOne_le state _ a cb3 a3 ix3 h3) ix2 h2

theorem sync_compat (state : game_state) (cube : List Bool) :
    cubeCompat state (subsets_sync_cube state cube) := by
  intro i v hi hv
  unfold subsets_sync_cube
  refine foldl_mem_stable _ _ _
    (fun cb => nthB cb (i * 2 ^ state.n + v) = true →
      (nthN state.known i &&& v = nthN state.known i) ∧
      (nthN state.mask i &&& v = v))
    i (List.mem_range.mpr hi) ?_ ?_
  · intro b x hQ ht
    exact hQ (cube_fold_le _ _ _
      (fun cb3 a3 _ ix3 h3 => syncOne_le state _ x cb3 a3 ix3 h3) _ ht)
  · intro b
    refine foldl_mem_stable _ _ _
      (fun cb => nthB cb (i * 2 ^ state.n + v) = true →
        (nthN state.known i &&& v = nthN state.known i) ∧
        (nthN state.mask i &&& v = v))
      v (List.mem_range.mpr hv) ?_ ?_
    · intro b2 x hQ ht
      exact hQ (syncOne_le state _ i b2 x _ ht)
    · intro b2 ht
      by_cases hknown : (nthN state.known i &&& v) = nthN state.known i
      · by_cases hmask : (nthN state.mask i &&& v) = v
        · exact ⟨hknown, hmask⟩
        · rw [syncOne_removes state _ i b2 v (Or.inl hmask)] at ht
          exact absurd ht (by decide)
      · rw [syncOne_removes state _ i b2 v (Or.inr hknown)] at ht
        exact absurd ht (by decide)

theorem singleCountOne_le (state : game_state) (n2 ni : Nat) (cb : List Bool)
    (j ix : Nat) (h : nthB (singleCountOne state n2 ni cb j) ix = true) :
    nthB cb ix = true := by
  unfold singleCountOne at h
  split_ifs at h
  · exact h
  · exact h
  · exact set_false_le _ _ _ h

theorem single_count_le (state : game_state) (counts : List Nat) (cube : List Bool)
    (ix : Nat) (h : nthB (subsets_cube_single_count state counts cube) ix = true) :
    nthB cube ix = true := by
  unfold subsets_cube_single_count at h
  refine cube_fold_le _ _ _ ?_ ix h
  intro cb a _ ix2 h2
  have h2' : nthB (if counts.getD a 0 ≠ 1 then cb
      else (List.range (state.w * state.h)).foldl
        (singleCountOne state (2 ^ state.n) a) cb) ix2 = true := h2
  split_ifs at h2' with hc
  · exact h2'
  · exact cube_fold_le _ _ _
      (fun cb3 a3 _ ix3 h3 => singleCountOne_le state _ a cb3 a3 ix3 h3) ix2 h2'

theorem cube_fold_le_prod {α : Type} (f : (List Bool × Nat) → α → (List Bool × Nat))
    (l : List α) (init : List Bool × Nat)
    (hstep : ∀ acc a, a ∈ l → ∀ ix, nthB (f acc a).1 ix = true →
      nthB acc.1 ix = true) :
    ∀ ix, nthB (l.foldl f init).1 ix = true → nthB init.1 ix = true := by
  refine foldl_induction f l init
    (fun acc => ∀ ix, nthB acc.1 ix = true → nthB init.1 ix = true)
    (fun _ h => h) ?_
  intro b a ha hb ix h
  exact hb ix (hstep b a ha ix h)

theorem disjointOpt_le (state : game_state) (n2 i1 i2 : Nat)
    (acc : List Bool × Nat) (opt ix : Nat)
    (h : nthB (disjointOpt state n2 i1 i2 acc opt).1 ix = true) :
    nthB acc.1 ix = true := by
  unfold disjointOpt at h
  split_ifs at h
  · exact h
  · exact h
  · exact set_false_le _ _ _ h

theorem disjointDir_le (state : game_state) (w h n2 i1 : Nat)
    (acc : List Bool × Nat) (d ix : Nat)
    (hx : nthB (disjointDir state w h n2 i1 acc d).1 ix = true) :
    nthB acc.1 ix = true := by
  simp only [disjointDir] at hx
  split_ifs at hx
  · exact hx
  · exact hx
  · exact hx
  · exact set_false_le _ _ _ (set_false_le _ _ _ hx)
  · exact hx
  · exact cube_fold_le_prod _ _ _
      (fun acc3 a3 _ ix3 h3 => disjointOpt_le state _ _ _ acc3 a3 ix3 h3) ix hx
  · exact hx

theorem disjoint_le (state : game_state) (cube : List Bool) (ix : Nat)
    (h : nthB (subsets_disjoint state cube).1 ix = true) : nthB cube ix = true := by
  unfold subsets_disjoint at h
  refine cube_fold_le_prod _ _ _ ?_ ix h
  intro acc a _ ix2 h2
  exact cube_fold_le_prod _ _ _
    (fun acc3 a3 _ ix3 h3 => disjointDir_le state _ _ _ a acc3 a3 ix3 h3) ix2 h2

theorem cubeCompat_of_le (state : game_state) (c c' : List Bool)
    (hle : ∀ ix, nthB c' ix = true → nthB c ix = true)
    (hc : cubeCompat state c) : cubeCompat state c' :=
  fun i v hi hv ht => hc i v hi hv (hle _ ht)

theorem fold_counter_mono {α β : Type} (f : (β × Nat) → α → (β × Nat))
    (l : List α) (init : β × Nat)
    (hmono : ∀ acc a, a ∈ l → acc.2 ≤ (f acc a).2) :
    init.2 ≤ (l.foldl f init).2 := by
  refine foldl_induction f l init (fun acc => init.2 ≤ acc.2) (Nat.le_refl _) ?_
  intro b a ha hb
  exact Nat.le_trans hb (hmono b a ha)

theorem fold_zero_unchanged {α β : Type} (f : (β × Nat) → α → (β × Nat))
    (l : List α) (init : β × Nat)
    (hmono : ∀ acc a, a ∈ l → acc.2 ≤ (f acc a).2)
    (heq : ∀ acc a, a ∈ l → (f acc a).2 = acc.2 → (f acc a).1 = acc.1) :
    (l.foldl f init).2 = init.2 → (l.foldl f init).1 = init.1 := by
  have H := foldl_induction f l init
    (fun acc => init.2 ≤ acc.2 ∧ (acc.2 = init.2 → acc.1 = init.1))
    ⟨Nat.le_refl _, fun _ => rfl⟩ ?_
  · exact H.2
  · intro b a ha hb
    refine ⟨Nat.le_trans hb.1 (hmono b a ha), ?_⟩
    intro h0
    have h1 := hmono b a ha
    have hb2 : b.2 = init.2 := by omega
    have hf : (f b a).2 = b.2 := by omega
    rw [heq b a ha hf, hb.2 hb2]

theorem applyArrowsDir_dims (w i1 : Nat) (acc : game_state × Nat) (d : Nat) :
    (applyArrowsDir w i1 acc d).1.w = acc.1.w ∧
    (applyArrowsDir w i1 acc d).1.h = acc.1.h ∧
    (applyArrowsDir w i1 acc d).1.n = acc.1.n := by
  simp only [applyArrowsDir]
  split_ifs <;> exact ⟨rfl, rfl, rfl⟩

theorem apply_arrows_dims (state : game_state) :
    (subsets_solve_apply_arrows state).1.w = state.w ∧
    (subsets_solve_apply_arrows state).1.h = state.h ∧
    (subsets_solve_apply_arrows state).1.n = state.n := by
  unfold subsets_solve_apply_arrows
  refine foldl_induction _ _ _
    (fun (acc : game_state × Nat) =>
      acc.1.w = state.w ∧ acc.1.h = state.h ∧ acc.1.n = state.n)
    ⟨rfl, rfl, rfl⟩ ?_
  intro b a _ hb
  refine foldl_induction _ _ _
    (fun (acc : game_state × Nat) =>
      acc.1.w = state.w ∧ acc.1.h = state.h ∧ acc.1.n = state.n) hb ?_
  intro c d _ hc
  have hd := applyArrowsDir_dims state.w a c d
  exact ⟨hd.1.trans hc.1, hd.2.1.trans hc.2.1, hd.2.2.trans hc.2.2⟩

theorem bitsFromCubeCell_dims (n2 : Nat) (cube : List Bool)
    (acc : game_state × Nat) (i : Nat) :
    (bitsFromCubeCell n2 cube acc i).1.w = acc.1.w ∧
    (bitsFromCubeCell n2 cube acc i).1.h = acc.1.h ∧
    (bitsFromCubeCell n2 cube acc i).1.n = acc.1.n :=
  ⟨rfl, rfl, rfl⟩

theorem bits_from_cube_dims (state : game_state) (cube : List Bool) :
    (subsets_bits_from_cube state cube).1.w = state.w ∧
    (subsets_bits_from_cube state cube).1.h = state.h ∧
    (subsets_bits_from_cube state cube).1.n = state.n := by
  unfold subsets_bits_from_cube
  refine foldl_induction _ _ _
    (fun (acc : game_state × Nat) =>
      acc.1.w = state.w ∧ acc.1.h = state.h ∧ acc.1.n = state.n)
    ⟨rfl, rfl, rfl⟩ ?_
  intro b a _ hb
  have hd := bitsFromCubeCell_dims (2 ^ state.n) cube b a
  exact ⟨hd.1.trans hb.1, hd.2.1.trans hb.2.1, hd.2.2.trans hb.2.2⟩

theorem singlePosFound_step_inv (n2 nj s : Nat) (cube : List Bool) (b : Int)
    (i : Nat) (hi : i < s)
    (hb : b = -1 ∨ b = -2 ∨
      (0 ≤ b ∧ b.toNat < s ∧ nthB cube (b.toNat * n2 + nj) = true)) :
    (if b = -2 then b else if nthB cube (i * n2 + nj) = false then b
      else if b = -1 then (i : Int) else -2) = -1 ∨
    (if b = -2 then b else if nthB cube (i * n2 + nj) = false then b
      else if b = -1 then (i : Int) else -2) = -2 ∨
    (0 ≤ (if b = -2 then b else if nthB cube (i * n2 + nj) = false then b
      else if b = -1 then (i : Int) else -2) ∧
     (if b = -2 then b else if nthB cube (i * n2 + nj) = false then b
      else if b = -1 then (i : Int) else -2).toNat < s ∧
     nthB cube ((if b = -2 then b else if nthB cube (i * n2 + nj) = false then b
      else if b = -1 then (i : Int) else -2).toNat * n2 + nj) = true) := by
  split_ifs with h1 h2 h3
  · exact hb
  · exact hb
  · refine Or.inr (Or.inr ⟨by omega, by omega, ?_⟩)
    show nthB cube (i * n2 + nj) = true
    cases hcb : nthB cube (i * n2 + nj) with
    | false => exact absurd hcb h2
    | true => rfl
  · exact Or.inr (Or.inl rfl)

theorem singlePosFound_inv (s n2 : Nat) (cube : List Bool) (nj : Nat) :
    singlePosFound s n2 cube nj = -1 ∨ singlePosFound s n2 cube nj = -2 ∨
    (0 ≤ singlePosFound s n2 cube nj ∧ (singlePosFound s n2 cube nj).toNat < s ∧
      nthB cube ((singlePosFound s n2 cube nj).toNat * n2 + nj) = true) := by
  unfold singlePosFound
  refine foldl_induction _ _ _
    (fun (f : Int) => f = -1 ∨ f = -2 ∨
      (0 ≤ f ∧ f.toNat < s ∧ nthB cube (f.toNat * n2 + nj) = true))
    (Or.inl rfl) ?_
  intro b i hi hb
  exact singlePosFound_step_inv n2 nj s cube b i (List.mem_range.mp hi) hb

theorem singlePosFound_spec (s n2 : Nat) (cube : List Bool) (nj : Nat)
    (h : ¬ singlePosFound s n2 cube nj < 0) :
    (singlePosFound s n2 cube nj).toNat < s ∧
    nthB cube ((singlePosFound s n2 cube nj).toNat * n2 + nj) = true := by
  rcases singlePosFound_inv s n2 cube nj with h1 | h1 | h1
  · rw [h1] at h
    exact absurd (by decide) h
  · rw [h1] at h
    exact absurd (by decide) h
  · exact ⟨h1.2.1, h1.2.2⟩

theorem singlePosStep_mono (state0 : game_state) (s n2 : Nat) (counts : List Nat)
    (cube : List Bool) (b : game_state × Nat) (nj : Nat) (hnj : nj < n2)
    (hc : ∀ i v, i < s → v < n2 → nthB cube (i * n2 + v) = true →
      (nthN state0.known i &&& v = nthN state0.known i) ∧
      (nthN state0.mask i &&& v = v))
    (hb : boundsLe state0 b.1) :
    boundsLe state0 (singlePosStep s n2 counts cube b nj).1 := by
  simp only [singlePosStep]
  split_ifs with h1 h2
  · exact hb
  · exact hb
  · obtain ⟨hlt, htrue⟩ := singlePosFound_spec s n2 cube nj h2
    have hcompat := hc _ nj hlt hnj htrue
    simp only [nthN] at hcompat
    intro j
    constructor
    · show nthN state0.known j &&&
        nthN (b.1.known.set (singlePosFound s n2 cube nj).toNat nj) j =
        nthN state0.known j
      simp only [nthN]
      rw [getD_set_if]
      split_ifs with hcase
      · rw [← hcase.1]
        exact hcompat.1
      · exact (hb j).1
    · show nthN (b.1.mask.set (singlePosFound s n2 cube nj).toNat nj) j &&&
        nthN state0.mask j =
        nthN (b.1.mask.set (singlePosFound s n2 cube nj).toNat nj) j
      simp only [nthN]
      rw [getD_set_if]
      split_ifs with hcase
      · rw [← hcase.1]
        rw [Nat.land_comm]
        exact hcompat.2
      · exact (hb j).2

theorem single_position_mono (state0 state : game_state) (counts : List Nat)
    (cube : List Bool) (hb : boundsLe state0 state)
    (hc : ∀ i v, i < state.w * state.h → v < 2 ^ state.n →
      nthB cube (i * 2 ^ state.n + v) = true →
      (nthN state0.known i &&& v = nthN state0.known i) ∧
      (nthN state0.mask i &&& v = v)) :
    boundsLe state0 (subsets_solve_single_position state counts cube).1 := by
  unfold subsets_solve_single_position
  refine foldl_induction _ _ _
    (fun (acc : game_state × Nat) => boundsLe state0 acc.1) hb ?_
  intro b nj hnj hbnd
  exact singlePosStep_mono state0 (state.w * state.h) (2 ^ state.n) counts cube
    b nj (List.mem_range.mp hnj) hc hbnd

/-- C2: every solver iteration (one pass of the rule chain inside the
`while` loop of `subsets_solve_game`) only tightens the per-cell
bounds: for every cell the new `known` is a superset of the old
`known` and the new `mask` is a subset of the old `mask` (the subset
relations stated as `&&&`-absorption); in particular the direct
assignments `known := mask := v` made by `subsets_solve_single_position`
never drop a confirmed bit nor reinstate a ruled-out one, because the
candidate placed there survived the cube synchronised against the
bounds at the start of the pass. -/
theorem solver_iteration_tightens (state : game_state) (counts : List Nat)
    (cube : List Bool) :
    boundsLe state (solverBody state counts cube).1 := by
  simp only [solverBody]
  split_ifs with h1 h2 h3 h4 h5
  · exact apply_arrows_mono state
  · exact apply_arrows_mono state
  · exact boundsLe_trans (apply_arrows_mono state) (bits_from_cube_mono _ _)
  all_goals {
    refine single_position_mono state _ counts _
      (boundsLe_trans (apply_arrows_mono state) (bits_from_cube_mono _ _)) ?_
    have hc2 : cubeCompat state (subsets_disjoint
        (subsets_solve_apply_arrows state).1
        (subsets_cube_single_count state counts
          (subsets_sync_cube state cube))).1 := by
      refine cubeCompat_of_le state _ _
        (fun ix hx => disjoint_le _ _ ix hx) ?_
      refine cubeCompat_of_le state _ _
        (fun ix hx => single_count_le _ _ _ ix hx) ?_
      exact sync_compat state cube
    have ha := apply_arrows_dims state
    have hbd := bits_from_cube_dims (subsets_solve_apply_arrows state).1
      (subsets_disjoint (subsets_solve_apply_arrows state).1
        (subsets_cube_single_count state counts
          (subsets_sync_cube state cube))).1
    intro i v hi hv ht
    rw [hbd.1, ha.1, hbd.2.1, ha.2.1] at hi
    rw [hbd.2.2, ha.2.2] at hv ht
    exact hc2 i v hi hv ht
  }

theorem foldl_rel {α β γ : Type} (f : β → α → β) (g : γ → α → γ)
    (R : β → γ → Prop) (l : List α) (b0 : β) (c0 : γ) (h0 : R b0 c0)
    (hstep : ∀ b c a, a ∈ l → R b c → R (f b a) (g c a)) :
    R (l.foldl f b0) (l.foldl g c0) := by
  induction l generalizing b0 c0 with
  | nil => exact h0
  | cons a l ih =>
    exact ih (f b0 a) (g c0 a)
      (hstep b0 c0 a (List.mem_cons_self a l) h0)
      (fun b c a' ha' hr => hstep b c a' (List.mem_cons_of_mem a ha') hr)

theorem countStep_rel (state : game_state) (uf : Bool) (b c : Status × List Nat)
    (i : Nat) (h : b.1 = c.1 ∧ (b.1 ≠ Status.invalid → b.2 = c.2)) :
    (countStep state uf b i).1 = (countStep state true c i).1 ∧
    ((countStep state uf b i).1 ≠ Status.invalid →
      (countStep state uf b i).2 = (countStep state true c i).2) := by
  obtain ⟨h1, h2⟩ := h
  by_cases hinv : b.1 = Status.invalid
  · have hc : c.1 = Status.invalid := h1 ▸ hinv
    have hb' : (countStep state uf b i).1 = Status.invalid := by
      rcases countStep_fst_cases state uf b i with h' | h'
      · exact h'.trans hinv
      · exact h'
    have hc' : (countStep state true c i).1 = Status.invalid := by
      rcases countStep_fst_cases state true c i with h' | h'
      · exact h'.trans hc
      · exact h'
    exact ⟨hb'.trans hc'.symm, fun hne => absurd hb' hne⟩
  · have hbc : b = c := Prod.ext h1 (h2 hinv)
    rw [hbc] at hinv ⊢
    have hcond1 : ¬ (uf = false ∧ c.1 = Status.invalid) := fun hx => hinv hx.2
    have hcond2 : ¬ ((true : Bool) = false ∧ c.1 = Status.invalid) :=
      fun hx => absurd hx.1 (by decide)
    have heq : countStep state uf c i = countStep state true c i := by
      simp only [countStep]
      rw [if_neg hcond1, if_neg hcond2]
    rw [heq]
    exact ⟨rfl, fun _ => rfl⟩

theorem arrowDirStep_rel (state : game_state) (uf : Bool) (i : Nat)
    (b c : Status × List Nat) (d : Nat) (h : b.1 = c.1) :
    (arrowDirStep state uf i b d).1 = (arrowDirStep state true i c d).1 := by
  simp only [arrowDirStep]
  by_cases hv : edgeViol state i d = true
  · rw [if_pos hv, if_pos hv]
  · rw [if_neg hv, if_neg hv]
    exact h

theorem arrowCellStep_rel (state : game_state) (uf : Bool)
    (b c : Status × List Nat) (i : Nat) (h : b.1 = c.1) :
    (arrowCellStep state uf b i).1 = (arrowCellStep state true c i).1 := by
  by_cases hinv : b.1 = Status.invalid
  · have hc : c.1 = Status.invalid := h ▸ hinv
    have h1 : (arrowCellStep state uf b i).1 = Status.invalid := by
      rcases arrowCellStep_fst_cases state uf b i with h' | h'
      · exact h'.trans hinv
      · exact h'
    have h2 : (arrowCellStep state true c i).1 = Status.invalid := by
      rcases arrowCellStep_fst_cases state true c i with h' | h'
      · exact h'.trans hc
      · exact h'
    rw [h1, h2]
  · have hcinv : ¬ c.1 = Status.invalid := h ▸ hinv
    have hcond1 : ¬ (uf = false ∧ b.1 = Status.invalid) := fun hx => hinv hx.2
    have hcond2 : ¬ ((true : Bool) = false ∧ c.1 = Status.invalid) :=
      fun hx => absurd hx.1 (by decide)
    simp only [arrowCellStep]
    rw [if_neg hcond1, if_neg hcond2]
    by_cases hres : nthN state.known i ≠ nthN state.mask i
    · rw [if_pos hres, if_pos hres]
      exact h
    · rw [if_neg hres, if_neg hres]
      exact foldl_rel (arrowDirStep state uf i) (arrowDirStep state true i)
        (fun p q => p.1 = q.1) (List.range 4) b c h
        (fun b' c' d _ h' => arrowDirStep_rel state uf i b' c' d h')

theorem validate_fst_eq_tt (state : game_state) (uf uc : Bool)
    (hno : ¬ (uf = false ∧ uc = false ∧ initialStatus state = Status.unfinished)) :
    (subsets_validate state uf uc).1 = (subsets_validate state true true).1 := by
  simp only [subsets_validate]
  rw [if_neg hno, if_neg (by simp)]
  have hcnt := foldl_rel (countStep state uf) (countStep state true)
    (fun p q => p.1 = q.1 ∧ (p.1 ≠ Status.invalid → p.2 = q.2))
    (List.range (state.w * state.h))
    (initialStatus state, List.replicate (state.w * state.h) 0)
    (initialStatus state, List.replicate (state.w * state.h) 0)
    ⟨rfl, fun _ => rfl⟩
    (fun b c a _ hr => countStep_rel state uf b c a hr)
  exact foldl_rel (arrowCellStep state uf) (arrowCellStep state true)
    (fun p q => p.1 = q.1) (List.range (state.w * state.h))
    (((List.range (state.w * state.h)).foldl (countStep state uf)
        (initialStatus state, List.replicate (state.w * state.h) 0)).1,
      List.replicate (state.w * state.h) 0)
    (((List.range (state.w * state.h)).foldl (countStep state true)
        (initialStatus state, List.replicate (state.w * state.h) 0)).1,
      List.replicate (state.w * state.h) 0)
    hcnt.1
    (fun b c a _ hr => arrowCellStep_rel state uf b c a hr)

theorem validate_complete_initial (state : game_state)
    (h : (subsets_validate state false true).1 = Status.complete) :
    initialStatus state = Status.complete := by
  simp only [subsets_validate] at h
  rw [if_neg (by simp)] at h
  rcases arrowFold_fst_cases state false (List.range (state.w * state.h))
    (((List.range (state.w * state.h)).foldl (countStep state false)
        (initialStatus state, List.replicate (state.w * state.h) 0)).1,
      List.replicate (state.w * state.h) 0) with h1 | h1
  · rw [h1] at h
    rcases countFold_fst_cases state false (List.range (state.w * state.h))
      (initialStatus state, List.replicate (state.w * state.h) 0) with h2 | h2
    · rw [h2] at h
      exact h
    · rw [h2] at h
      have h' : Status.invalid = Status.complete := h
      exact absurd h' (by decide)
  · rw [h1] at h
    have h' : Status.invalid = Status.complete := h
    exact absurd h' (by decide)

theorem solveLoop_complete (fuel : Nat) :
    ∀ (state : game_state) (cube : List Bool),
    (solveLoop fuel state cube).1 = Status.complete →
    (subsets_validate (solveLoop fuel state cube).2 false true).1 =
      Status.complete := by
  induction fuel with
  | zero =>
    intro state cube h
    exact h
  | succ fuel ih =>
    intro state cube h
    simp only [solveLoop] at h ⊢
    by_cases hv : (subsets_validate state false true).1 ≠ Status.unfinished
    · rw [if_pos hv] at h ⊢
      exact h
    · rw [if_neg hv] at h ⊢
      by_cases hb : (solverBody state (subsets_validate state false true).2.2
          cube).2.2 = true
      · rw [if_pos hb] at h ⊢
        exact ih _ _ h
      · rw [if_neg hb] at h ⊢
        have h' : Status.unfinished = Status.complete := h
        exact absurd h' (by decide)

/-- C6: if `subsets_solve_game` returns `STATUS_COMPLETE` then
`subsets_validate` applied to the board state the solve call leaves
behind also returns `STATUS_COMPLETE`, with any combination of the
optional flags and counts buffers.  (The solver's return value is the
last evaluation of the validator in its loop condition, and a
`COMPLETE` verdict does not depend on the buffers.) -/
theorem solve_complete_validate_complete (state : game_state)
    (h : (subsets_solve_game state).1 = Status.complete) (uf uc : Bool) :
    (subsets_validate (subsets_solve_game state).2 uf uc).1 =
      Status.complete := by
  have hft : (subsets_validate (subsets_solve_game state).2 false true).1 =
      Status.complete := by
    unfold subsets_solve_game at h ⊢
    exact solveLoop_complete _ _ _ h
  have hinit := validate_complete_initial _ hft
  rw [validate_fst_eq_tt (subsets_solve_game state).2 uf uc (by simp [hinit])]
  rw [← validate_fst_eq_tt (subsets_solve_game state).2 false true
    (by simp [hinit])]
  exact hft

/-- C6 witness: a fully resolved immutable 1x1 board; the solver
returns `COMPLETE` on it and the validator (here with the flags buffer
but no counts buffer, the configuration the solve call itself does not
use) agrees. -/
theorem solve_complete_validate_complete_witness :
    (subsets_solve_game oneCell).1 = Status.complete ∧
    (subsets_validate (subsets_solve_game oneCell).2 true false).1 =
      Status.complete :=
  ⟨by decide, solve_complete_validate_complete oneCell (by decide) true false⟩

theorem nthB_oob (cb : List Bool) (idx : Nat) (h : cb.length ≤ idx) :
    nthB cb idx = false := by
  simp only [nthB]
  rw [List.getD_eq_getElem?_getD, List.getElem?_eq_none (by omega)]
  rfl

theorem nthB_set_false (cb : List Bool) (idx : Nat) :
    nthB (cb.set idx false) idx = false := by
  by_cases hl : idx < cb.length
  · exact nthB_set_false_self cb idx hl
  · rw [set_oob cb idx false (by omega)]
    exact nthB_oob cb idx (by omega)

theorem disjointOpt_getD_self (state : game_state) (n2 i1 i2 : Nat)
    (acc : List Bool × Nat) (opt : Nat) :
    nthB (disjointOpt state n2 i1 i2 acc opt).1 (i2 * n2 + opt) =
      (nthB acc.1 (i2 * n2 + opt) &&
        decide ((nthN state.known i1 &&& opt) ≠ opt ∧
          (nthN state.known i1 &&& opt) ≠ nthN state.known i1)) := by
  simp only [disjointOpt]
  split_ifs with h1 h2
  · rw [h1, Bool.false_and]
  · have ht : nthB acc.1 (i2 * n2 + opt) = true := by
      cases hE : nthB acc.1 (i2 * n2 + opt) with
      | false => exact absurd hE h1
      | true => rfl
    rw [ht, decide_eq_true h2, Bool.and_true]
  · have ht : nthB acc.1 (i2 * n2 + opt) = true := by
      cases hE : nthB acc.1 (i2 * n2 + opt) with
      | false => exact absurd hE h1
      | true => rfl
    rw [ht, decide_eq_false h2, Bool.and_false]
    exact nthB_set_false acc.1 _

theorem disjointOpt_getD_ne (state : game_state) (n2 i1 i2 : Nat)
    (acc : List Bool × Nat) (opt ix : Nat) (h : ix ≠ i2 * n2 + opt) :
    nthB (disjointOpt state n2 i1 i2 acc opt).1 ix = nthB acc.1 ix := by
  simp only [disjointOpt]
  split_ifs with h1 h2
  · rfl
  · rfl
  · simp only [nthB]
    exact getD_set_ne acc.1 (i2 * n2 + opt) ix false false (fun hx => h hx.symm)

theorem disjointOptFold_inv (state : game_state) (n2 i1 i2 : Nat) :
    ∀ (k s : Nat) (acc : List Bool × Nat) (opt : Nat),
    ((s ≤ opt ∧ opt < s + k) →
      nthB ((List.range' s k).foldl (disjointOpt state n2 i1 i2) acc).1
          (i2 * n2 + opt) =
        (nthB acc.1 (i2 * n2 + opt) &&
          decide ((nthN state.known i1 &&& opt) ≠ opt ∧
            (nthN state.known i1 &&& opt) ≠ nthN state.known i1))) ∧
    (opt < s →
      nthB ((List.range' s k).foldl (disjointOpt state n2 i1 i2) acc).1
          (i2 * n2 + opt) = nthB acc.1 (i2 * n2 + opt)) := by
  intro k
  induction k with
  | zero =>
    intro s acc opt
    exact ⟨fun hx => absurd hx (by omega), fun _ => rfl⟩
  | succ k ih =>
    intro s acc opt
    rw [List.range'_succ, List.foldl_cons]
    constructor
    · rintro ⟨h1, h2⟩
      by_cases hso : opt = s
      · rw [(ih (s + 1) (disjointOpt state n2 i1 i2 acc s) opt).2 (by omega)]
        rw [hso]
        exact disjointOpt_getD_self state n2 i1 i2 acc s
      · rw [(ih (s + 1) (disjointOpt state n2 i1 i2 acc s) opt).1
          ⟨by omega, by omega⟩]
        rw [disjointOpt_getD_ne state n2 i1 i2 acc s _ (by omega)]
    · intro hlt
      rw [(ih (s + 1) (disjointOpt state n2 i1 i2 acc s) opt).2 (by omega)]
      rw [disjointOpt_getD_ne state n2 i1 i2 acc s _ (by omega)]

/-- C5: incomparability propagation by `subsets_disjoint`.  For an
adjacent pair reached without an arrow in either direction (the
direction step `disjointDir` at cell `i1`, direction `d`, in-grid
neighbour `i2`): (1) when `i1` is resolved with value `v` and `i2` is
unresolved, the step eliminates from `i2`'s cube row exactly the
candidates comparable with `v` — an entry survives iff it survived
before and `v &&& opt` equals neither `opt` nor `v`; (2) when `i1` is
unresolved, the candidates `0` and `n2 - 1` (the empty and the
universal set) of `i1`'s own row are eliminated; and (3) on the T3
board (cell 0 resolved with `0b1100`, cell 1 blank) the whole
`subsets_disjoint` pass removes from cell 1's row exactly the seven
candidates `0b0000, 0b0100, 0b1000, 0b1100, 0b1101, 0b1110, 0b1111`. -/
theorem disjoint_rule_exact (state : game_state) (w h n2 i1 : Nat)
    (acc : List Bool × Nat) (d : Nat)
    (hna : nthN state.clues i1 &&& (adjAt d).f = 0)
    (hgrid : ¬ (((i1 % w : Nat) : Int) + (adjAt d).dx < 0 ∨
      (w : Int) ≤ ((i1 % w : Nat) : Int) + (adjAt d).dx ∨
      ((i1 / w : Nat) : Int) + (adjAt d).dy < 0 ∨
      (h : Int) ≤ ((i1 / w : Nat) : Int) + (adjAt d).dy))
    (hnr : nthN state.clues (((i1 : Int) + (adjAt d).dy * w +
      (adjAt d).dx).toNat) &&& (adjAt d).fo = 0) :
    ((nthN state.known i1 = nthN state.mask i1 →
      nthN state.known (((i1 : Int) + (adjAt d).dy * w + (adjAt d).dx).toNat) ≠
        nthN state.mask (((i1 : Int) + (adjAt d).dy * w + (adjAt d).dx).toNat) →
      ∀ opt, opt < n2 →
        nthB (disjointDir state w h n2 i1 acc d).1
            ((((i1 : Int) + (adjAt d).dy * w + (adjAt d).dx).toNat) * n2 + opt) =
          (nthB acc.1
              ((((i1 : Int) + (adjAt d).dy * w + (adjAt d).dx).toNat) * n2 + opt) &&
            decide ((nthN state.known i1 &&& opt) ≠ opt ∧
              (nthN state.known i1 &&& opt) ≠ nthN state.known i1))) ∧
     (nthN state.known i1 ≠ nthN state.mask i1 →
       nthB (disjointDir state w h n2 i1 acc d).1 (i1 * n2) = false ∧
       nthB (disjointDir state w h n2 i1 acc d).1 (i1 * n2 + (n2 - 1)) = false)) ∧
    (subsets_disjoint cexT3 (List.replicate 32 true)).1 =
      List.replicate 16 true ++
      [false, true, true, true, false, true, true, true,
       false, true, true, true, false, false, false, false] := by
  have hc1 : ¬ (nthN state.clues i1 &&& (adjAt d).f ≠ 0) := fun hx => hx hna
  refine ⟨⟨?_, ?_⟩, by decide⟩
  · intro hres hunres opt hopt
    simp only [disjointDir]
    rw [if_neg hc1, if_neg hgrid, if_neg (fun hx => hx hnr),
      if_neg (fun hx => hx hres), if_pos hunres]
    rw [List.range_eq_range']
    exact (disjointOptFold_inv state n2 i1 _ n2 0 acc opt).1
      ⟨Nat.zero_le _, by omega⟩
  · intro hunres1
    simp only [disjointDir]
    rw [if_neg hc1, if_neg hgrid, if_neg (fun hx => hx hnr), if_pos hunres1]
    by_cases hfire : nthB acc.1 (i1 * n2) = true ∨
        nthB acc.1 (i1 * n2 + (n2 - 1)) = true
    · rw [if_pos hfire]
      constructor
      · by_cases hn : i1 * n2 + (n2 - 1) = i1 * n2
        · rw [hn]
          exact nthB_set_false _ _
        · show nthB ((acc.1.set (i1 * n2) false).set (i1 * n2 + (n2 - 1)) false)
            (i1 * n2) = false
          simp only [nthB]
          rw [getD_set_ne _ _ _ _ _ hn]
          exact nthB_set_false acc.1 (i1 * n2)
      · exact nthB_set_false _ _
    · rw [if_neg hfire]
      constructor
      · cases hE : nthB acc.1 (i1 * n2) with
        | false => rfl
        | true => exact absurd (Or.inl hE) hfire
      · cases hE : nthB acc.1 (i1 * n2 + (n2 - 1)) with
        | false => rfl
        | true => exact absurd (Or.inr hE) hfire

/-- C5 witness: on the T3 board, `disjointDir` from cell 0 in the
rightward direction eliminates the comparable candidate `0b1100` from
the blank neighbour's row (entry 12 of row 1, flat index 28) while
keeping the incomparable candidate `0b0001` (flat index 17). -/
theorem disjoint_rule_exact_witness :
    (nthN cexT3.clues 0 &&& (adjAt 1).f = 0) ∧
    nthB (disjointDir cexT3 2 1 16 0 (List.replicate 32 true, 0) 1).1 28 =
      false ∧
    nthB (disjointDir cexT3 2 1 16 0 (List.replicate 32 true, 0) 1).1 17 =
      true := by
  refine ⟨by decide, ?_, ?_⟩
  · have h := ((disjoint_rule_exact cexT3 2 1 16 0 (List.replicate 32 true, 0) 1
      (by decide) (by decide) (by decide)).1).1 (by decide) (by decide)
      12 (by decide)
    exact h.trans (by decide)
  · have h := ((disjoint_rule_exact cexT3 2 1 16 0 (List.replicate 32 true, 0) 1
      (by decide) (by decide) (by decide)).1).1 (by decide) (by decide)
      1 (by decide)
    exact h.trans (by decide)

theorem foldl_congr' {α β : Type} (f g : β → α → β) (l : List α) (init : β)
    (h : ∀ b a, a ∈ l → f b a = g b a) : l.foldl f init = l.foldl g init := by
  induction l generalizing init with
  | nil => rfl
  | cons a l ih =>
    rw [List.foldl_cons, List.foldl_cons, h init a (List.mem_cons_self a l)]
    exact ih _ (fun b a' ha' => h b a' (List.mem_cons_of_mem a ha'))

theorem map_congr' {α β : Type} (f g : α → β) (l : List α)
    (h : ∀ a, a ∈ l → f a = g a) : l.map f = l.map g := by
  induction l with
  | nil => rfl
  | cons a l ih =>
    rw [List.map_cons, List.map_cons, h a (List.mem_cons_self a l),
      ih (fun a' ha' => h a' (List.mem_cons_of_mem a ha'))]

theorem foldl_append_join {α : Type} (g : α → List Char) (l : List α) :
    ∀ init, l.foldl (fun p i => p ++ g i) init = init ++ (l.map g).flatten := by
  induction l with
  | nil =>
    intro init
    simp
  | cons a l ih =>
    intro init
    rw [List.foldl_cons, ih, List.map_cons, List.flatten_cons, List.append_assoc]

theorem join_comma_intercalate (L : List (List Char)) (x : List Char) :
    (L.map (fun q => q ++ [','])).flatten ++ x =
      List.intercalate [','] (L ++ [x]) := by
  induction L with
  | nil => simp [List.intercalate, List.intersperse]
  | cons q L ih =>
    rw [List.map_cons, List.flatten_cons, List.append_assoc, ih]
    cases hL : L ++ [x] with
    | nil => exact absurd hL (by simp)
    | cons y ys =>
      rw [List.cons_append, hL]
      simp [List.intercalate, List.intersperse, List.append_assoc]

theorem fold_pairs_intercalate (pair : Nat → List Char) (s : Nat) :
    (List.range s).foldl (fun p i => p ++ pair i ++
      (if i = s - 1 then [] else [','])) [] =
    List.intercalate [','] ((List.range s).map pair) := by
  cases s with
  | zero => simp [List.intercalate, List.intersperse]
  | succ s =>
    rw [foldl_congr'
      (fun p i => p ++ pair i ++ (if i = s + 1 - 1 then [] else [',']))
      (fun p i => p ++ (pair i ++ (if i = s + 1 - 1 then [] else [','])))
      (List.range (s + 1)) []
      (fun b a _ => List.append_assoc b (pair a) _)]
    rw [foldl_append_join
      (fun i => pair i ++ (if i = s + 1 - 1 then [] else [',']))
      (List.range (s + 1)) []]
    rw [List.nil_append, List.range_succ, List.map_append, List.flatten_append]
    simp only [Nat.add_sub_cancel]
    rw [map_congr' (fun i => pair i ++ (if i = s then [] else [',']))
      (fun i => pair i ++ [',']) (List.range s)
      (fun a ha => by
        show pair a ++ (if a = s then ([] : List Char) else [',']) =
          pair a ++ [',']
        rw [if_neg (Nat.ne_of_lt (List.mem_range.mp ha))])]
    simp only [List.map_cons, List.map_nil, List.flatten_cons, List.flatten_nil,
      eq_self_iff_true, if_true, List.append_nil]
    rw [List.map_append]
    have hj := join_comma_intercalate ((List.range s).map pair) (pair s)
    rw [List.map_map] at hj
    exact hj

/-- C8: `solve_game` sets the error `"Puzzle is invalid."` and
returns no move string exactly when `subsets_solve_game` on a
duplicate of the input board returns `STATUS_INVALID`; in every other
case it returns the move string consisting of the literal `'S'`
followed by the `w*h` comma-separated `<known>,<mask>` pairs of the
solver's resulting board in row-major order (`solveStringSpec`), and
no error. -/
theorem solve_game_exact (state : game_state) :
    ((subsets_solve_game (dup_game state)).1 = Status.invalid →
      solve_game state = (none, some ("Puzzle is invalid.".data))) ∧
    ((subsets_solve_game (dup_game state)).1 ≠ Status.invalid →
      solve_game state =
        (some (solveStringSpec (subsets_solve_game (dup_game state)).2),
          none)) := by
  constructor
  · intro h
    simp only [solve_game]
    rw [if_neg (fun hx => hx h)]
  · intro h
    simp only [solve_game]
    rw [if_pos h]
    rw [fold_pairs_intercalate
      (fun i => (Nat.repr (nthN (subsets_solve_game (dup_game state)).2.known
          i)).data ++ [','] ++
        (Nat.repr (nthN (subsets_solve_game (dup_game state)).2.mask i)).data)
      ((subsets_solve_game (dup_game state)).2.w *
        (subsets_solve_game (dup_game state)).2.h)]
    rfl

/-- C8 witness: on the fully resolved 1x1 board the solver reports
`COMPLETE` (not `INVALID`), so `solve_game` returns the move string
and no error. -/
theorem solve_game_exact_witness :
    (subsets_solve_game (dup_game oneCell)).1 ≠ Status.invalid ∧
    solve_game oneCell =
      (some (solveStringSpec (subsets_solve_game (dup_game oneCell)).2),
        none) :=
  ⟨by decide, (solve_game_exact oneCell).2 (by decide)⟩

theorem flagsLoop_ne_err (i : Nat) :
    ∀ (p : List Char) (st : game_state) (e : List Char),
    flagsLoop i st p ≠ Sum.inr e := by
  intro p
  induction p with
  | nil =>
    intro st e h
    simp only [flagsLoop] at h
    exact Sum.noConfusion h
  | cons c rest ih =>
    intro st e h
    simp only [flagsLoop] at h
    split_ifs at h with h1 h2 h3 h4 h5
    · exact ih _ _ h
    · exact ih _ _ h
    · exact ih _ _ h
    · exact ih _ _ h
    · rcases h1 with hU | hR | hD | hL
      · exact h2 hU
      · exact h3 hR
      · exact h4 hD
      · exact h5 hL

theorem loadTail_ne_urdl (w h n fuel : Nat)
    (ih : ∀ (st : game_state) (i : Nat) (p : List Char),
      loadLoop w h n fuel st i p ≠
        Sum.inr ("Expecting flag URDL in game description".data))
    (st1 : game_state) (i : Nat) (p1 : List Char) :
    (match flagsLoop i st1 p1 with
     | Sum.inr e => Sum.inr e
     | Sum.inl (st2, p2) =>
       if i + 1 < w * h ∧ p2.headD '\x00' ≠ ',' then
         Sum.inr ("Missing separator".data)
       else loadLoop w h n fuel st2 (i + 1)
         (if p2.headD '\x00' = ',' then p2.tail else p2)) ≠
      Sum.inr ("Expecting flag URDL in game description".data) := by
  intro hc
  cases hF : flagsLoop i st1 p1 with
  | inr e => exact flagsLoop_ne_err i p1 st1 e hF
  | inl pr =>
    obtain ⟨st2, p2⟩ := pr
    rw [hF] at hc
    have hc2 : (if i + 1 < w * h ∧ p2.headD '\x00' ≠ ',' then
        (Sum.inr ("Missing separator".data) : game_state ⊕ List Char)
      else loadLoop w h n fuel st2 (i + 1)
        (if p2.headD '\x00' = ',' then p2.tail else p2)) =
        Sum.inr ("Expecting flag URDL in game description".data) := hc
    split_ifs at hc2
    · exact absurd (Sum.inr.inj hc2) (by decide)
    · exact ih st2 (i + 1) _ hc2
    · exact ih st2 (i + 1) _ hc2

theorem loadLoop_ne_urdl (w h n : Nat) :
    ∀ (fuel : Nat) (st : game_state) (i : Nat) (p : List Char),
    loadLoop w h n fuel st i p ≠
      Sum.inr ("Expecting flag URDL in game description".data) := by
  intro fuel
  induction fuel with
  | zero =>
    intro st i p hc
    cases p with
    | nil =>
      simp only [loadLoop] at hc
      split_ifs at hc
      exact absurd (Sum.inr.inj hc) (by decide)
    | cons c rest =>
      simp only [loadLoop] at hc
      split_ifs at hc
      exact absurd (Sum.inr.inj hc) (by decide)
  | succ fuel ih =>
    intro st i p hc
    cases p with
    | nil =>
      simp only [loadLoop] at hc
      split_ifs at hc
      exact absurd (Sum.inr.inj hc) (by decide)
    | cons c rest =>
      simp only [loadLoop] at hc
      by_cases h1 : w * h ≤ i
      · rw [if_pos h1] at hc
        exact absurd (Sum.inr.inj hc) (by decide)
      · rw [if_neg h1] at hc
        by_cases hd : c.isDigit = true
        · rw [if_pos hd] at hc
          by_cases hnum : ALL_BITS n < atoiNat (c :: rest)
          · rw [if_pos hnum] at hc
            have hc2 : (Sum.inr
                ("Out-of-range number in game description".data) :
                  game_state ⊕ List Char) =
                Sum.inr ("Expecting flag URDL in game description".data) := hc
            exact absurd (Sum.inr.inj hc2) (by decide)
          · rw [if_neg hnum] at hc
            exact loadTail_ne_urdl w h n fuel ih _ i _ hc
        · rw [if_neg hd] at hc
          by_cases hund : c = '_'
          · rw [if_pos hund] at hc
            exact loadTail_ne_urdl w h n fuel ih st i rest hc
          · rw [if_neg hund] at hc
            have hc2 : (Sum.inr
                ("Expecting number in game description".data) :
                  game_state ⊕ List Char) =
                Sum.inr ("Expecting flag URDL in game description".data) := hc
            exact absurd (Sum.inr.inj hc2) (by decide)

theorem flagCheckCell_cases (st : game_state) (w h x y : Nat) :
    flagCheckCell st w h x y = none ∨
    flagCheckCell st w h x y = some ("Flags go off grid".data) ∨
    flagCheckCell st w h x y = some ("Flags contradicting each other".data) := by
  unfold flagCheckCell
  refine foldl_induction _ _ _
    (fun acc => acc = none ∨ acc = some ("Flags go off grid".data) ∨
      acc = some ("Flags contradicting each other".data)) (Or.inl rfl) ?_
  intro b a _ hb
  rcases hb with hb | hb | hb <;> rw [hb]
  · split_ifs with h1 h2 h3
    · exact Or.inr (Or.inl rfl)
    · exact Or.inr (Or.inr rfl)
    · exact Or.inl rfl
    · exact Or.inl rfl
  · exact Or.inr (Or.inl rfl)
  · exact Or.inr (Or.inr rfl)

theorem flagsCheck_cases (st : game_state) (w h : Nat) (e : List Char)
    (hF : flagsCheck st w h = some e) :
    e = "Flags go off grid".data ∨
    e = "Flags contradicting each other".data := by
  have main : flagsCheck st w h = none ∨
      flagsCheck st w h = some ("Flags go off grid".data) ∨
      flagsCheck st w h = some ("Flags contradicting each other".data) := by
    unfold flagsCheck
    refine foldl_induction _ _ _
      (fun acc => acc = none ∨ acc = some ("Flags go off grid".data) ∨
        acc = some ("Flags contradicting each other".data)) (Or.inl rfl) ?_
    intro b y _ hb
    refine foldl_induction _ _ _
      (fun acc => acc = none ∨ acc = some ("Flags go off grid".data) ∨
        acc = some ("Flags contradicting each other".data)) hb ?_
    intro b2 x _ hb2
    rcases hb2 with hb2 | hb2 | hb2 <;> rw [hb2]
    · exact flagCheckCell_cases st w h x y
    · exact Or.inr (Or.inl rfl)
    · exact Or.inr (Or.inr rfl)
  rcases main with h' | h' | h'
  · rw [hF] at h'
    exact Option.noConfusion h'
  · rw [hF] at h'
    exact Or.inl (Option.some.inj h')
  · rw [hF] at h'
    exact Or.inr (Option.some.inj h')

/-- C7 (amended): a rejection of the description due to an unexpected
character never produces the message "Expecting flag URDL in game
description" — the `default` branch of the flag `switch` is dead code,
since the enclosing `while` condition admits only the four flag
letters; an unexpected character where a cell descriptor must start
yields "Expecting number in game description" (an unexpected character
where the separator is required yields "Missing separator", see the
counterexample). -/
theorem parser_unexpected_char_errors :
    (∀ (state : game_state) (desc : List Char),
      attempt_load_game state desc ≠
        Sum.inr ("Expecting flag URDL in game description".data)) ∧
    (∀ (w h n fuel : Nat) (state : game_state) (i : Nat) (c : Char)
        (rest : List Char),
      i < w * h → c.isDigit = false → c ≠ '_' →
      loadLoop w h n (fuel + 1) state i (c :: rest) =
        Sum.inr ("Expecting number in game description".data)) := by
  constructor
  · intro state desc hc
    simp only [attempt_load_game] at hc
    cases hL : loadLoop state.w state.w state.n desc.length state 0 desc with
    | inr e =>
      rw [hL] at hc
      have hc2 : (Sum.inr e : game_state ⊕ List Char) =
          Sum.inr ("Expecting flag URDL in game description".data) := hc
      rw [Sum.inr.inj hc2] at hL
      exact loadLoop_ne_urdl state.w state.w state.n desc.length state 0
        desc hL
    | inl st2 =>
      rw [hL] at hc
      have hc2 : (match flagsCheck st2 state.w state.w with
          | some e => (Sum.inr e : game_state ⊕ List Char)
          | none => Sum.inl st2) =
          Sum.inr ("Expecting flag URDL in game description".data) := hc
      cases hFc : flagsCheck st2 state.w state.w with
      | none =>
        rw [hFc] at hc2
        exact Sum.noConfusion hc2
      | some e =>
        rw [hFc] at hc2
        have he := Sum.inr.inj hc2
        rcases flagsCheck_cases st2 state.w state.w e hFc with h' | h' <;>
          rw [h'] at he
        · exact absurd he (by decide)
        · exact absurd he (by decide)
  · intro w h n fuel state i c rest hi hd hund
    have hnotle : ¬ (w * h ≤ i) := fun hx => absurd hi (Nat.not_lt.mpr hx)
    have hnd : ¬ (c.isDigit = true) := fun hx => by
      rw [hd] at hx
      exact Bool.noConfusion hx
    simp only [loadLoop]
    rw [if_neg hnotle, if_neg hnd, if_neg hund]

/-- C7 witness: the unexpected character `'!'` at the start of a cell
descriptor is rejected with "Expecting number in game description". -/
theorem parser_unexpected_char_errors_witness :
    loadLoop 4 4 4 17 (blank_game 4 4 4) 0 ['!'] =
      Sum.inr ("Expecting number in game description".data) :=
  parser_unexpected_char_errors.2 4 4 4 16 (blank_game 4 4 4) 0 '!' []
    (by decide) (by decide) (by decide)

/-- C7 counterexample: the description `"1!"` on a blank 4x4 board is
rejected for the unexpected character `'!'` — which is neither a
digit, `'_'`, a flag letter, nor the separator its position requires —
yet the message is "Missing separator", not one of the two messages
the claim allows; and the claim's "Expecting flag URDL in game
description" message is unreachable (see the amended theorem). -/
theorem parser_missing_separator_cex :
    attempt_load_game (blank_game 4 4 4) ("1!".data) =
      Sum.inr ("Missing separator".data) ∧
    decide ("Missing separator".data =
      "Expecting number in game description".data) = false ∧
    decide ("Missing separator".data =
      "Expecting flag URDL in game description".data) = false :=
  ⟨by decide, by decide, by decide⟩

/- Generator: reset characterisation and description-board reduction. -/

theorem nthN_oob (xs : List Nat) (i : Nat) (h : xs.length ≤ i) :
    nthN xs i = 0 := by
  simp only [nthN]
  rw [List.getD_eq_getElem?_getD, List.getElem?_eq_none (by omega)]
  rfl

theorem nthN_map_range {m j : Nat} (f : Nat → Nat) (hj : j < m) :
    nthN ((List.range m).map f) j = f j := by
  simp only [nthN]
  rw [List.getD_eq_getElem?_getD, List.getElem?_map, List.getElem?_range hj]
  rfl

theorem nthN_map_range_oob {m j : Nat} (f : Nat → Nat) (hj : m ≤ j) :
    nthN ((List.range m).map f) j = 0 := by
  refine nthN_oob _ _ ?_
  rw [List.length_map, List.length_range]
  exact hj

theorem game_state_ext (a b : game_state) (h1 : a.w = b.w) (h2 : a.h = b.h)
    (h3 : a.n = b.n) (h4 : a.clues = b.clues) (h5 : a.immutable = b.immutable)
    (h6 : a.known = b.known) (h7 : a.mask = b.mask)
    (h8 : a.completed = b.completed) (h9 : a.cheated = b.cheated) : a = b := by
  cases a
  cases b
  simp only [game_state.mk.injEq]
  exact ⟨h1, h2, h3, h4, h5, h6, h7, h8, h9⟩

theorem dup_game_eq (st : game_state) : dup_game st = st := rfl

theorem solveResetFold_inv (st0 : game_state)
    (hlenk : st0.w * st0.h ≤ st0.known.length)
    (hlenm : st0.w * st0.h ≤ st0.mask.length) :
    ∀ (k s : Nat) (acc : game_state), s + k ≤ st0.w * st0.h →
    (acc.w = st0.w ∧ acc.h = st0.h ∧ acc.n = st0.n ∧ acc.clues = st0.clues ∧
     acc.immutable = st0.immutable ∧ acc.completed = st0.completed ∧
     acc.cheated = st0.cheated ∧ acc.known.length = st0.known.length ∧
     acc.mask.length = st0.mask.length ∧
     (∀ j, nthN acc.known j =
       if j < s ∧ nthN st0.immutable j = 0 then 0 else nthN st0.known j) ∧
     (∀ j, nthN acc.mask j =
       if j < s ∧ nthN st0.immutable j = 0 then ALL_BITS st0.n
       else nthN st0.mask j)) →
    (((List.range' s k).foldl resetStep acc).w = st0.w ∧
     ((List.range' s k).foldl resetStep acc).h = st0.h ∧
     ((List.range' s k).foldl resetStep acc).n = st0.n ∧
     ((List.range' s k).foldl resetStep acc).clues = st0.clues ∧
     ((List.range' s k).foldl resetStep acc).immutable = st0.immutable ∧
     ((List.range' s k).foldl resetStep acc).completed = st0.completed ∧
     ((List.range' s k).foldl resetStep acc).cheated = st0.cheated ∧
     ((List.range' s k).foldl resetStep acc).known.length =
       st0.known.length ∧
     ((List.range' s k).foldl resetStep acc).mask.length = st0.mask.length ∧
     (∀ j, nthN ((List.range' s k).foldl resetStep acc).known j =
       if j < s + k ∧ nthN st0.immutable j = 0 then 0
       else nthN st0.known j) ∧
     (∀ j, nthN ((List.range' s k).foldl resetStep acc).mask j =
       if j < s + k ∧ nthN st0.immutable j = 0 then ALL_BITS st0.n
       else nthN st0.mask j)) := by
  intro k
  induction k with
  | zero =>
    intro s acc _ hacc
    obtain ⟨a1, a2, a3, a4, a5, a6, a7, a8, a9, a10, a11⟩ := hacc
    refine ⟨a1, a2, a3, a4, a5, a6, a7, a8, a9, fun j => ?_, fun j => ?_⟩
    · show nthN acc.known j = _
      rw [a10 j, Nat.add_zero]
    · show nthN acc.mask j = _
      rw [a11 j, Nat.add_zero]
  | succ k ih =>
    intro s acc hsk hacc
    obtain ⟨a1, a2, a3, a4, a5, a6, a7, a8, a9, a10, a11⟩ := hacc
    rw [List.range'_succ, List.foldl_cons]
    have hmain := ih (s + 1) (resetStep acc s) (by omega) ?_
    · obtain ⟨b1, b2, b3, b4, b5, b6, b7, b8, b9, b10, b11⟩ := hmain
      refine ⟨b1, b2, b3, b4, b5, b6, b7, b8, b9, fun j => ?_, fun j => ?_⟩
      · rw [b10 j]
        by_cases hc : j < s + 1 + k ∧ nthN st0.immutable j = 0
        · have hc' : j < s + (k + 1) ∧ nthN st0.immutable j = 0 :=
            ⟨by omega, hc.2⟩
          rw [if_pos hc, if_pos hc']
        · have hc' : ¬ (j < s + (k + 1) ∧ nthN st0.immutable j = 0) :=
            fun hx => hc ⟨by omega, hx.2⟩
          rw [if_neg hc, if_neg hc']
      · rw [b11 j]
        by_cases hc : j < s + 1 + k ∧ nthN st0.immutable j = 0
        · have hc' : j < s + (k + 1) ∧ nthN st0.immutable j = 0 :=
            ⟨by omega, hc.2⟩
          rw [if_pos hc, if_pos hc']
        · have hc' : ¬ (j < s + (k + 1) ∧ nthN st0.immutable j = 0) :=
            fun hx => hc ⟨by omega, hx.2⟩
          rw [if_neg hc, if_neg hc']
    · by_cases himm : nthN acc.immutable s ≠ 0
      · rw [resetStep, if_pos himm]
        rw [a5] at himm
        refine ⟨a1, a2, a3, a4, a5, a6, a7, a8, a9, fun j => ?_, fun j => ?_⟩
        · rw [a10 j]
          by_cases hc : j < s ∧ nthN st0.immutable j = 0
          · have hc' : j < s + 1 ∧ nthN st0.immutable j = 0 := ⟨by omega, hc.2⟩
            rw [if_pos hc, if_pos hc']
          · have hc' : ¬ (j < s + 1 ∧ nthN st0.immutable j = 0) := fun hx => by
              rcases Nat.lt_succ_iff_lt_or_eq.mp hx.1 with hj | hj
              · exact hc ⟨hj, hx.2⟩
              · rw [hj] at hx
                exact himm hx.2
            rw [if_neg hc, if_neg hc']
        · rw [a11 j]
          by_cases hc : j < s ∧ nthN st0.immutable j = 0
          · have hc' : j < s + 1 ∧ nthN st0.immutable j = 0 := ⟨by omega, hc.2⟩
            rw [if_pos hc, if_pos hc']
          · have hc' : ¬ (j < s + 1 ∧ nthN st0.immutable j = 0) := fun hx => by
              rcases Nat.lt_succ_iff_lt_or_eq.mp hx.1 with hj | hj
              · exact hc ⟨hj, hx.2⟩
              · rw [hj] at hx
                exact himm hx.2
            rw [if_neg hc, if_neg hc']
      · rw [resetStep, if_neg himm]
        have himm0 : nthN st0.immutable s = 0 := by
          rw [← a5]
          exact not_ne_iff.mp himm
        refine ⟨a1, a2, a3, a4, a5, a6, a7, ?_, ?_, fun j => ?_, fun j => ?_⟩
        · rw [List.length_set]
          exact a8
        · rw [List.length_set]
          exact a9
        · show (acc.known.set s 0).getD j 0 = _
          rw [getD_set_if]
          have hslen : s < acc.known.length := by rw [a8]; omega
          split_ifs with hc1 hc2 hc2
          · rfl
          · exact absurd ⟨by omega, by rw [← hc1.1]; exact himm0⟩ hc2
          · have hsj : s ≠ j := fun hx => hc1 ⟨hx, hslen⟩
            have hcc : j < s ∧ nthN st0.immutable j = 0 := ⟨by omega, hc2.2⟩
            have hv := a10 j
            rw [if_pos hcc] at hv
            exact hv
          · have hcc : ¬ (j < s ∧ nthN st0.immutable j = 0) :=
              fun hx => hc2 ⟨by omega, hx.2⟩
            have hv := a10 j
            rw [if_neg hcc] at hv
            exact hv
        · show (acc.mask.set s (ALL_BITS acc.n)).getD j 0 = _
          rw [getD_set_if]
          have hslen : s < acc.mask.length := by rw [a9]; omega
          split_ifs with hc1 hc2 hc2
          · rw [a3]
          · exact absurd ⟨by omega, by rw [← hc1.1]; exact himm0⟩ hc2
          · have hsj : s ≠ j := fun hx => hc1 ⟨hx, hslen⟩
            have hcc : j < s ∧ nthN st0.immutable j = 0 := ⟨by omega, hc2.2⟩
            have hv := a11 j
            rw [if_pos hcc] at hv
            exact hv
          · have hcc : ¬ (j < s ∧ nthN st0.immutable j = 0) :=
              fun hx => hc2 ⟨by omega, hx.2⟩
            have hv := a11 j
            rw [if_neg hcc] at hv
            exact hv

theorem solveReset_spec (st : game_state)
    (hlenk : st.w * st.h ≤ st.known.length)
    (hlenm : st.w * st.h ≤ st.mask.length) :
    (solveReset st).w = st.w ∧ (solveReset st).h = st.h ∧
    (solveReset st).n = st.n ∧ (solveReset st).clues = st.clues ∧
    (solveReset st).immutable = st.immutable ∧
    (solveReset st).completed = st.completed ∧
    (solveReset st).cheated = st.cheated ∧
    (solveReset st).known.length = st.known.length ∧
    (solveReset st).mask.length = st.mask.length ∧
    (∀ j, nthN (solveReset st).known j =
      if j < st.w * st.h ∧ nthN st.immutable j = 0 then 0
      else nthN st.known j) ∧
    (∀ j, nthN (solveReset st).mask j =
      if j < st.w * st.h ∧ nthN st.immutable j = 0 then ALL_BITS st.n
      else nthN st.mask j) := by
  have h := solveResetFold_inv st hlenk hlenm (st.w * st.h) 0 st (by omega)
    ⟨rfl, rfl, rfl, rfl, rfl, rfl, rfl, rfl, rfl,
      fun j => (if_neg (fun hx => absurd hx.1 (by omega))).symm,
      fun j => (if_neg (fun hx => absurd hx.1 (by omega))).symm⟩
  rw [show solveReset st =
    (List.range' 0 (st.w * st.h)).foldl resetStep st from by
      rw [← List.range_eq_range']; rfl]
  obtain ⟨b1, b2, b3, b4, b5, b6, b7, b8, b9, b10, b11⟩ := h
  refine ⟨b1, b2, b3, b4, b5, b6, b7, b8, b9, fun j => ?_, fun j => ?_⟩
  · rw [b10 j]
    by_cases hc : j < st.w * st.h ∧ nthN st.immutable j = 0
    · have hc' : j < 0 + st.w * st.h ∧ nthN st.immutable j = 0 :=
        ⟨by omega, hc.2⟩
      rw [if_pos hc', if_pos hc]
    · have hc' : ¬ (j < 0 + st.w * st.h ∧ nthN st.immutable j = 0) :=
        fun hx => hc ⟨by omega, hx.2⟩
      rw [if_neg hc', if_neg hc]
  · rw [b11 j]
    by_cases hc : j < st.w * st.h ∧ nthN st.immutable j = 0
    · have hc' : j < 0 + st.w * st.h ∧ nthN st.immutable j = 0 :=
        ⟨by omega, hc.2⟩
      rw [if_pos hc', if_pos hc]
    · have hc' : ¬ (j < 0 + st.w * st.h ∧ nthN st.immutable j = 0) :=
        fun hx => hc ⟨by omega, hx.2⟩
      rw [if_neg hc', if_neg hc]

theorem nat_list_ext_getD (l1 l2 : List Nat) (hlen : l1.length = l2.length)
    (h : ∀ j, j < l1.length → nthN l1 j = nthN l2 j) : l1 = l2 := by
  refine List.ext_getElem hlen ?_
  intro i h1 h2
  have := h i h1
  simp only [nthN] at this
  rw [List.getD_eq_getElem?_getD, List.getD_eq_getElem?_getD,
    List.getElem?_eq_getElem h1, List.getElem?_eq_getElem h2] at this
  exact this

theorem solveReset_descBoard (st : game_state)
    (hlk : st.known.length = st.w * st.h)
    (hlm : st.mask.length = st.w * st.h)
    (hli : st.immutable.length = st.w * st.h)
    (h01 : ∀ j, nthN st.immutable j = 0 ∨ nthN st.immutable j = 1)
    (hmk : ∀ j, j < st.w * st.h → nthN st.immutable j ≠ 0 →
      nthN st.mask j = nthN st.known j) :
    solveReset (descBoard st) = solveReset st := by
  have himm : (descBoard st).immutable = st.immutable := by
    refine nat_list_ext_getD _ _ ?_ ?_
    · show ((List.range (st.w * st.h)).map _).length = _
      rw [List.length_map, List.length_range, hli]
    · intro j hj
      have hjlt : j < st.w * st.h := by
        simpa [descBoard] using hj
      show nthN ((List.range (st.w * st.h)).map _) j = _
      rw [nthN_map_range _ hjlt]
      rcases h01 j with h0 | h0
      · rw [if_neg (fun hx => hx h0), h0]
      · rw [if_pos (by rw [h0]; exact one_ne_zero), h0]
  have hdk : (descBoard st).known.length = st.w * st.h := by
    show ((List.range (st.w * st.h)).map _).length = _
    rw [List.length_map, List.length_range]
  have hdm : (descBoard st).mask.length = st.w * st.h := by
    show ((List.range (st.w * st.h)).map _).length = _
    rw [List.length_map, List.length_range]
  have hd := solveReset_spec (descBoard st)
    (by rw [hdk]; exact Nat.le_refl _) (by rw [hdm]; exact Nat.le_refl _)
  have hs := solveReset_spec st (by rw [hlk]) (by rw [hlm])
  refine game_state_ext _ _ (hd.1.trans hs.1.symm) (hd.2.1.trans hs.2.1.symm)
    (hd.2.2.1.trans hs.2.2.1.symm) (hd.2.2.2.1.trans hs.2.2.2.1.symm)
    ((hd.2.2.2.2.1.trans himm).trans hs.2.2.2.2.1.symm) ?_ ?_
    (hd.2.2.2.2.2.1.trans hs.2.2.2.2.2.1.symm)
    (hd.2.2.2.2.2.2.1.trans hs.2.2.2.2.2.2.1.symm)
  · refine nat_list_ext_getD _ _ ?_ ?_
    · rw [hd.2.2.2.2.2.2.2.1, hs.2.2.2.2.2.2.2.1, hdk, hlk]
    · intro j _
      rw [hd.2.2.2.2.2.2.2.2.2.1 j, hs.2.2.2.2.2.2.2.2.2.1 j]
      rw [show (descBoard st).immutable = st.immutable from himm]
      by_cases hc : j < st.w * st.h ∧ nthN st.immutable j = 0
      · rw [show (descBoard st).w = st.w from rfl,
          show (descBoard st).h = st.h from rfl]
        rw [if_pos hc, if_pos hc]
      · rw [show (descBoard st).w = st.w from rfl,
          show (descBoard st).h = st.h from rfl]
        rw [if_neg hc, if_neg hc]
        by_cases hjlt : j < st.w * st.h
        · have himmj : nthN st.immutable j ≠ 0 := fun hx => hc ⟨hjlt, hx⟩
          show nthN ((List.range (st.w * st.h)).map _) j = _
          rw [nthN_map_range _ hjlt, if_pos himmj]
        · show nthN ((List.range (st.w * st.h)).map _) j = _
          rw [nthN_map_range_oob _ (by omega), nthN_oob st.known j (by omega)]
  · refine nat_list_ext_getD _ _ ?_ ?_
    · rw [hd.2.2.2.2.2.2.2.2.1, hs.2.2.2.2.2.2.2.2.1, hdm, hlm]
    · intro j _
      rw [hd.2.2.2.2.2.2.2.2.2.2 j, hs.2.2.2.2.2.2.2.2.2.2 j]
      rw [show (descBoard st).immutable = st.immutable from himm]
      by_cases hc : j < st.w * st.h ∧ nthN st.immutable j = 0
      · rw [show (descBoard st).w = st.w from rfl,
          show (descBoard st).h = st.h from rfl]
        rw [if_pos hc, if_pos hc]
        rw [show (descBoard st).n = st.n from rfl]
      · rw [show (descBoard st).w = st.w from rfl,
          show (descBoard st).h = st.h from rfl]
        rw [if_neg hc, if_neg hc]
        by_cases hjlt : j < st.w * st.h
        · have himmj : nthN st.immutable j ≠ 0 := fun hx => hc ⟨hjlt, hx⟩
          show nthN ((List.range (st.w * st.h)).map _) j = _
          rw [nthN_map_range _ hjlt, if_pos himmj]
          exact (hmk j hjlt himmj).symm
        · show nthN ((List.range (st.w * st.h)).map _) j = _
          rw [nthN_map_range_oob _ (by omega), nthN_oob st.mask j (by omega)]

theorem solve_descBoard (st : game_state)
    (hlk : st.known.length = st.w * st.h)
    (hlm : st.mask.length = st.w * st.h)
    (hli : st.immutable.length = st.w * st.h)
    (h01 : ∀ j, nthN st.immutable j = 0 ∨ nthN st.immutable j = 1)
    (hmk : ∀ j, j < st.w * st.h → nthN st.immutable j ≠ 0 →
      nthN st.mask j = nthN st.known j) :
    subsets_solve_game (descBoard st) = subsets_solve_game st := by
  unfold subsets_solve_game
  rw [solveReset_descBoard st hlk hlm hli h01 hmk]
  rfl

/- Bit-algebra helpers for the generator development. -/

theorem land_comm' (a b : Nat) : a &&& b = b &&& a := Nat.land_comm a b

theorem land_antisymm (a b : Nat) (h1 : a &&& b = a) (h2 : b &&& a = b) :
    a = b := by
  conv_lhs => rw [← h1]
  conv_rhs => rw [← h2]
  exact Nat.land_comm a b

theorem lor_subset (a b p : Nat) (ha : a &&& p = a) (hb : b &&& p = b) :
    (a ||| b) &&& p = a ||| b := by
  refine Nat.eq_of_testBit_eq (fun k => ?_)
  have t1 := congrArg (fun x => x.testBit k) ha
  have t2 := congrArg (fun x => x.testBit k) hb
  simp only [Nat.testBit_land] at t1 t2
  simp only [Nat.testBit_land, Nat.testBit_lor]
  cases hA : (Nat.testBit a k) <;> cases hB : (Nat.testBit b k) <;>
    rw [hA] at t1 <;> rw [hB] at t2 <;> simp_all

theorem land_double (p m1 m2 : Nat) (h1 : p &&& m1 = p) (h2 : p &&& m2 = p) :
    p &&& (m1 &&& m2) = p := by
  rw [← Nat.land_assoc, h1, h2]

theorem subset_lt (a b : Nat) (h : a &&& b = a) (hne : a ≠ b) : a < b := by
  have hle : a ≤ b := by
    rw [← h]
    exact Nat.and_le_right
  omega

theorem cell_index_unique (n2 a b c d : Nat) (h0 : 0 < n2) (hb : b < n2)
    (hd : d < n2) (h : a * n2 + b = c * n2 + d) : a = c ∧ b = d := by
  have hdiv := congrArg (fun x => x / n2) h
  simp only at hdiv
  rw [Nat.mul_comm a n2, Nat.mul_comm c n2, Nat.mul_add_div h0,
    Nat.mul_add_div h0, Nat.div_eq_of_lt hb, Nat.div_eq_of_lt hd] at hdiv
  have h1 : a = c := by omega
  refine ⟨h1, ?_⟩
  rw [h1] at h
  omega

theorem foldl_mem_stable' {β α : Type} (f : β → α → β) (l : List α)
    (init : β) (Q : β → Prop) (a : α) (ha : a ∈ l)
    (hstab : ∀ b x, Q b → Q (f b x)) (hest : ∀ b, Q (f b a)) :
    Q (l.foldl f init) := by
  induction l generalizing init with
  | nil => cases ha
  | cons x l ih =>
    rcases List.mem_cons.mp ha with h | h
    · rw [List.foldl_cons]
      exact foldl_induction f l (f init x) Q (h ▸ hest init)
        (fun b a' _ hb => hstab b a' hb)
    · rw [List.foldl_cons]
      exact ih (f init x) h

/- Generator: structural facts. -/

theorem unfixStep_fields (st : game_state) (i : Nat) :
    (unfixStep st i).w = st.w ∧ (unfixStep st i).h = st.h ∧
    (unfixStep st i).n = st.n ∧ (unfixStep st i).clues = st.clues ∧
    (unfixStep st i).known = st.known ∧ (unfixStep st i).mask = st.mask ∧
    (unfixStep st i).completed = st.completed ∧
    (unfixStep st i).cheated = st.cheated ∧
    (unfixStep st i).immutable.length = st.immutable.length := by
  simp only [unfixStep]
  split_ifs
  · exact ⟨rfl, rfl, rfl, rfl, rfl, rfl, rfl, rfl, by
      show ((st.immutable.set i 0).set i 1).length = _
      rw [List.length_set, List.length_set]⟩
  · exact ⟨rfl, rfl, rfl, rfl, rfl, rfl, rfl, rfl, by
      show (st.immutable.set i 0).length = _
      rw [List.length_set]⟩

theorem unfixStep_imm01 (st : game_state) (i : Nat)
    (h : ∀ j, nthN st.immutable j = 0 ∨ nthN st.immutable j = 1) :
    ∀ j, nthN (unfixStep st i).immutable j = 0 ∨
      nthN (unfixStep st i).immutable j = 1 := by
  intro j
  simp only [unfixStep]
  split_ifs
  · show ((st.immutable.set i 0).set i 1).getD j 0 = 0 ∨
      ((st.immutable.set i 0).set i 1).getD j 0 = 1
    rw [getD_set_if]
    split_ifs with hc
    · exact Or.inr rfl
    · rw [getD_set_if]
      split_ifs with hc2
      · exact Or.inl rfl
      · exact h j
  · show (st.immutable.set i 0).getD j 0 = 0 ∨
      (st.immutable.set i 0).getD j 0 = 1
    rw [getD_set_if]
    split_ifs with hc
    · exact Or.inl rfl
    · exact h j

theorem unfixLoop_fields (order : List Nat) : ∀ (st : game_state),
    ((order.foldl unfixStep st).w = st.w ∧
     (order.foldl unfixStep st).h = st.h ∧
     (order.foldl unfixStep st).n = st.n ∧
     (order.foldl unfixStep st).clues = st.clues ∧
     (order.foldl unfixStep st).known = st.known ∧
     (order.foldl unfixStep st).mask = st.mask ∧
     (order.foldl unfixStep st).completed = st.completed ∧
     (order.foldl unfixStep st).cheated = st.cheated ∧
     (order.foldl unfixStep st).immutable.length = st.immutable.length) ∧
    ((∀ j, nthN st.immutable j = 0 ∨ nthN st.immutable j = 1) →
      ∀ j, nthN (order.foldl unfixStep st).immutable j = 0 ∨
        nthN (order.foldl unfixStep st).immutable j = 1) := by
  induction order with
  | nil => exact fun st => ⟨⟨rfl, rfl, rfl, rfl, rfl, rfl, rfl, rfl, rfl⟩,
      fun h => h⟩
  | cons a l ih =>
    intro st
    rw [List.foldl_cons]
    obtain ⟨⟨b1, b2, b3, b4, b5, b6, b7, b8, b9⟩, b10⟩ := ih (unfixStep st a)
    obtain ⟨c1, c2, c3, c4, c5, c6, c7, c8, c9⟩ := unfixStep_fields st a
    refine ⟨⟨b1.trans c1, b2.trans c2, b3.trans c3, b4.trans c4,
      b5.trans c5, b6.trans c6, b7.trans c7, b8.trans c8, b9.trans c9⟩, ?_⟩
    intro h01
    exact b10 (unfixStep_imm01 st a h01)

theorem genCluesFold_inv (w h : Nat) (known : List Nat) :
    ∀ (k s : Nat) (cl : List Nat) (j : Nat),
    ((s ≤ j ∧ j < s + k ∧ j < cl.length →
       nthN ((List.range' s k).foldl (fun cl2 i =>
         cl2.set i (genClueCell w h known i (nthN cl2 i))) cl) j =
       genClueCell w h known j (nthN cl j)) ∧
     (j < s ∨ s + k ≤ j →
       nthN ((List.range' s k).foldl (fun cl2 i =>
         cl2.set i (genClueCell w h known i (nthN cl2 i))) cl) j =
       nthN cl j)) := by
  intro k
  induction k with
  | zero =>
    intro s cl j
    exact ⟨fun hx => absurd hx (by omega), fun _ => rfl⟩
  | succ k ih =>
    intro s cl j
    rw [List.range'_succ, List.foldl_cons]
    constructor
    · rintro ⟨h1, h2, h3⟩
      by_cases hj : j = s
      · subst hj
        rw [(ih (j + 1) (cl.set j (genClueCell w h known j (nthN cl j))) j).2
          (by omega)]
        show (cl.set j (genClueCell w h known j (nthN cl j))).getD j 0 = _
        have hc : j = j ∧ j < cl.length := ⟨rfl, h3⟩
        rw [getD_set_if, if_pos hc]
      · rw [(ih (s + 1) (cl.set s (genClueCell w h known s (nthN cl s))) j).1
          ⟨by omega, by omega, by rw [List.length_set]; exact h3⟩]
        have hv : nthN (cl.set s (genClueCell w h known s (nthN cl s))) j =
            nthN cl j := by
          show (cl.set s (genClueCell w h known s (nthN cl s))).getD j 0 = _
          have hc : ¬ (s = j ∧ s < cl.length) := fun hx => hj hx.1.symm
          rw [getD_set_if, if_neg hc]
          rfl
        rw [hv]
    · intro hj
      rw [(ih (s + 1) (cl.set s (genClueCell w h known s (nthN cl s))) j).2
        (by omega)]
      show (cl.set s (genClueCell w h known s (nthN cl s))).getD j 0 = _
      have hc : ¬ (s = j ∧ s < cl.length) := fun hx => by omega
      rw [getD_set_if, if_neg hc]
      rfl

theorem genClues_getD (w h : Nat) (known cl0 : List Nat) (i : Nat)
    (hi : i < w * h) (hlen : i < cl0.length) :
    nthN (genClues w h known cl0) i =
      genClueCell w h known i (nthN cl0 i) := by
  unfold genClues
  rw [List.range_eq_range']
  exact (genCluesFold_inv w h known (w * h) 0 cl0 i).1 ⟨by omega, by omega, hlen⟩

theorem lor_zero' (a : Nat) : a ||| 0 = a := by
  refine Nat.eq_of_testBit_eq (fun k => ?_)
  simp [Nat.testBit_lor]

theorem ite_step_or (P Q : Prop) [Decidable P] [Decidable Q] (c2 f : Nat) :
    (if P then c2 else if Q then c2 ||| f else c2) =
      c2 ||| (if ¬ P ∧ Q then f else 0) := by
  by_cases hp : P
  · have h1 : ¬ (¬ P ∧ Q) := fun hx => hx.1 hp
    rw [if_pos hp, if_neg h1, lor_zero']
  · by_cases hq : Q
    · have h1 : ¬ P ∧ Q := ⟨hp, hq⟩
      rw [if_neg hp, if_pos hq, if_pos h1]
    · have h1 : ¬ (¬ P ∧ Q) := fun hx => hq hx.2
      rw [if_neg hp, if_neg hq, if_neg h1, lor_zero']

theorem genClueCell_and (w h : Nat) (known : List Nat) (i d : Nat)
    (hd : d < 4) :
    (genClueCell w h known i 0 &&& (adjAt d).f ≠ 0) ↔
    (¬ (((i % w : Nat) : Int) + (adjAt d).dx < 0 ∨
        (w : Int) ≤ ((i % w : Nat) : Int) + (adjAt d).dx ∨
        ((i / w : Nat) : Int) + (adjAt d).dy < 0 ∨
        (h : Int) ≤ ((i / w : Nat) : Int) + (adjAt d).dy) ∧
     nthN known i &&&
        nthN known (((i : Int) + (adjAt d).dy * w + (adjAt d).dx).toNat) =
        nthN known (((i : Int) + (adjAt d).dy * w + (adjAt d).dx).toNat)) := by
  simp only [genClueCell, show List.range 4 = [0, 1, 2, 3] from rfl,
    List.foldl_cons, List.foldl_nil]
  rw [ite_step_or, ite_step_or, ite_step_or, ite_step_or]
  interval_cases d <;>
    · split_ifs <;>
        first
        | exact iff_of_true (by decide) (by assumption)
        | (refine iff_of_false (by decide) ?_; assumption)

theorem genStart_known (perm : List Nat) :
    (genStart 4 4 4 perm).known = perm := by
  show perm ++ List.replicate (4 * 4 - 2 ^ 4) 0 = perm
  rw [show List.replicate (4 * 4 - 2 ^ 4) (0 : Nat) = [] from rfl,
    List.append_nil]

theorem genStart_mask (perm : List Nat) :
    (genStart 4 4 4 perm).mask = perm := by
  show perm ++ List.replicate (4 * 4 - 2 ^ 4) (ALL_BITS 4) = perm
  rw [show List.replicate (4 * 4 - 2 ^ 4) (ALL_BITS 4) = [] from rfl,
    List.append_nil]

theorem genStart_immutable (perm : List Nat) :
    (genStart 4 4 4 perm).immutable = List.replicate 16 1 := by
  show List.replicate (2 ^ 4) 1 ++ List.replicate (4 * 4 - 2 ^ 4) 0 = _
  rw [show List.replicate (4 * 4 - 2 ^ 4) (0 : Nat) = [] from rfl,
    List.append_nil]
  rfl

theorem genStart_clues (perm : List Nat) :
    (genStart 4 4 4 perm).clues = genClues 4 4 perm (List.replicate 16 0) := by
  simp only [genStart, genBase]
  rw [show List.replicate (4 * 4 - 2 ^ 4) (0 : Nat) = [] from rfl,
    List.append_nil, show (4 * 4 : Nat) = 16 from rfl]

theorem genStart_clue_bit (perm : List Nat) (i d : Nat) (hi : i < 16)
    (hd : d < 4) :
    (nthN (genStart 4 4 4 perm).clues i &&& (adjAt d).f ≠ 0) ↔
    (¬ (((i % 4 : Nat) : Int) + (adjAt d).dx < 0 ∨
        (4 : Int) ≤ ((i % 4 : Nat) : Int) + (adjAt d).dx ∨
        ((i / 4 : Nat) : Int) + (adjAt d).dy < 0 ∨
        (4 : Int) ≤ ((i / 4 : Nat) : Int) + (adjAt d).dy) ∧
     nthN perm i &&&
        nthN perm (((i : Int) + (adjAt d).dy * 4 + (adjAt d).dx).toNat) =
        nthN perm (((i : Int) + (adjAt d).dy * 4 + (adjAt d).dx).toNat)) := by
  rw [genStart_clues, genClues_getD 4 4 perm (List.replicate 16 0) i
    (by omega) (by rw [List.length_replicate]; omega),
    show nthN (List.replicate 16 0) i = 0 from getD_replicate_zero 16 i]
  exact genClueCell_and 4 4 perm i d hd

theorem adj_arith (i d : Nat) (hi : i < 16) (hd : d < 4)
    (hg : ¬ (((i % 4 : Nat) : Int) + (adjAt d).dx < 0 ∨
      (4 : Int) ≤ ((i % 4 : Nat) : Int) + (adjAt d).dx ∨
      ((i / 4 : Nat) : Int) + (adjAt d).dy < 0 ∨
      (4 : Int) ≤ ((i / 4 : Nat) : Int) + (adjAt d).dy)) :
    ((i : Int) + (adjAt d).dy * 4 + (adjAt d).dx).toNat < 16 ∧
    ((i : Int) + (adjAt d).dy * 4 + (adjAt d).dx).toNat ≠ i ∧
    ((((i / 4 : Nat) : Int) + (adjAt d).dy) * 4 +
      (((i % 4 : Nat) : Int) + (adjAt d).dx)).toNat =
      ((i : Int) + (adjAt d).dy * 4 + (adjAt d).dx).toNat := by
  interval_cases d <;>
    · simp only [adjAt, adjthan, List.getD_cons_zero, List.getD_cons_succ]
        at hg ⊢
      omega

theorem adj_rev (i d i2 : Nat) (hi : i < 16) (hd : d < 4)
    (hg : ¬ (((i % 4 : Nat) : Int) + (adjAt d).dx < 0 ∨
      (4 : Int) ≤ ((i % 4 : Nat) : Int) + (adjAt d).dx ∨
      ((i / 4 : Nat) : Int) + (adjAt d).dy < 0 ∨
      (4 : Int) ≤ ((i / 4 : Nat) : Int) + (adjAt d).dy))
    (hi2 : i2 = ((i : Int) + (adjAt d).dy * 4 + (adjAt d).dx).toNat) :
    ∃ d', d' < 4 ∧ (adjAt d').f = (adjAt d).fo ∧
    ¬ (((i2 % 4 : Nat) : Int) + (adjAt d').dx < 0 ∨
       (4 : Int) ≤ ((i2 % 4 : Nat) : Int) + (adjAt d').dx ∨
       ((i2 / 4 : Nat) : Int) + (adjAt d').dy < 0 ∨
       (4 : Int) ≤ ((i2 / 4 : Nat) : Int) + (adjAt d').dy) ∧
    ((i2 : Int) + (adjAt d').dy * 4 + (adjAt d').dx).toNat = i := by
  subst hi2
  interval_cases d
  · refine ⟨2, by omega, rfl, ?_, ?_⟩ <;>
      · simp only [adjAt, adjthan, List.getD_cons_zero, List.getD_cons_succ]
          at hg ⊢
        omega
  · refine ⟨3, by omega, rfl, ?_, ?_⟩ <;>
      · simp only [adjAt, adjthan, List.getD_cons_zero, List.getD_cons_succ]
          at hg ⊢
        omega
  · refine ⟨0, by omega, rfl, ?_, ?_⟩ <;>
      · simp only [adjAt, adjthan, List.getD_cons_zero, List.getD_cons_succ]
          at hg ⊢
        omega
  · refine ⟨1, by omega, rfl, ?_, ?_⟩ <;>
      · simp only [adjAt, adjthan, List.getD_cons_zero, List.getD_cons_succ]
          at hg ⊢
        omega

theorem nthN_eq_getElem (l : List Nat) (i : Nat) (h : i < l.length) :
    nthN l i = l[i] := by
  simp only [nthN]
  rw [List.getD_eq_getElem?_getD, List.getElem?_eq_getElem h]
  rfl

theorem perm_facts (perm : List Nat) (hperm : perm.Perm (List.range 16)) :
    perm.length = 16 ∧
    (∀ i, i < 16 → nthN perm i < 16) ∧
    (∀ i j, i < 16 → j < 16 → nthN perm i = nthN perm j → i = j) ∧
    (∀ v, v < 16 → ∃ j, j < 16 ∧ nthN perm j = v) := by
  have hlen : perm.length = 16 := by
    rw [hperm.length_eq, List.length_range]
  have hnd : perm.Nodup := hperm.nodup_iff.mpr (List.nodup_range 16)
  refine ⟨hlen, ?_, ?_, ?_⟩
  · intro i hi
    have hmem : nthN perm i ∈ perm := by
      rw [nthN_eq_getElem perm i (by omega)]
      exact List.getElem_mem _
    have := hperm.subset hmem
    rw [List.mem_range] at this
    exact this
  · intro i j hi hj hv
    rw [nthN_eq_getElem perm i (by omega), nthN_eq_getElem perm j (by omega)]
      at hv
    exact (List.Nodup.getElem_inj_iff hnd).mp hv
  · intro v hv
    have hmem : v ∈ perm := hperm.mem_iff.mpr (List.mem_range.mpr hv)
    rcases List.mem_iff_getElem.mp hmem with ⟨j, hj, hval⟩
    refine ⟨j, by omega, ?_⟩
    rw [nthN_eq_getElem perm j hj]
    exact hval

theorem initialStatus_complete_of (st : game_state)
    (h : ∀ i, i < st.w * st.h → nthN st.known i = nthN st.mask i) :
    initialStatus st = Status.complete := by
  unfold initialStatus
  rw [if_neg ?_]
  intro hc
  rcases List.any_eq_true.mp hc with ⟨x, hx, hpx⟩
  exact (of_decide_eq_true hpx) (h x (List.mem_range.mp hx))

theorem resolved_of_initialStatus (st : game_state)
    (h : initialStatus st = Status.complete) :
    ∀ i, i < st.w * st.h → nthN st.known i = nthN st.mask i := by
  intro i hi
  by_contra hne
  unfold initialStatus at h
  rw [if_pos (List.any_eq_true.mpr
    ⟨i, List.mem_range.mpr hi, decide_eq_true hne⟩)] at h
  exact absurd h (by decide)

theorem filter_length_le_one {α : Type} (l : List α) (p : α → Bool)
    (hnd : l.Nodup)
    (huniq : ∀ a, a ∈ l → ∀ b, b ∈ l → p a = true → p b = true → a = b) :
    (l.filter p).length ≤ 1 := by
  induction l with
  | nil => exact Nat.zero_le 1
  | cons a l ih =>
    rw [List.filter_cons]
    have hnd2 := List.nodup_cons.mp hnd
    split_ifs with hpa
    · have hempty : l.filter p = [] := by
        rw [List.filter_eq_nil_iff]
        intro b hb hpb
        exact hnd2.1 ((huniq b (List.mem_cons_of_mem a hb) a
          (List.mem_cons_self a l) hpb hpa) ▸ hb)
      rw [hempty]
      exact Nat.le_refl 1
    · exact ih hnd2.2 (fun x hx y hy hpx hpy =>
        huniq x (List.mem_cons_of_mem a hx) y (List.mem_cons_of_mem a hy)
          hpx hpy)

theorem genStart_countsSpec_le (perm : List Nat)
    (hperm : perm.Perm (List.range 16)) (v : Nat) :
    countsSpec (genStart 4 4 4 perm) v ≤ 1 := by
  obtain ⟨hlen, hrange, hinj, hsurj⟩ := perm_facts perm hperm
  unfold countsSpec
  refine filter_length_le_one _ _ (List.nodup_range _) ?_
  intro a ha b hb hpa hpb
  rw [List.mem_range] at ha hb
  have hwa : (genStart 4 4 4 perm).w * (genStart 4 4 4 perm).h = 16 := rfl
  rw [hwa] at ha hb
  simp only [Bool.and_eq_true, beq_iff_eq] at hpa hpb
  have h1 : nthN (genStart 4 4 4 perm).known a = v := hpa.2
  have h2 : nthN (genStart 4 4 4 perm).known b = v := hpb.2
  rw [genStart_known] at h1 h2
  exact hinj a b ha hb (h1.trans h2.symm)

theorem countFold_status_complete (st : game_state) (uf : Bool)
    (hcs : ∀ v, countsSpec st v ≤ 1) :
    ((List.range (st.w * st.h)).foldl (countStep st uf)
      (Status.complete, List.replicate (st.w * st.h) 0)).1 =
      Status.complete := by
  have hrel := foldl_rel (countStep st uf) (countStep st true)
    (fun p q => p.1 = q.1 ∧ (p.1 ≠ Status.invalid → p.2 = q.2))
    (List.range (st.w * st.h))
    (Status.complete, List.replicate (st.w * st.h) 0)
    (Status.complete, List.replicate (st.w * st.h) 0)
    ⟨rfl, fun _ => rfl⟩
    (fun b c a _ hr => countStep_rel st uf b c a hr)
  rw [hrel.1]
  have hlen : ((List.range (st.w * st.h)).foldl (countStep st true)
      (Status.complete, List.replicate (st.w * st.h) 0)).2.length =
      st.w * st.h := by
    refine foldl_induction (countStep st true) _ _
      (fun p => p.2.length = st.w * st.h) (List.length_replicate _ _) ?_
    intro b a _ hb
    rw [countStep_snd_length]
    exact hb
  have hbase : (Status.complete = Status.invalid) ↔
      (∃ v, v < (List.replicate (st.w * st.h) (0 : Nat)).length ∧
        2 ≤ (List.replicate (st.w * st.h) (0 : Nat)).getD v 0) := by
    refine iff_of_false (by decide) ?_
    rintro ⟨v, hv, h2⟩
    rw [getD_replicate_zero] at h2
    omega
  have hiff := countFold_invalid_iff st (List.range (st.w * st.h))
    Status.complete (List.replicate (st.w * st.h) 0) hbase
  rcases countFold_fst_cases st true (List.range (st.w * st.h))
    (Status.complete, List.replicate (st.w * st.h) 0) with hcase | hcase
  · exact hcase
  · exfalso
    rcases hiff.mp hcase with ⟨v, hv, h2⟩
    rw [hlen] at hv
    rw [countFold_getD st _ _ _ v (by rw [List.length_replicate]; omega)]
      at h2
    rw [getD_replicate_zero] at h2
    have := hcs v
    unfold countsSpec at this
    omega

theorem arrowFold_no_viol (st : game_state) (uf : Bool)
    (acc : Status × List Nat)
    (hv : ∀ i d, i < st.w * st.h → d < 4 → edgeViol st i d = false) :
    ((List.range (st.w * st.h)).foldl (arrowCellStep st uf) acc).1 =
      acc.1 := by
  refine foldl_induction _ _ _
    (fun (p : Status × List Nat) => p.1 = acc.1) rfl ?_
  intro b i hi hb
  unfold arrowCellStep
  split_ifs
  · exact hb
  · exact hb
  · refine foldl_induction _ _ _
      (fun (p : Status × List Nat) => p.1 = acc.1) hb ?_
    intro b2 d hd hb2
    simp only [arrowDirStep]
    have hcond : ¬ (edgeViol st i d = true) := by
      rw [hv i d (List.mem_range.mp hi) (List.mem_range.mp hd)]
      exact Bool.false_ne_true
    rw [if_neg hcond]
    exact hb2

theorem genStart_edgeViol (perm : List Nat)
    (hperm : perm.Perm (List.range 16)) (i d : Nat) (hi : i < 16)
    (hd : d < 4) : edgeViol (genStart 4 4 4 perm) i d = false := by
  obtain ⟨hlen, hrange, hinj, hsurj⟩ := perm_facts perm hperm
  simp only [edgeViol]
  rw [show (genStart 4 4 4 perm).w = 4 from rfl,
    show (genStart 4 4 4 perm).h = 4 from rfl,
    genStart_known, genStart_mask]
  simp only [Nat.cast_ofNat]
  by_cases hg : ((i % 4 : Nat) : Int) + (adjAt d).dx < 0 ∨
      (4 : Int) ≤ ((i % 4 : Nat) : Int) + (adjAt d).dx ∨
      ((i / 4 : Nat) : Int) + (adjAt d).dy < 0 ∨
      (4 : Int) ≤ ((i / 4 : Nat) : Int) + (adjAt d).dy
  · rw [if_pos hg]
  · rw [if_neg hg]
    obtain ⟨hlt2, hne2, heq2⟩ := adj_arith i d hi hd hg
    simp only [heq2]
    have hres : ¬ (nthN perm (((i : Int) + (adjAt d).dy * 4 +
        (adjAt d).dx).toNat) ≠ nthN perm (((i : Int) + (adjAt d).dy * 4 +
        (adjAt d).dx).toNat)) := fun hx => hx rfl
    rw [if_neg hres]
    by_cases hskip : nthN (genStart 4 4 4 perm).clues i &&& (adjAt d).f = 0 ∧
        (((i % 4 : Nat) : Int) + (adjAt d).dx < ((i % 4 : Nat) : Int) ∨
         ((i / 4 : Nat) : Int) + (adjAt d).dy < ((i / 4 : Nat) : Int))
    · rw [if_pos hskip]
    · rw [if_neg hskip]
      by_cases harrow : nthN (genStart 4 4 4 perm).clues i &&& (adjAt d).f ≠ 0
      · rw [if_pos harrow]
        have hcont := ((genStart_clue_bit perm i d hi hd).mp harrow).2
        refine decide_eq_false ?_
        intro hx
        exact hx hcont
      · rw [if_neg harrow]
        by_cases hrev : nthN (genStart 4 4 4 perm).clues
            (((i : Int) + (adjAt d).dy * 4 + (adjAt d).dx).toNat) &&&
            (adjAt d).fo = 0
        · rw [if_pos hrev]
          refine decide_eq_false ?_
          rintro (hA | hB)
          · exact harrow ((genStart_clue_bit perm i d hi hd).mpr ⟨hg, hA⟩)
          · obtain ⟨d', hd', hf', hg', htgt⟩ := adj_rev i d
              (((i : Int) + (adjAt d).dy * 4 + (adjAt d).dx).toNat) hi hd
              hg rfl
            have hcont2 : nthN perm (((i : Int) + (adjAt d).dy * 4 +
                (adjAt d).dx).toNat) &&&
                nthN perm (((((i : Int) + (adjAt d).dy * 4 +
                  (adjAt d).dx).toNat : Int) + (adjAt d').dy * 4 +
                  (adjAt d').dx).toNat) =
                nthN perm (((((i : Int) + (adjAt d).dy * 4 +
                  (adjAt d).dx).toNat : Int) + (adjAt d').dy * 4 +
                  (adjAt d').dx).toNat) := by
              rw [htgt, Nat.land_comm]
              exact hB
            have hbit := (genStart_clue_bit perm
              (((i : Int) + (adjAt d).dy * 4 + (adjAt d).dx).toNat) d'
              hlt2 hd').mpr ⟨hg', hcont2⟩
            rw [hf'] at hbit
            exact hbit hrev
        · rw [if_neg hrev]

theorem getD_replicate_lt {a d n j : Nat} (h : j < n) :
    (List.replicate n a).getD j d = a := by
  rw [List.getD_eq_getElem?_getD, List.getElem?_replicate, if_pos h]
  rfl

set_option maxHeartbeats 1000000 in
theorem genStart_validate_complete (perm : List Nat)
    (hperm : perm.Perm (List.range 16)) :
    (subsets_validate (genStart 4 4 4 perm) false true).1 =
      Status.complete := by
  have hinit : initialStatus (genStart 4 4 4 perm) = Status.complete := by
    refine initialStatus_complete_of _ ?_
    intro i hi
    rw [genStart_known, genStart_mask]
  simp only [subsets_validate]
  have hno : ¬ (True ∧ (true : Bool) = false ∧
      initialStatus (genStart 4 4 4 perm) = Status.unfinished) :=
    fun hx => absurd hx.2.1 (by decide)
  rw [if_neg hno]
  have hviol : ∀ i d2, i < (genStart 4 4 4 perm).w *
      (genStart 4 4 4 perm).h → d2 < 4 →
      edgeViol (genStart 4 4 4 perm) i d2 = false := by
    intro i d2 hi hd2
    exact genStart_edgeViol perm hperm i d2 hi hd2
  rw [arrowFold_no_viol (genStart 4 4 4 perm) false _ hviol]
  rw [hinit]
  have hcount := countFold_status_complete (genStart 4 4 4 perm) false
    (fun v => genStart_countsSpec_le perm hperm v)
  rw [hcount]

theorem solveLoop_succ_exit (fuel : Nat) (st : game_state) (cube : List Bool)
    (h : (subsets_validate st false true).1 ≠ Status.unfinished) :
    solveLoop (fuel + 1) st cube = ((subsets_validate st false true).1, st) := by
  simp only [solveLoop]
  rw [if_pos h]

theorem genStart_solve_complete (perm : List Nat)
    (hperm : perm.Perm (List.range 16)) :
    (subsets_solve_game (genStart 4 4 4 perm)).1 = Status.complete := by
  obtain ⟨hlen, hrange, hinj, hsurj⟩ := perm_facts perm hperm
  have hlenk : (genStart 4 4 4 perm).w * (genStart 4 4 4 perm).h ≤
      (genStart 4 4 4 perm).known.length := by
    rw [genStart_known]
    show 16 ≤ perm.length
    omega
  have hlenm : (genStart 4 4 4 perm).w * (genStart 4 4 4 perm).h ≤
      (genStart 4 4 4 perm).mask.length := by
    rw [genStart_mask]
    show 16 ≤ perm.length
    omega
  have hreset : solveReset (genStart 4 4 4 perm) = genStart 4 4 4 perm := by
    have hspec := solveReset_spec (genStart 4 4 4 perm) hlenk hlenm
    refine game_state_ext _ _ hspec.1 hspec.2.1 hspec.2.2.1 hspec.2.2.2.1
      hspec.2.2.2.2.1 ?_ ?_ hspec.2.2.2.2.2.1 hspec.2.2.2.2.2.2.1
    · refine nat_list_ext_getD _ _ hspec.2.2.2.2.2.2.2.1 ?_
      intro j _
      rw [hspec.2.2.2.2.2.2.2.2.2.1 j]
      by_cases hj : j < (genStart 4 4 4 perm).w * (genStart 4 4 4 perm).h
      · have himm : nthN (genStart 4 4 4 perm).immutable j = 1 := by
          rw [genStart_immutable]
          exact getD_replicate_lt hj
        rw [if_neg (fun hx => by rw [himm] at hx; exact absurd hx.2 one_ne_zero)]
      · rw [if_neg (fun hx => hj hx.1)]
    · refine nat_list_ext_getD _ _ hspec.2.2.2.2.2.2.2.2.1 ?_
      intro j _
      rw [hspec.2.2.2.2.2.2.2.2.2.2 j]
      by_cases hj : j < (genStart 4 4 4 perm).w * (genStart 4 4 4 perm).h
      · have himm : nthN (genStart 4 4 4 perm).immutable j = 1 := by
          rw [genStart_immutable]
          exact getD_replicate_lt hj
        rw [if_neg (fun hx => by rw [himm] at hx; exact absurd hx.2 one_ne_zero)]
      · rw [if_neg (fun hx => hj hx.1)]
  simp only [subsets_solve_game]
  rw [hreset]
  have hv := genStart_validate_complete perm hperm
  have hne : (subsets_validate (genStart 4 4 4 perm) false true).1 ≠
      Status.unfinished := by
    rw [hv]
    decide
  rw [solveLoop_succ_exit _ _ _ hne]
  rw [hv]


theorem unfixStep_solve_complete (st : game_state) (i : Nat)
    (h01 : nthN st.immutable i = 0 ∨ nthN st.immutable i = 1)
    (h : (subsets_solve_game st).1 = Status.complete) :
    (subsets_solve_game (unfixStep st i)).1 = Status.complete := by
  simp only [unfixStep]
  split_ifs with hfail
  · rcases h01 with h0 | h1
    · have hset : st.immutable.set i 0 = st.immutable := by
        conv_lhs => rw [show (0 : Nat) = st.immutable.getD i 0 from h0.symm]
        exact set_getD_self st.immutable i
      have hst1 : { st with immutable := st.immutable.set i 0 } = st := by
        rw [hset]
      rw [hst1] at hfail
      rw [dup_game_eq] at hfail
      exact absurd h hfail
    · have himm : (st.immutable.set i 0).set i 1 = st.immutable := by
        rw [List.set_set]
        conv_lhs => rw [show (1 : Nat) = st.immutable.getD i 0 from h1.symm]
        exact set_getD_self st.immutable i
      show (subsets_solve_game
        { st with immutable := (st.immutable.set i 0).set i 1 }).1 =
        Status.complete
      rw [himm]
      exact h
  · have hok := not_ne_iff.mp hfail
    rw [dup_game_eq] at hok
    exact hok

theorem unfixLoop_solve_complete (order : List Nat) : ∀ (st : game_state),
    (∀ j, nthN st.immutable j = 0 ∨ nthN st.immutable j = 1) →
    (subsets_solve_game st).1 = Status.complete →
    (subsets_solve_game (order.foldl unfixStep st)).1 = Status.complete := by
  induction order with
  | nil => exact fun st _ h => h
  | cons a l ih =>
    intro st h01 h
    rw [List.foldl_cons]
    exact ih (unfixStep st a) (unfixStep_imm01 st a h01)
      (unfixStep_solve_complete st a (h01 a) h)

theorem genStart_imm01 (perm : List Nat) :
    ∀ j, nthN (genStart 4 4 4 perm).immutable j = 0 ∨
      nthN (genStart 4 4 4 perm).immutable j = 1 := by
  intro j
  rw [genStart_immutable]
  by_cases hj : j < 16
  · right
    exact getD_replicate_lt hj
  · left
    refine nthN_oob _ _ ?_
    rw [List.length_replicate]
    omega

theorem new_game_state_solve_complete (perm order : List Nat)
    (hperm : perm.Perm (List.range 16)) :
    (subsets_solve_game (new_game_state 4 4 4 perm order)).1 =
      Status.complete := by
  unfold new_game_state
  exact unfixLoop_solve_complete order (genStart 4 4 4 perm)
    (genStart_imm01 perm) (genStart_solve_complete perm hperm)

theorem land_lor_right (a b : Nat) : a &&& (b ||| a) = a := by
  refine Nat.eq_of_testBit_eq (fun k => ?_)
  simp only [Nat.testBit_land, Nat.testBit_lor]
  cases hA : a.testBit k <;> cases hB : b.testBit k <;> simp

theorem land_lor_mono (a b c : Nat) (h : a &&& b = a) :
    a &&& (b ||| c) = a := by
  refine Nat.eq_of_testBit_eq (fun k => ?_)
  have t1 := congrArg (fun x => x.testBit k) h
  simp only [Nat.testBit_land] at t1
  simp only [Nat.testBit_land, Nat.testBit_lor]
  cases hA : a.testBit k <;> rw [hA] at t1 <;> simp_all

theorem land_self' (a : Nat) : a &&& a = a := by
  refine Nat.eq_of_testBit_eq (fun k => ?_)
  simp only [Nat.testBit_land, Bool.and_self]

theorem land_assoc_self (x a : Nat) : (x &&& a) &&& a = x &&& a := by
  rw [Nat.land_assoc, land_self']

theorem land_rot (x n a : Nat) (h : x &&& a = x) :
    (x &&& n) &&& a = x &&& n := by
  rw [Nat.land_assoc, Nat.land_comm n a, ← Nat.land_assoc, h]

theorem land_zero_right (a : Nat) : a &&& 0 = 0 := by
  refine Nat.eq_of_testBit_eq (fun k => ?_)
  simp only [Nat.testBit_land, Nat.zero_testBit, Bool.and_false]

theorem land_fifteen (x : Nat) (h : x < 16) : x &&& 15 = x := by
  interval_cases x <;> rfl

theorem getD_replicate_lt2 {α : Type} (a d : α) {n j : Nat} (h : j < n) :
    (List.replicate n a).getD j d = a := by
  rw [List.getD_eq_getElem?_getD, List.getElem?_replicate, if_pos h]
  rfl

theorem genStart_clueSound (perm : List Nat) :
    clueSound perm (genStart 4 4 4 perm).clues := by
  intro i d hi hd
  exact genStart_clue_bit perm i d hi hd

theorem singlePosFound_cases (n2 : Nat) (cube : List Bool) (nj : Nat) :
    ∀ k,
    (singlePosFound k n2 cube nj = -1 ∧
       ∀ i, i < k → nthB cube (i * n2 + nj) = false) ∨
    singlePosFound k n2 cube nj = -2 ∨
    (∃ j, j < k ∧ singlePosFound k n2 cube nj = (j : Int) ∧
      ∀ i, i < k → nthB cube (i * n2 + nj) = true → i = j) := by
  intro k
  induction k with
  | zero => exact Or.inl ⟨rfl, fun i hi => absurd hi (by omega)⟩
  | succ k ih =>
    have hstep : singlePosFound (k + 1) n2 cube nj =
        (if singlePosFound k n2 cube nj = -2 then singlePosFound k n2 cube nj
         else if nthB cube (k * n2 + nj) = false then
           singlePosFound k n2 cube nj
         else if singlePosFound k n2 cube nj = -1 then (k : Int) else -2) := by
      unfold singlePosFound
      rw [List.range_succ, List.foldl_append, List.foldl_cons, List.foldl_nil]
    rcases ih with ⟨h1, h2⟩ | h1 | ⟨j, hj, h1, h2⟩
    · have hne2 : ¬ singlePosFound k n2 cube nj = -2 := by
        rw [h1]; decide
      by_cases hc : nthB cube (k * n2 + nj) = false
      · refine Or.inl ⟨?_, fun i hi => ?_⟩
        · rw [hstep, if_neg hne2, if_pos hc]
          exact h1
        · by_cases hik : i < k
          · exact h2 i hik
          · have : i = k := by omega
            rw [this]
            exact hc
      · refine Or.inr (Or.inr ⟨k, by omega, ?_, fun i hi hct => ?_⟩)
        · rw [hstep, if_neg hne2, if_neg hc, if_pos h1]
        · by_cases hik : i < k
          · exact absurd hct (by rw [h2 i hik]; decide)
          · omega
    · refine Or.inr (Or.inl ?_)
      rw [hstep, if_pos h1]
      exact h1
    · have hne2 : ¬ singlePosFound k n2 cube nj = -2 := by
        rw [h1]; omega
      have hne1 : ¬ singlePosFound k n2 cube nj = -1 := by
        rw [h1]; omega
      by_cases hc : nthB cube (k * n2 + nj) = false
      · refine Or.inr (Or.inr ⟨j, by omega, ?_, fun i hi hct => ?_⟩)
        · rw [hstep, if_neg hne2, if_pos hc]
          exact h1
        · by_cases hik : i < k
          · exact h2 i hik hct
          · have hik' : i = k := by omega
            rw [hik'] at hct
            rw [hct] at hc
            exact absurd hc (by decide)
      · refine Or.inr (Or.inl ?_)
        rw [hstep, if_neg hne2, if_neg hc, if_neg hne1]

theorem singlePosFound_unique (s n2 : Nat) (cube : List Bool) (nj : Nat)
    (h : ¬ singlePosFound s n2 cube nj < 0) :
    ∀ i, i < s → nthB cube (i * n2 + nj) = true →
      i = (singlePosFound s n2 cube nj).toNat := by
  rcases singlePosFound_cases n2 cube nj s with ⟨h1, _⟩ | h1 | ⟨j, hj, h1, h2⟩
  · rw [h1] at h
    exact absurd (by decide) h
  · rw [h1] at h
    exact absurd (by decide) h
  · intro i hi hc
    have htn : ((j : Int)).toNat = j := rfl
    rw [h1, htn]
    exact h2 i hi hc

theorem validate_counts_eq (st : game_state) :
    (subsets_validate st false true).2.2 =
      ((List.range (st.w * st.h)).foldl (countStep st false)
        (initialStatus st, List.replicate (st.w * st.h) 0)).2 := by
  simp only [subsets_validate]
  have hno : ¬ (True ∧ (true : Bool) = false ∧
      initialStatus st = Status.unfinished) :=
    fun hx => absurd hx.2.1 (by decide)
  rw [if_neg hno]

theorem countFold_accuracy (st : game_state) (ni : Nat) (r : Status)
    (h : ((List.range (st.w * st.h)).foldl (countStep st false)
      (r, List.replicate (st.w * st.h) 0)).2.getD ni 0 ≠ 0) :
    ∃ j, j < st.w * st.h ∧ nthN st.known j = nthN st.mask j ∧
      nthN st.known j = ni := by
  refine foldl_induction (countStep st false) (List.range (st.w * st.h))
    (r, List.replicate (st.w * st.h) 0)
    (fun p => p.2.getD ni 0 ≠ 0 → ∃ j, j < st.w * st.h ∧
      nthN st.known j = nthN st.mask j ∧ nthN st.known j = ni) ?_ ?_ h
  · intro h0
    rw [getD_replicate_zero] at h0
    exact absurd rfl h0
  · intro b i hi hb
    have hkey : (b.2.set (nthN st.known i)
        (b.2.getD (nthN st.known i) 0 + 1)).getD ni 0 ≠ 0 →
        nthN st.known i = nthN st.mask i →
        ∃ j, j < st.w * st.h ∧ nthN st.known j = nthN st.mask j ∧
          nthN st.known j = ni := by
      intro hset hres
      rw [getD_set_if] at hset
      by_cases hv : nthN st.known i = ni ∧ nthN st.known i < b.2.length
      · exact ⟨i, List.mem_range.mp hi, hres, hv.1⟩
      · rw [if_neg hv] at hset
        exact hb hset
    simp only [countStep]
    split_ifs with hA hB hC
    · exact hb
    · intro hset
      exact hkey hset hB
    · intro hset
      exact hkey hset hB
    · exact hb

theorem validate_counts_accuracy (st : game_state) (ni : Nat)
    (h : nthN (subsets_validate st false true).2.2 ni ≠ 0) :
    ∃ j, j < st.w * st.h ∧ nthN st.known j = nthN st.mask j ∧
      nthN st.known j = ni := by
  rw [show nthN (subsets_validate st false true).2.2 ni =
      (subsets_validate st false true).2.2.getD ni 0 from rfl,
    validate_counts_eq st] at h
  exact countFold_accuracy st ni (initialStatus st) h

theorem nthB_set_ne (cb : List Bool) (idx p : Nat) (b : Bool) (h : idx ≠ p) :
    nthB (cb.set idx b) p = nthB cb p :=
  getD_set_ne cb idx p b false h

theorem sync_cubeSound (perm : List Nat) (st : game_state) (cube : List Bool)
    (hw : st.w = 4) (hh : st.h = 4) (hn : st.n = 4)
    (hrange : ∀ i, i < 16 → nthN perm i < 16)
    (hps : permSound perm 16 st)
    (hcs : cubeSound perm 16 16 cube) :
    cubeSound perm 16 16 (subsets_sync_cube st cube) := by
  simp only [subsets_sync_cube]
  rw [hw, hh, hn, show (4 * 4 : Nat) = 16 from rfl,
    show (2 ^ 4 : Nat) = 16 from rfl]
  refine foldl_induction _ (List.range 16) cube
    (fun cb => cubeSound perm 16 16 cb) hcs ?_
  intro cb i _ hcb
  refine foldl_induction _ (List.range 16) cb
    (fun cb2 => cubeSound perm 16 16 cb2) hcb ?_
  intro cb2 nj hnj hcb2
  intro i0 hi0
  have hnj' : nj < 16 := List.mem_range.mp hnj
  have hpi0 : nthN perm i0 < 16 := hrange i0 hi0
  simp only [syncOne]
  split_ifs with h1 h2 h3 h4
  · exact hcb2 i0 hi0
  · by_cases hne : i * 16 + nj = i0 * 16 + nthN perm i0
    · obtain ⟨hii, hjj⟩ :=
        cell_index_unique 16 i nj i0 (nthN perm i0) (by omega) hnj' hpi0 hne
      rw [hii, hjj] at h2
      exact absurd (hps i0 hi0).1 h2
    · rw [nthB_set_ne _ _ _ _ hne, nthB_set_ne _ _ _ _ hne]
      exact hcb2 i0 hi0
  · by_cases hne : i * 16 + nj = i0 * 16 + nthN perm i0
    · obtain ⟨hii, hjj⟩ :=
        cell_index_unique 16 i nj i0 (nthN perm i0) (by omega) hnj' hpi0 hne
      rw [hii, hjj] at h2
      exact absurd (hps i0 hi0).1 h2
    · rw [nthB_set_ne _ _ _ _ hne]
      exact hcb2 i0 hi0
  · by_cases hne : i * 16 + nj = i0 * 16 + nthN perm i0
    · obtain ⟨hii, hjj⟩ :=
        cell_index_unique 16 i nj i0 (nthN perm i0) (by omega) hnj' hpi0 hne
      rw [hii, hjj, Nat.land_comm] at h4
      exact absurd (hps i0 hi0).2 h4
    · rw [nthB_set_ne _ _ _ _ hne]
      exact hcb2 i0 hi0
  · exact hcb2 i0 hi0

theorem singleCount_cubeSound (perm : List Nat) (st : game_state)
    (counts : List Nat) (cube : List Bool)
    (hw : st.w = 4) (hh : st.h = 4) (hn : st.n = 4)
    (hrange : ∀ i, i < 16 → nthN perm i < 16)
    (hinj : ∀ i j, i < 16 → j < 16 → nthN perm i = nthN perm j → i = j)
    (hps : permSound perm 16 st)
    (hacc : ∀ ni, counts.getD ni 0 ≠ 0 → ∃ j, j < 16 ∧
      nthN st.known j = nthN st.mask j ∧ nthN st.known j = ni)
    (hcs : cubeSound perm 16 16 cube) :
    cubeSound perm 16 16 (subsets_cube_single_count st counts cube) := by
  simp only [subsets_cube_single_count]
  rw [hw, hh, hn, show (4 * 4 : Nat) = 16 from rfl,
    show (2 ^ 4 : Nat) = 16 from rfl]
  refine foldl_induction _ (List.range 16) cube
    (fun cb => cubeSound perm 16 16 cb) hcs ?_
  intro cb ni hni hcb
  have hni' : ni < 16 := List.mem_range.mp hni
  split_ifs with hc1
  · exact hcb
  · have hc1' : counts.getD ni 0 = 1 := not_ne_iff.mp hc1
    have hnz : counts.getD ni 0 ≠ 0 := by
      rw [hc1']
      decide
    obtain ⟨j2, hj2, hres2, hval2⟩ := hacc ni hnz
    have hkp : nthN st.known j2 = nthN perm j2 :=
      land_antisymm _ _ (hps j2 hj2).1 (by rw [hres2]; exact (hps j2 hj2).2)
    have hpj2 : nthN perm j2 = ni := by
      rw [← hkp]
      exact hval2
    refine foldl_induction _ (List.range 16) cb
      (fun cb2 => cubeSound perm 16 16 cb2) hcb ?_
    intro cb2 j hj hcb2
    intro i0 hi0
    have hpi0 : nthN perm i0 < 16 := hrange i0 hi0
    simp only [singleCountOne]
    split_ifs with d1 d2
    · exact hcb2 i0 hi0
    · exact hcb2 i0 hi0
    · by_cases hne : j * 16 + ni = i0 * 16 + nthN perm i0
      · obtain ⟨hii, hjj⟩ :=
          cell_index_unique 16 j ni i0 (nthN perm i0) (by omega)
            hni' hpi0 hne
        have hji : j2 = i0 := hinj j2 i0 hj2 hi0 (by rw [hpj2, hjj])
        rw [hji, ← hii] at hres2
        exact absurd hres2.symm d1
      · rw [nthB_set_ne _ _ _ _ hne]
        exact hcb2 i0 hi0

theorem nthN_set_if (xs : List Nat) (i j v : Nat) :
    nthN (xs.set i v) j = if i = j ∧ i < xs.length then v else nthN xs j :=
  getD_set_if xs i j v 0

theorem applyArrowsDir_keep (w i1 : Nat) (acc : game_state × Nat) (d : Nat)
    (h : nthN acc.1.clues i1 &&& (adjAt d).f = 0) :
    applyArrowsDir w i1 acc d = acc := by
  unfold applyArrowsDir
  rw [if_pos h]

theorem applyArrowsDir_state (w i1 : Nat) (acc : game_state × Nat) (d : Nat)
    (h : nthN acc.1.clues i1 &&& (adjAt d).f ≠ 0) :
    (applyArrowsDir w i1 acc d).1 =
      { acc.1 with
        known := acc.1.known.set i1 (nthN acc.1.known i1 |||
          nthN acc.1.known
            (((i1 : Int) + (adjAt d).dy * w + (adjAt d).dx).toNat)),
        mask := acc.1.mask.set
          (((i1 : Int) + (adjAt d).dy * w + (adjAt d).dx).toNat)
          (nthN acc.1.mask
            (((i1 : Int) + (adjAt d).dy * w + (adjAt d).dx).toNat) &&&
           nthN acc.1.mask i1) } := by
  unfold applyArrowsDir
  rw [if_neg h]

theorem applyArrows_permSound (perm : List Nat) (st : game_state)
    (hw : st.w = 4) (hh : st.h = 4) (hn : st.n = 4)
    (hclue : clueSound perm st.clues)
    (hps : permSound perm 16 st) :
    permSound perm 16 (subsets_solve_apply_arrows st).1 ∧
    (subsets_solve_apply_arrows st).1.clues = st.clues ∧
    (subsets_solve_apply_arrows st).1.w = 4 ∧
    (subsets_solve_apply_arrows st).1.h = 4 ∧
    (subsets_solve_apply_arrows st).1.n = 4 := by
  simp only [subsets_solve_apply_arrows]
  rw [hw, hh, show (4 * 4 : Nat) = 16 from rfl]
  refine foldl_induction _ (List.range 16) (st, 0)
    (fun (acc : game_state × Nat) => permSound perm 16 acc.1 ∧
      acc.1.clues = st.clues ∧ acc.1.w = 4 ∧ acc.1.h = 4 ∧ acc.1.n = 4)
    ⟨hps, rfl, hw, hh, hn⟩ ?_
  intro acc i1 hi1 hacc
  have hi1' : i1 < 16 := List.mem_range.mp hi1
  refine foldl_induction _ (List.range 4) acc
    (fun (acc2 : game_state × Nat) => permSound perm 16 acc2.1 ∧
      acc2.1.clues = st.clues ∧ acc2.1.w = 4 ∧ acc2.1.h = 4 ∧ acc2.1.n = 4)
    hacc ?_
  intro b d hd hb
  have hd' : d < 4 := List.mem_range.mp hd
  obtain ⟨hbps, hbcl, hbw, hbh, hbn⟩ := hb
  by_cases hc1 : nthN b.1.clues i1 &&& (adjAt d).f = 0
  · rw [applyArrowsDir_keep 4 i1 b d hc1]
    exact ⟨hbps, hbcl, hbw, hbh, hbn⟩
  · have harr : nthN st.clues i1 &&& (adjAt d).f ≠ 0 := by
      rw [← hbcl]
      exact hc1
    obtain ⟨hg, hcont⟩ := (hclue i1 d hi1' hd').mp harr
    have hT : tgt i1 d =
        ((i1 : Int) + (adjAt d).dy * 4 + (adjAt d).dx).toNat := rfl
    rw [hT] at hcont
    obtain ⟨hlt2, hne2, _⟩ := adj_arith i1 d hi1' hd' hg
    have hp21 : nthN perm (((i1 : Int) + (adjAt d).dy * 4 +
        (adjAt d).dx).toNat) &&& nthN perm i1 =
        nthN perm (((i1 : Int) + (adjAt d).dy * 4 + (adjAt d).dx).toNat) := by
      rw [Nat.land_comm]
      exact hcont
    rw [applyArrowsDir_state 4 i1 b d hc1,
      show (((4 : Nat) : Int)) = (4 : Int) from rfl]
    refine ⟨fun j hj => ⟨?_, ?_⟩, hbcl, hbw, hbh, hbn⟩
    · dsimp only
      rw [nthN_set_if]
      split_ifs with hij
      · obtain ⟨hji, _⟩ := hij
        subst hji
        exact lor_subset _ _ _ (hbps i1 hi1').1
          (land_trans _ _ _ (hbps _ hlt2).1 hp21)
      · exact (hbps j hj).1
    · dsimp only
      rw [nthN_set_if]
      split_ifs with hij
      · obtain ⟨hji, _⟩ := hij
        subst hji
        exact land_double _ _ _ (hbps _ hlt2).2
          (land_trans _ _ _ hp21 (hbps i1 hi1').2)
      · exact (hbps j hj).2

theorem bitsFold_bounds (cube : List Bool) (i v : Nat) (hv : v < 16)
    (hc : nthB cube (i * 16 + v) = true) :
    v &&& ((List.range 16).foldl (fun (p : Nat × Nat) nj =>
        if nthB cube (i * 16 + nj) = true then (p.1 ||| nj, p.2 &&& nj)
        else p) (0, 2 ^ 32 - 1)).1 = v ∧
    ((List.range 16).foldl (fun (p : Nat × Nat) nj =>
        if nthB cube (i * 16 + nj) = true then (p.1 ||| nj, p.2 &&& nj)
        else p) (0, 2 ^ 32 - 1)).2 &&& v =
      ((List.range 16).foldl (fun (p : Nat × Nat) nj =>
        if nthB cube (i * 16 + nj) = true then (p.1 ||| nj, p.2 &&& nj)
        else p) (0, 2 ^ 32 - 1)).2 := by
  refine foldl_mem_stable' (fun (p : Nat × Nat) nj =>
      if nthB cube (i * 16 + nj) = true then (p.1 ||| nj, p.2 &&& nj)
      else p) (List.range 16) (0, 2 ^ 32 - 1)
    (fun p => v &&& p.1 = v ∧ p.2 &&& v = p.2) v
    (List.mem_range.mpr hv) ?_ ?_
  · intro b x hbq
    dsimp only
    split_ifs with hx
    · exact ⟨land_lor_mono v b.1 x hbq.1, land_rot b.2 x v hbq.2⟩
    · exact hbq
  · intro b
    dsimp only
    rw [if_pos hc]
    exact ⟨land_lor_right v b.1, land_assoc_self b.2 v⟩

theorem bitsFromCubeCell_state (n2 : Nat) (cube : List Bool)
    (acc : game_state × Nat) (i : Nat) :
    (bitsFromCubeCell n2 cube acc i).1 =
      { acc.1 with
        known := acc.1.known.set i (nthN acc.1.known i |||
          ((List.range n2).foldl (fun (p : Nat × Nat) nj =>
            if nthB cube (i * n2 + nj) = true then (p.1 ||| nj, p.2 &&& nj)
            else p) (0, 2 ^ 32 - 1)).2),
        mask := acc.1.mask.set i (nthN acc.1.mask i &&&
          ((List.range n2).foldl (fun (p : Nat × Nat) nj =>
            if nthB cube (i * n2 + nj) = true then (p.1 ||| nj, p.2 &&& nj)
            else p) (0, 2 ^ 32 - 1)).1) } := by
  unfold bitsFromCubeCell
  rfl

theorem bitsFromCube_permSound (perm : List Nat) (st : game_state)
    (cube : List Bool)
    (hw : st.w = 4) (hh : st.h = 4) (hn : st.n = 4)
    (hrange : ∀ i, i < 16 → nthN perm i < 16)
    (hps : permSound perm 16 st)
    (hcs : cubeSound perm 16 16 cube) :
    permSound perm 16 (subsets_bits_from_cube st cube).1 ∧
    (subsets_bits_from_cube st cube).1.clues = st.clues ∧
    (subsets_bits_from_cube st cube).1.w = 4 ∧
    (subsets_bits_from_cube st cube).1.h = 4 ∧
    (subsets_bits_from_cube st cube).1.n = 4 := by
  simp only [subsets_bits_from_cube]
  rw [hw, hh, hn, show (4 * 4 : Nat) = 16 from rfl,
    show (2 ^ 4 : Nat) = 16 from rfl]
  refine foldl_induction _ (List.range 16) (st, 0)
    (fun (acc : game_state × Nat) => permSound perm 16 acc.1 ∧
      acc.1.clues = st.clues ∧ acc.1.w = 4 ∧ acc.1.h = 4 ∧ acc.1.n = 4)
    ⟨hps, rfl, hw, hh, hn⟩ ?_
  intro b i hi hb
  have hi' : i < 16 := List.mem_range.mp hi
  obtain ⟨hbps, hbcl, hbw, hbh, hbn⟩ := hb
  have hB := bitsFold_bounds cube i (nthN perm i) (hrange i hi') (hcs i hi')
  rw [bitsFromCubeCell_state 16 cube b i]
  refine ⟨fun j hj => ⟨?_, ?_⟩, hbcl, hbw, hbh, hbn⟩
  · dsimp only
    rw [nthN_set_if]
    split_ifs with hij
    · obtain ⟨hji, _⟩ := hij
      subst hji
      exact lor_subset _ _ _ (hbps i hi').1 hB.2
    · exact (hbps j hj).1
  · dsimp only
    rw [nthN_set_if]
    split_ifs with hij
    · obtain ⟨hji, _⟩ := hij
      subst hji
      exact land_double _ _ _ (hbps i hi').2 hB.1
    · exact (hbps j hj).2

theorem singlePosStep_keep1 (s n2 : Nat) (counts : List Nat)
    (cube : List Bool) (acc : game_state × Nat) (nj : Nat)
    (h1 : counts.getD nj 0 ≠ 0) :
    singlePosStep s n2 counts cube acc nj = acc := by
  unfold singlePosStep
  rw [if_pos h1]

theorem singlePosStep_keep2 (s n2 : Nat) (counts : List Nat)
    (cube : List Bool) (acc : game_state × Nat) (nj : Nat)
    (h1 : ¬ counts.getD nj 0 ≠ 0) (h2 : singlePosFound s n2 cube nj < 0) :
    singlePosStep s n2 counts cube acc nj = acc := by
  unfold singlePosStep
  rw [if_neg h1, if_pos h2]

theorem singlePosStep_state (s n2 : Nat) (counts : List Nat)
    (cube : List Bool) (acc : game_state × Nat) (nj : Nat)
    (h1 : ¬ counts.getD nj 0 ≠ 0) (h2 : ¬ singlePosFound s n2 cube nj < 0) :
    (singlePosStep s n2 counts cube acc nj).1 =
      { acc.1 with
        known := acc.1.known.set (singlePosFound s n2 cube nj).toNat nj,
        mask := acc.1.mask.set (singlePosFound s n2 cube nj).toNat nj } := by
  unfold singlePosStep
  rw [if_neg h1, if_neg h2]

theorem singlePosition_permSound (perm : List Nat) (st : game_state)
    (counts : List Nat) (cube : List Bool)
    (hw : st.w = 4) (hh : st.h = 4) (hn : st.n = 4)
    (hsurj : ∀ v, v < 16 → ∃ j, j < 16 ∧ nthN perm j = v)
    (hps : permSound perm 16 st)
    (hcs : cubeSound perm 16 16 cube) :
    permSound perm 16 (subsets_solve_single_position st counts cube).1 ∧
    (subsets_solve_single_position st counts cube).1.clues = st.clues ∧
    (subsets_solve_single_position st counts cube).1.w = 4 ∧
    (subsets_solve_single_position st counts cube).1.h = 4 ∧
    (subsets_solve_single_position st counts cube).1.n = 4 := by
  simp only [subsets_solve_single_position]
  rw [hw, hh, hn, show (4 * 4 : Nat) = 16 from rfl,
    show (2 ^ 4 : Nat) = 16 from rfl]
  refine foldl_induction _ (List.range 16) (st, 0)
    (fun (acc : game_state × Nat) => permSound perm 16 acc.1 ∧
      acc.1.clues = st.clues ∧ acc.1.w = 4 ∧ acc.1.h = 4 ∧ acc.1.n = 4)
    ⟨hps, rfl, hw, hh, hn⟩ ?_
  intro b nj hnj hb
  have hnj' : nj < 16 := List.mem_range.mp hnj
  obtain ⟨hbps, hbcl, hbw, hbh, hbn⟩ := hb
  by_cases h1 : counts.getD nj 0 ≠ 0
  · rw [singlePosStep_keep1 16 16 counts cube b nj h1]
    exact ⟨hbps, hbcl, hbw, hbh, hbn⟩
  · by_cases h2 : singlePosFound 16 16 cube nj < 0
    · rw [singlePosStep_keep2 16 16 counts cube b nj h1 h2]
      exact ⟨hbps, hbcl, hbw, hbh, hbn⟩
    · obtain ⟨j0, hj0, hpj0⟩ := hsurj nj hnj'
      have hcj0 : nthB cube (j0 * 16 + nj) = true := by
        rw [← hpj0]
        exact hcs j0 hj0
      have huniq := singlePosFound_unique 16 16 cube nj h2 j0 hj0 hcj0
      have hpF : nthN perm ((singlePosFound 16 16 cube nj).toNat) = nj := by
        rw [← huniq]
        exact hpj0
      rw [singlePosStep_state 16 16 counts cube b nj h1 h2]
      refine ⟨fun j hj => ⟨?_, ?_⟩, hbcl, hbw, hbh, hbn⟩
      · dsimp only
        rw [nthN_set_if]
        split_ifs with hij
        · obtain ⟨hji, _⟩ := hij
          subst hji
          rw [hpF]
          exact land_self' nj
        · exact (hbps j hj).1
      · dsimp only
        rw [nthN_set_if]
        split_ifs with hij
        · obtain ⟨hji, _⟩ := hij
          subst hji
          rw [hpF]
          exact land_self' nj
        · exact (hbps j hj).2

theorem advanced_cubeSound (perm : List Nat) (st : game_state)
    (cube : List Bool)
    (hw : st.w = 4) (hh : st.h = 4) (hn : st.n = 4)
    (hrange : ∀ i, i < 16 → nthN perm i < 16)
    (hinj : ∀ i j, i < 16 → j < 16 → nthN perm i = nthN perm j → i = j)
    (hclue : clueSound perm st.clues)
    (hcs : cubeSound perm 16 16 cube) :
    cubeSound perm 16 16 (subsets_solve_apply_arrows_advanced st cube).1 := by
  simp only [subsets_solve_apply_arrows_advanced]
  rw [hw, hh, hn, show (4 * 4 : Nat) = 16 from rfl,
    show (2 ^ 4 : Nat) = 16 from rfl]
  refine foldl_induction _ (List.range 16) (cube, 0)
    (fun (acc : List Bool × Nat) => cubeSound perm 16 16 acc.1) hcs ?_
  intro b i1 hi1 hb
  have hi1' : i1 < 16 := List.mem_range.mp hi1
  refine foldl_induction _ (List.range 4) b
    (fun (acc : List Bool × Nat) => cubeSound perm 16 16 acc.1) hb ?_
  intro b2 d hd hb2
  have hd' : d < 4 := List.mem_range.mp hd
  simp only [advancedDir]
  split_ifs with hc1
  · exact hb2
  · rw [show (((4 : Nat) : Int)) = (4 : Int) from rfl]
    obtain ⟨hg, hcont⟩ := (hclue i1 d hi1' hd').mp hc1
    have hT : tgt i1 d =
        ((i1 : Int) + (adjAt d).dy * 4 + (adjAt d).dx).toNat := rfl
    rw [hT] at hcont
    obtain ⟨hlt2, hne2, _⟩ := adj_arith i1 d hi1' hd' hg
    have hneq : nthN perm
        (((i1 : Int) + (adjAt d).dy * 4 + (adjAt d).dx).toNat) ≠
        nthN perm i1 :=
      fun he => hne2 (hinj _ i1 hlt2 hi1' he)
    have hlt : nthN perm
        (((i1 : Int) + (adjAt d).dy * 4 + (adjAt d).dx).toNat) <
        nthN perm i1 :=
      subset_lt _ _ (by rw [Nat.land_comm]; exact hcont) hneq
    refine foldl_induction _ (List.range 16) b2
      (fun (acc : List Bool × Nat) => cubeSound perm 16 16 acc.1) hb2 ?_
    intro b3 super hsuper hb3
    simp only [advancedSuper]
    split_ifs with f1 f2
    · exact hb3
    · exact hb3
    · dsimp only
      intro i0 hi0
      by_cases hne : i1 * 16 + super = i0 * 16 + nthN perm i0
      · exfalso
        obtain ⟨hii, hjj⟩ := cell_index_unique 16 i1 super i0 (nthN perm i0)
          (by omega) (List.mem_range.mp hsuper) (hrange i0 hi0) hne
        apply f2
        refine List.any_eq_true.mpr
          ⟨nthN perm (((i1 : Int) + (adjAt d).dy * 4 + (adjAt d).dx).toNat),
           List.mem_range.mpr ?_, ?_⟩
        · rw [hjj, ← hii]
          exact hlt
        · rw [Bool.and_eq_true]
          refine ⟨decide_eq_true ?_, hb3 _ hlt2⟩
          rw [hjj, ← hii]
          exact hcont
      · rw [nthB_set_ne _ _ _ _ hne]
        exact hb3 i0 hi0

theorem noArrow_incomp (perm : List Nat) (cl : List Nat) (i1 i2 d : Nat)
    (hi1 : i1 < 16) (hd : d < 4)
    (hclue : clueSound perm cl)
    (hg : inGrid i1 d)
    (hi2 : i2 = ((i1 : Int) + (adjAt d).dy * 4 + (adjAt d).dx).toNat)
    (hnc1 : nthN cl i1 &&& (adjAt d).f = 0)
    (hnc2 : nthN cl i2 &&& (adjAt d).fo = 0) :
    nthN perm i1 &&& nthN perm i2 ≠ nthN perm i2 ∧
    nthN perm i2 &&& nthN perm i1 ≠ nthN perm i1 := by
  obtain ⟨hlt2, hne2, _⟩ := adj_arith i1 d hi1 hd hg
  rw [← hi2] at hlt2 hne2
  constructor
  · intro hx
    refine (hclue i1 d hi1 hd).mpr ⟨hg, ?_⟩ hnc1
    show nthN perm i1 &&& nthN perm (tgt i1 d) = nthN perm (tgt i1 d)
    rw [show tgt i1 d =
      ((i1 : Int) + (adjAt d).dy * 4 + (adjAt d).dx).toNat from rfl, ← hi2]
    exact hx
  · intro hx
    obtain ⟨d2, hd24, hf2, hg2, htgt⟩ := adj_rev i1 d i2 hi1 hd hg hi2
    have h2 : nthN perm i2 &&& nthN perm (tgt i2 d2) =
        nthN perm (tgt i2 d2) := by
      rw [show tgt i2 d2 =
        ((i2 : Int) + (adjAt d2).dy * 4 + (adjAt d2).dx).toNat from rfl, htgt]
      exact hx
    have hbit := (hclue i2 d2 hlt2 hd24).mpr ⟨hg2, h2⟩
    rw [hf2] at hbit
    exact hbit hnc2

theorem disjoint_cubeSound (perm : List Nat) (st : game_state)
    (cube : List Bool)
    (hw : st.w = 4) (hh : st.h = 4) (hn : st.n = 4)
    (hrange : ∀ i, i < 16 → nthN perm i < 16)
    (hclue : clueSound perm st.clues)
    (hps : permSound perm 16 st)
    (hcs : cubeSound perm 16 16 cube) :
    cubeSound perm 16 16 (subsets_disjoint st cube).1 := by
  simp only [subsets_disjoint]
  rw [hw, hh, hn, show (4 * 4 : Nat) = 16 from rfl,
    show (2 ^ 4 : Nat) = 16 from rfl]
  refine foldl_induction _ (List.range 16) (cube, 0)
    (fun (acc : List Bool × Nat) => cubeSound perm 16 16 acc.1) hcs ?_
  intro b i1 hi1 hb
  have hi1' : i1 < 16 := List.mem_range.mp hi1
  refine foldl_induction _ (List.range 4) b
    (fun (acc : List Bool × Nat) => cubeSound perm 16 16 acc.1) hb ?_
  intro b2 d hd hb2
  have hd' : d < 4 := List.mem_range.mp hd
  simp only [disjointDir]
  rw [show (((4 : Nat) : Int)) = (4 : Int) from rfl]
  split_ifs with g1 g2 g3 g4 g5 g6
  · exact hb2
  · exact hb2
  · exact hb2
  · have hnc1 : nthN st.clues i1 &&& (adjAt d).f = 0 := not_ne_iff.mp g1
    have hnc2 : nthN st.clues
        (((i1 : Int) + (adjAt d).dy * 4 + (adjAt d).dx).toNat) &&&
        (adjAt d).fo = 0 := not_ne_iff.mp g3
    have hX := noArrow_incomp perm st.clues i1
      (((i1 : Int) + (adjAt d).dy * 4 + (adjAt d).dx).toNat) d hi1' hd'
      hclue g2 rfl hnc1 hnc2
    obtain ⟨hlt2, _, _⟩ := adj_arith i1 d hi1' hd' g2
    dsimp only
    intro i0 hi0
    have hne_a : i1 * 16 ≠ i0 * 16 + nthN perm i0 := by
      intro hx
      have hx2 : i1 * 16 + 0 = i0 * 16 + nthN perm i0 := by omega
      obtain ⟨hii, hjj⟩ := cell_index_unique 16 i1 0 i0 (nthN perm i0)
        (by omega) (by omega) (hrange i0 hi0) hx2
      have hp0 : nthN perm i1 = 0 := by
        rw [hii, ← hjj]
      apply hX.2
      rw [hp0]
      exact land_zero_right _
    have hne_b : i1 * 16 + (16 - 1) ≠ i0 * 16 + nthN perm i0 := by
      intro hx
      have hx2 : i1 * 16 + 15 = i0 * 16 + nthN perm i0 := by omega
      obtain ⟨hii, hjj⟩ := cell_index_unique 16 i1 15 i0 (nthN perm i0)
        (by omega) (by omega) (hrange i0 hi0) hx2
      have hp15 : nthN perm i1 = 15 := by
        rw [hii, ← hjj]
      apply hX.1
      rw [hp15, Nat.land_comm]
      exact land_fifteen _ (hrange _ hlt2)
    rw [nthB_set_ne _ _ _ _ hne_b, nthB_set_ne _ _ _ _ hne_a]
    exact hb2 i0 hi0
  · exact hb2
  · have hnc1 : nthN st.clues i1 &&& (adjAt d).f = 0 := not_ne_iff.mp g1
    have hnc2 : nthN st.clues
        (((i1 : Int) + (adjAt d).dy * 4 + (adjAt d).dx).toNat) &&&
        (adjAt d).fo = 0 := not_ne_iff.mp g3
    have hX := noArrow_incomp perm st.clues i1
      (((i1 : Int) + (adjAt d).dy * 4 + (adjAt d).dx).toNat) d hi1' hd'
      hclue g2 rfl hnc1 hnc2
    have hres1 : nthN st.known i1 = nthN st.mask i1 := not_ne_iff.mp g4
    have hk1p : nthN st.known i1 = nthN perm i1 :=
      land_antisymm _ _ (hps i1 hi1').1
        (by rw [hres1]; exact (hps i1 hi1').2)
    refine foldl_induction _ (List.range 16) b2
      (fun (acc : List Bool × Nat) => cubeSound perm 16 16 acc.1) hb2 ?_
    intro b3 opt hopt hb3
    simp only [disjointOpt]
    split_ifs with e1 e2
    · exact hb3
    · exact hb3
    · dsimp only
      intro i0 hi0
      by_cases hne : (((i1 : Int) + (adjAt d).dy * 4 +
          (adjAt d).dx).toNat) * 16 + opt = i0 * 16 + nthN perm i0
      · exfalso
        obtain ⟨hii, hjj⟩ := cell_index_unique 16
          (((i1 : Int) + (adjAt d).dy * 4 + (adjAt d).dx).toNat) opt i0
          (nthN perm i0) (by omega) (List.mem_range.mp hopt)
          (hrange i0 hi0) hne
        apply e2
        constructor
        · rw [hjj, ← hii, hk1p]
          exact hX.1
        · rw [hjj, ← hii, hk1p]
          rw [Nat.land_comm]
          exact hX.2
      · rw [nthB_set_ne _ _ _ _ hne]
        exact hb3 i0 hi0
  · exact hb2

theorem solverBody_sound (perm : List Nat) (st : game_state)
    (counts : List Nat) (cube : List Bool)
    (hw : st.w = 4) (hh : st.h = 4) (hn : st.n = 4)
    (hrange : ∀ i, i < 16 → nthN perm i < 16)
    (hinj : ∀ i j, i < 16 → j < 16 → nthN perm i = nthN perm j → i = j)
    (hsurj : ∀ v, v < 16 → ∃ j, j < 16 ∧ nthN perm j = v)
    (hclue : clueSound perm st.clues)
    (hps : permSound perm 16 st)
    (hcs : cubeSound perm 16 16 cube)
    (hacc : ∀ ni, counts.getD ni 0 ≠ 0 → ∃ j, j < 16 ∧
      nthN st.known j = nthN st.mask j ∧ nthN st.known j = ni) :
    permSound perm 16 (solverBody st counts cube).1 ∧
    cubeSound perm 16 16 (solverBody st counts cube).2.1 ∧
    (solverBody st counts cube).1.w = 4 ∧
    (solverBody st counts cube).1.h = 4 ∧
    (solverBody st counts cube).1.n = 4 ∧
    (solverBody st counts cube).1.clues = st.clues := by
  have hcs1 : cubeSound perm 16 16 (subsets_sync_cube st cube) :=
    sync_cubeSound perm st cube hw hh hn hrange hps hcs
  have hcs2 : cubeSound perm 16 16
      (subsets_cube_single_count st counts (subsets_sync_cube st cube)) :=
    singleCount_cubeSound perm st counts _ hw hh hn hrange hinj hps hacc hcs1
  obtain ⟨harps, harcl, harw, harh, harn⟩ :=
    applyArrows_permSound perm st hw hh hn hclue hps
  have harclue : clueSound perm (subsets_solve_apply_arrows st).1.clues := by
    rw [harcl]
    exact hclue
  have hcsdj : cubeSound perm 16 16
      (subsets_disjoint (subsets_solve_apply_arrows st).1
        (subsets_cube_single_count st counts (subsets_sync_cube st cube))).1 :=
    disjoint_cubeSound perm _ _ harw harh harn hrange harclue harps hcs2
  obtain ⟨hbcps, hbccl, hbcw, hbch, hbcn⟩ :=
    bitsFromCube_permSound perm (subsets_solve_apply_arrows st).1
      (subsets_disjoint (subsets_solve_apply_arrows st).1
        (subsets_cube_single_count st counts (subsets_sync_cube st cube))).1
      harw harh harn hrange harps hcsdj
  obtain ⟨hspps, hspcl, hspw, hsph, hspn⟩ :=
    singlePosition_permSound perm
      (subsets_bits_from_cube (subsets_solve_apply_arrows st).1
        (subsets_disjoint (subsets_solve_apply_arrows st).1
          (subsets_cube_single_count st counts
            (subsets_sync_cube st cube))).1).1
      counts
      (subsets_disjoint (subsets_solve_apply_arrows st).1
        (subsets_cube_single_count st counts (subsets_sync_cube st cube))).1
      hbcw hbch hbcn hsurj hbcps hcsdj
  have hspclue : clueSound perm
      (subsets_solve_single_position
        (subsets_bits_from_cube (subsets_solve_apply_arrows st).1
          (subsets_disjoint (subsets_solve_apply_arrows st).1
            (subsets_cube_single_count st counts
              (subsets_sync_cube st cube))).1).1
        counts
        (subsets_disjoint (subsets_solve_apply_arrows st).1
          (subsets_cube_single_count st counts
            (subsets_sync_cube st cube))).1).1.clues := by
    rw [hspcl, hbccl, harcl]
    exact hclue
  have hcsadv : cubeSound perm 16 16
      (subsets_solve_apply_arrows_advanced
        (subsets_solve_single_position
          (subsets_bits_from_cube (subsets_solve_apply_arrows st).1
            (subsets_disjoint (subsets_solve_apply_arrows st).1
              (subsets_cube_single_count st counts
                (subsets_sync_cube st cube))).1).1
          counts
          (subsets_disjoint (subsets_solve_apply_arrows st).1
            (subsets_cube_single_count st counts
              (subsets_sync_cube st cube))).1).1
        (subsets_disjoint (subsets_solve_apply_arrows st).1
          (subsets_cube_single_count st counts
            (subsets_sync_cube st cube))).1).1 :=
    advanced_cubeSound perm _ _ hspw hsph hspn hrange hinj hspclue hcsdj
  simp only [solverBody]
  split_ifs with c1 c2 c3 c4 c5
  · exact ⟨harps, hcs2, harw, harh, harn, harcl⟩
  · exact ⟨harps, hcsdj, harw, harh, harn, harcl⟩
  · exact ⟨hbcps, hcsdj, hbcw, hbch, hbcn, hbccl.trans harcl⟩
  · exact ⟨hspps, hcsdj, hspw, hsph, hspn,
      (hspcl.trans hbccl).trans harcl⟩
  · exact ⟨hspps, hcsadv, hspw, hsph, hspn,
      (hspcl.trans hbccl).trans harcl⟩
  · exact ⟨hspps, hcsadv, hspw, hsph, hspn,
      (hspcl.trans hbccl).trans harcl⟩

theorem solveLoop_succ_cont (fuel : Nat) (st : game_state) (cube : List Bool)
    (h : ¬ (subsets_validate st false true).1 ≠ Status.unfinished)
    (hb : (solverBody st (subsets_validate st false true).2.2 cube).2.2 =
      true) :
    solveLoop (fuel + 1) st cube =
      solveLoop fuel
        (solverBody st (subsets_validate st false true).2.2 cube).1
        (solverBody st (subsets_validate st false true).2.2 cube).2.1 := by
  simp only [solveLoop]
  rw [if_neg h, if_pos hb]

theorem solveLoop_succ_stop (fuel : Nat) (st : game_state) (cube : List Bool)
    (h : ¬ (subsets_validate st false true).1 ≠ Status.unfinished)
    (hb : ¬ (solverBody st (subsets_validate st false true).2.2 cube).2.2 =
      true) :
    solveLoop (fuel + 1) st cube =
      (Status.unfinished,
        (solverBody st (subsets_validate st false true).2.2 cube).1) := by
  simp only [solveLoop]
  rw [if_neg h, if_neg hb]

theorem complete_known_eq_perm (perm : List Nat) (st : game_state)
    (hw : st.w = 4) (hh : st.h = 4)
    (hps : permSound perm 16 st)
    (hcomp : (subsets_validate st false true).1 = Status.complete) :
    ∀ i, i < 16 → nthN st.known i = nthN perm i := by
  intro i hi
  have hinit := validate_complete_initial st hcomp
  have hres := resolved_of_initialStatus st hinit i (by rw [hw, hh]; omega)
  exact land_antisymm _ _ (hps i hi).1 (by rw [hres]; exact (hps i hi).2)

theorem solveLoop_sound (perm : List Nat)
    (hrange : ∀ i, i < 16 → nthN perm i < 16)
    (hinj : ∀ i j, i < 16 → j < 16 → nthN perm i = nthN perm j → i = j)
    (hsurj : ∀ v, v < 16 → ∃ j, j < 16 ∧ nthN perm j = v) :
    ∀ (fuel : Nat) (st : game_state) (cube : List Bool),
    st.w = 4 → st.h = 4 → st.n = 4 → clueSound perm st.clues →
    permSound perm 16 st → cubeSound perm 16 16 cube →
    (solveLoop fuel st cube).1 = Status.complete →
    ∀ i, i < 16 → nthN (solveLoop fuel st cube).2.known i = nthN perm i := by
  intro fuel
  induction fuel with
  | zero =>
    intro st cube hw hh hn hclue hps hcs hcomp i hi
    have hcomp2 : (subsets_validate st false true).1 = Status.complete :=
      hcomp
    show nthN st.known i = nthN perm i
    exact complete_known_eq_perm perm st hw hh hps hcomp2 i hi
  | succ fuel ih =>
    intro st cube hw hh hn hclue hps hcs hcomp i hi
    by_cases hv : (subsets_validate st false true).1 ≠ Status.unfinished
    · rw [solveLoop_succ_exit fuel st cube hv] at hcomp ⊢
      have hcomp2 : (subsets_validate st false true).1 = Status.complete :=
        hcomp
      show nthN st.known i = nthN perm i
      exact complete_known_eq_perm perm st hw hh hps hcomp2 i hi
    · have hacc2 : ∀ ni,
          ((subsets_validate st false true).2.2).getD ni 0 ≠ 0 →
          ∃ j, j < 16 ∧ nthN st.known j = nthN st.mask j ∧
            nthN st.known j = ni := by
        intro ni hni
        obtain ⟨j, hj, h1, h2⟩ := validate_counts_accuracy st ni hni
        rw [hw, hh] at hj
        exact ⟨j, by omega, h1, h2⟩
      obtain ⟨hbps, hbcs, hbw, hbh, hbn, hbcl⟩ :=
        solverBody_sound perm st ((subsets_validate st false true).2.2) cube
          hw hh hn hrange hinj hsurj hclue hps hcs hacc2
      by_cases hbt :
          (solverBody st ((subsets_validate st false true).2.2) cube).2.2 =
            true
      · rw [solveLoop_succ_cont fuel st cube hv hbt] at hcomp ⊢
        have hbclue : clueSound perm
            (solverBody st ((subsets_validate st false true).2.2)
              cube).1.clues := by
          rw [hbcl]
          exact hclue
        exact ih _ _ hbw hbh hbn hbclue hbps hbcs hcomp i hi
      · rw [solveLoop_succ_stop fuel st cube hv hbt] at hcomp
        have hcomp2 : Status.unfinished = Status.complete := hcomp
        exact absurd hcomp2 (by decide)

theorem zero_land' (a : Nat) : 0 &&& a = 0 := by
  refine Nat.eq_of_testBit_eq (fun k => ?_)
  simp only [Nat.testBit_land, Nat.zero_testBit, Bool.false_and]

theorem new_game_state_fields (perm order : List Nat) :
    (new_game_state 4 4 4 perm order).w = 4 ∧
    (new_game_state 4 4 4 perm order).h = 4 ∧
    (new_game_state 4 4 4 perm order).n = 4 ∧
    (new_game_state 4 4 4 perm order).clues = (genStart 4 4 4 perm).clues ∧
    (new_game_state 4 4 4 perm order).known = perm ∧
    (new_game_state 4 4 4 perm order).mask = perm ∧
    (new_game_state 4 4 4 perm order).immutable.length = 16 ∧
    (∀ j, nthN (new_game_state 4 4 4 perm order).immutable j = 0 ∨
      nthN (new_game_state 4 4 4 perm order).immutable j = 1) := by
  obtain ⟨⟨f1, f2, f3, f4, f5, f6, f7, f8, f9⟩, f10⟩ :=
    unfixLoop_fields order (genStart 4 4 4 perm)
  exact ⟨f1.trans rfl, f2.trans rfl, f3.trans rfl, f4,
    f5.trans (genStart_known perm), f6.trans (genStart_mask perm),
    f9.trans (by rw [genStart_immutable, List.length_replicate]),
    f10 (genStart_imm01 perm)⟩

/-- C1: for every full pre-minification permutation `perm` of the
values 0..15 and every order of the generator's minimisation loop, the
board that the emitted puzzle description denotes (cells whose
descriptor is a number are immutable and resolved with that value, all
other cells are blank) is brought to STATUS_COMPLETE by
`subsets_solve_game` alone, and the solved board's `known` array is
exactly the generator's full permutation. -/
theorem generator_desc_solvable (perm order : List Nat)
    (hperm : perm.Perm (List.range 16)) :
    (subsets_solve_game
      (descBoard (new_game_state 4 4 4 perm order))).1 = Status.complete ∧
    ∀ i, i < 16 →
      nthN (subsets_solve_game
        (descBoard (new_game_state 4 4 4 perm order))).2.known i =
      nthN perm i := by
  obtain ⟨hlen, hrange, hinj, hsurj⟩ := perm_facts perm hperm
  obtain ⟨hgw, hgh, hgn, hgcl, hgkn, hgmk, hgil, hg01⟩ :=
    new_game_state_fields perm order
  have hlk : (new_game_state 4 4 4 perm order).known.length =
      (new_game_state 4 4 4 perm order).w *
      (new_game_state 4 4 4 perm order).h := by
    rw [hgkn, hgw, hgh, hlen]
  have hlm : (new_game_state 4 4 4 perm order).mask.length =
      (new_game_state 4 4 4 perm order).w *
      (new_game_state 4 4 4 perm order).h := by
    rw [hgmk, hgw, hgh, hlen]
  have hli : (new_game_state 4 4 4 perm order).immutable.length =
      (new_game_state 4 4 4 perm order).w *
      (new_game_state 4 4 4 perm order).h := by
    rw [hgil, hgw, hgh]
  have hmk : ∀ j, j < (new_game_state 4 4 4 perm order).w *
      (new_game_state 4 4 4 perm order).h →
      nthN (new_game_state 4 4 4 perm order).immutable j ≠ 0 →
      nthN (new_game_state 4 4 4 perm order).mask j =
      nthN (new_game_state 4 4 4 perm order).known j := by
    intro j _ _
    rw [hgmk, hgkn]
  rw [solve_descBoard (new_game_state 4 4 4 perm order) hlk hlm hli hg01 hmk]
  have hcomp := new_game_state_solve_complete perm order hperm
  refine ⟨hcomp, ?_⟩
  have hlenk : (new_game_state 4 4 4 perm order).w *
      (new_game_state 4 4 4 perm order).h ≤
      (new_game_state 4 4 4 perm order).known.length := le_of_eq hlk.symm
  have hlenm : (new_game_state 4 4 4 perm order).w *
      (new_game_state 4 4 4 perm order).h ≤
      (new_game_state 4 4 4 perm order).mask.length := le_of_eq hlm.symm
  obtain ⟨b1, b2, b3, b4, b5, b6, b7, b8, b9, b10, b11⟩ :=
    solveReset_spec (new_game_state 4 4 4 perm order) hlenk hlenm
  have hrw : (solveReset (new_game_state 4 4 4 perm order)).w = 4 :=
    b1.trans hgw
  have hrh : (solveReset (new_game_state 4 4 4 perm order)).h = 4 :=
    b2.trans hgh
  have hrn : (solveReset (new_game_state 4 4 4 perm order)).n = 4 :=
    b3.trans hgn
  have hrclue : clueSound perm
      (solveReset (new_game_state 4 4 4 perm order)).clues := by
    rw [b4, hgcl]
    exact genStart_clueSound perm
  have hrps : permSound perm 16
      (solveReset (new_game_state 4 4 4 perm order)) := by
    intro i hi
    constructor
    · rw [b10 i]
      split_ifs with hcnd
      · exact zero_land' _
      · rw [hgkn]
        exact land_self' _
    · rw [b11 i]
      split_ifs with hcnd
      · rw [hgn, show ALL_BITS 4 = 15 from rfl]
        exact land_fifteen _ (hrange i hi)
      · rw [hgmk]
        exact land_self' _
  have hcub : cubeSound perm 16 16 (List.replicate
      ((new_game_state 4 4 4 perm order).w *
       (new_game_state 4 4 4 perm order).h *
       2 ^ (new_game_state 4 4 4 perm order).n) true) := by
    intro i hi
    have hb : i * 16 + nthN perm i <
        (new_game_state 4 4 4 perm order).w *
        (new_game_state 4 4 4 perm order).h *
        2 ^ (new_game_state 4 4 4 perm order).n := by
      rw [hgw, hgh, hgn, show (4 * 4 * 2 ^ 4 : Nat) = 256 from rfl]
      have := hrange i hi
      omega
    exact getD_replicate_lt2 true false hb
  have hsg : subsets_solve_game (new_game_state 4 4 4 perm order) =
      solveLoop ((new_game_state 4 4 4 perm order).w *
        (new_game_state 4 4 4 perm order).h *
        2 ^ (new_game_state 4 4 4 perm order).n +
        64 * ((new_game_state 4 4 4 perm order).w *
          (new_game_state 4 4 4 perm order).h) + 1)
        (solveReset (new_game_state 4 4 4 perm order))
        (List.replicate ((new_game_state 4 4 4 perm order).w *
          (new_game_state 4 4 4 perm order).h *
          2 ^ (new_game_state 4 4 4 perm order).n) true) := by
    simp only [subsets_solve_game]
  rw [hsg] at hcomp ⊢
  intro i hi
  exact solveLoop_sound perm hrange hinj hsurj _ _ _ hrw hrh hrn hrclue
    hrps hcub hcomp i hi

/-- The C1 theorem holds of the identity permutation with an empty
minimisation order. -/
theorem generator_desc_solvable_witness :
    (List.range 16).Perm (List.range 16) ∧
    ((subsets_solve_game
      (descBoard (new_game_state 4 4 4 (List.range 16) []))).1 =
        Status.complete ∧
     ∀ i, i < 16 →
      nthN (subsets_solve_game
        (descBoard (new_game_state 4 4 4 (List.range 16) []))).2.known i =
      nthN (List.range 16) i) :=
  ⟨List.Perm.refl _,
   generator_desc_solvable (List.range 16) [] (List.Perm.refl _)⟩

/-- C3 counterexample: the verdict of `subsets_validate` is not
independent of the optional buffers, and a supplied counts buffer is
not always filled completely.  On `cexBuffers` (an unresolved cell
plus a duplicated value) the validator answers unfinished without
buffers but invalid with both buffers; on `cexCounts` (values 1, 1, 2)
the count of the value 2 is left at 0 when only the counts buffer is
supplied, even though cell 2 is resolved with value 2. -/
theorem validate_buffer_dependence_cex :
    (subsets_validate cexBuffers false false).1 = Status.unfinished ∧
    (subsets_validate cexBuffers true true).1 = Status.invalid ∧
    nthN cexCounts.known 2 = 2 ∧ nthN cexCounts.mask 2 = 2 ∧
    (subsets_validate cexCounts false true).2.2.getD 2 0 = 0 := by decide

end Subsets
